import Mathlib

/-!
# Verification of the Excel-automation backend core

A shallow embedding, in Lean 4, of the core logic of the Excel-automation
backend: the file-reference extractor (`file_reference_service.py`), the
preview LRU cache (`preview_cache.py`), the flow execution engine
(`transform_service.py`), and the flow/file/batch garbage collection
cascade (`flows.py` / `file_service.py`).  Flow documents are untyped
JSON-like trees, modeled by the `Json` type below; Python dictionary and
truthiness semantics are made explicit where the source relies on them.
-/
set_option maxHeartbeats 1000000

/-- A JSON-like value, the shape of the `flow_data` documents the backend
stores and manipulates.  Numbers are modeled as integers (file ids and the
other numeric fields the core logic inspects are integers). -/
inductive Json where
  | null : Json
  | bool (b : Bool) : Json
  | num (n : Int) : Json
  | str (s : String) : Json
  | arr (xs : List Json) : Json
  | obj (kvs : List (String × Json)) : Json

/-- First-match lookup in an association list, Python `dict` access order. -/
def jlookup : List (String × Json) → String → Option Json
  | [], _ => none
  | (k', v) :: rest, k => if k' == k then some v else jlookup rest k

/-- `j.get(k)` on a value already known to be a dict; `none` when the key is
absent or the value is not a dict. -/
def jget (j : Json) (k : String) : Option Json :=
  match j with
  | .obj kvs => jlookup kvs k
  | _ => none

/-- `j.get(k, d)`: lookup with a default. -/
def jgetD (j : Json) (k : String) (d : Json) : Json :=
  (jget j k).getD d

/-- Python truthiness of a JSON-like value. -/
def truthy : Json → Bool
  | .null => false
  | .bool b => b
  | .num n => n != 0
  | .str s => s != ""
  | .arr xs => !xs.isEmpty
  | .obj kvs => !kvs.isEmpty

/-- The integer payload of a value, when it is an `int` (`isinstance(v, int)`). -/
def jint? : Json → Option Int
  | .num n => some n
  | _ => none

/-- Replace the first binding of `k` (Python dict assignment on an existing
key), or append a new binding. -/
def objSet (kvs : List (String × Json)) (k : String) (v : Json) :
    List (String × Json) :=
  match kvs with
  | [] => [(k, v)]
  | (k', v') :: rest =>
    if k' == k then (k', v) :: rest else (k', v') :: objSet rest k v

/-! ## Reference extractor

`FileReferenceService.extract_file_ids_from_flow_data`
(`file_reference_service.py` lines 11-65).  The Python function accumulates
into a `set`; we accumulate into a duplicate-free list (first-occurrence
order) and take `List.toFinset` for the set-level statements. -/
/-- Add an id to the accumulator unless already present (`set.add`). -/
def addId (acc : List Int) (i : Int) : List Int :=
  if i ∈ acc then acc else acc ++ [i]

/-- The `fileIds` block of the extractor loop: when the value is a list, add
every int entry to the accumulator; any other shape is skipped. -/
def scanFileIds (acc : List Int) (fl : Json) : List Int :=
  match fl with
  | .arr l => l.foldl (fun a v => match jint? v with
      | some i => addId a i
      | none => a) acc
  | _ => acc

/-- The file id carried by a target-shaped value: present exactly when the
value is a dict whose `fileId` is an int (`isinstance` guards in source). -/
def targetFileId (tg : Json) : Option Int :=
  match tg with
  | .obj tkvs => jint? ((jlookup tkvs "fileId").getD .null)
  | _ => none

/-- Add an optional id to the accumulator. -/
def addOpt (acc : List Int) (o : Option Int) : List Int :=
  match o with
  | some i => addId acc i
  | none => acc

/-- The per-node body of the extractor loop: direct `fileIds` entries that
are ints, the `target` file id, and the `lookupTarget` file id. -/
def extractFromNode (acc : List Int) (node : Json) : List Int :=
  match node with
  | .obj _ =>
    let data := jgetD node "data" (.obj [])
    match data with
    | .obj _ =>
      let acc₁ := scanFileIds acc (jgetD data "fileIds" (.arr []))
      let acc₂ := addOpt acc₁ (targetFileId (jgetD data "target" (.obj [])))
      addOpt acc₂ (targetFileId (jgetD data "lookupTarget" (.obj [])))
    | _ => acc
  | _ => acc

/-- `extract_file_ids_from_flow_data`, as the list of ids in first-insertion
order.  A non-dict document or a non-list `nodes` value yields the empty
result, exactly as the guards in the source return the empty set. -/
def extractFileIdsList (d : Json) : List Int :=
  match d with
  | .obj _ =>
    match jgetD d "nodes" (.arr []) with
    | .arr ns => ns.foldl extractFromNode []
    | _ => []
  | _ => []

/-- `extract_file_ids_from_flow_data` as a finite set of integers. -/
def extractFileIds (d : Json) : Finset Int :=
  (extractFileIdsList d).toFinset

/-! ### Site-wise characterization of the extractor -/
/-- The int entries of a list-shaped value, as a set. -/
def idsOf (fl : Json) : Finset Int :=
  match fl with
  | .arr l => (l.filterMap jint?).toFinset
  | _ => ∅

/-- The int entries of a node's direct `fileIds` list. -/
def siteFileIds (node : Json) : Finset Int :=
  idsOf (jgetD (jgetD node "data" (.obj [])) "fileIds" (.arr []))

/-- The file id of the node's primary `target`, when it is an int. -/
def siteTarget (node : Json) : Finset Int :=
  (targetFileId (jgetD (jgetD node "data" (.obj [])) "target" (.obj []))).toFinset

/-- The file id of the node's `lookupTarget`, when it is an int. -/
def siteLookupTarget (node : Json) : Finset Int :=
  (targetFileId
    (jgetD (jgetD node "data" (.obj [])) "lookupTarget" (.obj []))).toFinset

/-- Whether a node is a dict with a dict `data` field, the shape the
extractor actually descends into. -/
def nodeScanned (node : Json) : Bool :=
  match node with
  | .obj _ =>
    match jgetD node "data" (.obj []) with
    | .obj _ => true
    | _ => false
  | _ => false

/-- The reference sites of one node that the code inspects. -/
def nodeCodeSites (node : Json) : Finset Int :=
  if nodeScanned node then
    siteFileIds node ∪ siteTarget node ∪ siteLookupTarget node
  else ∅

/-- The nodes list of a document, when the document is a dict and its
`nodes` field is a list; otherwise empty (the extractor's early returns). -/
def docNodes (d : Json) : List Json :=
  match d with
  | .obj _ =>
    match jgetD d "nodes" (.arr []) with
    | .arr ns => ns
    | _ => []
  | _ => []

/-- The union of the code-inspected reference sites over all nodes. -/
def codeRefSites (d : Json) : Finset Int :=
  (docNodes d).foldl (fun s n => s ∪ nodeCodeSites n) ∅

/-! ### Spec-side reference sites

The spec (§4.1, §8) additionally lists mapping-target lists and legacy
output-sheet source references as inspected sites.  These definitions follow
the spec's words to compare against the code's extractor. -/
/-- Modelled from the spec's words: the file ids of a node's
`mappingTargets` entries ("any mapping-target list"). -/
def specMappingSites (node : Json) : Finset Int :=
  match jgetD (jgetD node "data" (.obj [])) "mappingTargets" (.arr []) with
  | .arr l =>
    (l.filterMap (fun t =>
      match t with
      | .obj tkvs => jint? ((jlookup tkvs "fileId").getD .null)
      | _ => none)).toFinset
  | _ => ∅

/-- The file id referenced by a legacy output sheet's `source`, when the
sheet and its source are dicts and the id is an int. -/
def sheetSource (sh : Json) : Option Int :=
  match sh with
  | .obj skvs =>
    match jlookup skvs "source" with
    | some (.obj srckvs) => jint? ((jlookup srckvs "fileId").getD .null)
    | _ => none
  | _ => none

/-- The legacy output-sheet source ids reachable from a value-level `output`
field (a dict with a `sheets` list). -/
def outputSitesOf (ov : Json) : Finset Int :=
  match ov with
  | .obj okvs =>
    match (jlookup okvs "sheets").getD (.arr []) with
    | .arr sheets => (sheets.filterMap sheetSource).toFinset
    | _ => ∅
  | _ => ∅

/-- Modelled from the spec's words: the file ids of a node's legacy
output-sheet `source` references. -/
def specOutputSheetSites (node : Json) : Finset Int :=
  outputSitesOf ((jget (jgetD node "data" (.obj [])) "output").getD .null)

/-- Modelled from the spec's words: the full documented reference-site set of
a flow document — per-node direct file-id lists, primary target, lookup
target, every entry of a mapping-target list, and legacy output-sheet source
references. -/
def specRefSites (d : Json) : Finset Int :=
  (docNodes d).foldl
    (fun s n =>
      s ∪ (nodeCodeSites n ∪ specMappingSites n ∪ specOutputSheetSites n)) ∅

/-! ## Removing a file id from a flow document

`FileReferenceService.remove_file_id_from_flow_data`
(`file_reference_service.py` lines 145-199).  The Python function deep-copies
the document and mutates the copy in place; the functional embedding rebuilds
exactly the bindings the source assigns, returning the original subterm when
no assignment fired (the mutated copy is then structurally equal to the
input). -/
/-- Null out `fileId` and `sheetName` of a target-shaped dict when its
`fileId` equals the id being removed. -/
def removeFromTargetObj (tkvs : List (String × Json)) (fid : Int) :
    List (String × Json) × Bool :=
  if jint? ((jlookup tkvs "fileId").getD .null) == some fid then
    (objSet (objSet tkvs "fileId" .null) "sheetName" .null, true)
  else (tkvs, false)

/-- The body of the legacy output-sheet loop: null a sheet's `source`
reference when it points at the id being removed. -/
def removeFromSheet (sheet : Json) (fid : Int) : Json × Bool :=
  match sheet with
  | .obj skvs =>
    match jlookup skvs "source" with
    | some (.obj srckvs) =>
      let r := removeFromTargetObj srckvs fid
      (if r.2 then .obj (objSet skvs "source" (.obj r.1)) else sheet, r.2)
    | _ => (sheet, false)
  | _ => (sheet, false)

/-- The `fileIds` removal branch: filter the id out of the list when
present. -/
def removeStepFileIds (dkvs : List (String × Json)) (fid : Int) :
    List (String × Json) × Bool :=
  match (jlookup dkvs "fileIds").getD (.arr []) with
  | .arr l =>
    if l.any (fun v => jint? v == some fid) then
      (objSet dkvs "fileIds"
        (.arr (l.filter (fun v => !(jint? v == some fid)))), true)
    else (dkvs, false)
  | _ => (dkvs, false)

/-- The `target` / `lookupTarget` removal branch, parametrized by the key
(the two source blocks are identical up to the key name). -/
def removeStepTargetKey (dkvs : List (String × Json)) (key : String)
    (fid : Int) : List (String × Json) × Bool :=
  match jlookup dkvs key with
  | some (.obj tkvs) =>
    let t := removeFromTargetObj tkvs fid
    (if t.2 then objSet dkvs key (.obj t.1) else dkvs, t.2)
  | _ => (dkvs, false)

/-- The legacy output-sheets removal branch. -/
def removeStepOutput (dkvs : List (String × Json)) (fid : Int) :
    List (String × Json) × Bool :=
  match jlookup dkvs "output" with
  | some (.obj okvs) =>
    match (jlookup okvs "sheets").getD (.arr []) with
    | .arr sheets =>
      let rs : List (Json × Bool) := sheets.map (fun sh => removeFromSheet sh fid)
      if rs.any Prod.snd then
        (objSet dkvs "output"
          (.obj (objSet okvs "sheets" (.arr (rs.map Prod.fst)))), true)
      else (dkvs, false)
    | _ => (dkvs, false)
  | _ => (dkvs, false)

/-- Apply all four removal branches to a node's `data` dict: the `fileIds`
list, the primary `target`, the `lookupTarget`, and the legacy output
sheets. -/
def removeFromData (dkvs : List (String × Json)) (fid : Int) :
    List (String × Json) × Bool :=
  let r₁ := removeStepFileIds dkvs fid
  let r₂ := removeStepTargetKey r₁.1 "target" fid
  let r₃ := removeStepTargetKey r₂.1 "lookupTarget" fid
  let r₄ := removeStepOutput r₃.1 fid
  (r₄.1, r₁.2 || (r₂.2 || (r₃.2 || r₄.2)))

/-- The per-node body of the removal loop.  Nodes that are not dicts, or
whose `data` is absent or not a dict, are not modified (when `data` is
absent the source mutates a temporary empty dict, which is lost). -/
def removeFromNode (node : Json) (fid : Int) : Json × Bool :=
  match node with
  | .obj nkvs =>
    match jlookup nkvs "data" with
    | some (.obj dkvs) =>
      let r := removeFromData dkvs fid
      (if r.2 then .obj (objSet nkvs "data" (.obj r.1)) else node, r.2)
    | _ => (node, false)
  | _ => (node, false)

/-- `remove_file_id_from_flow_data`: returns the edited document and whether
anything changed. -/
def removeFileId (d : Json) (fid : Int) : Json × Bool :=
  match d with
  | .obj kvs =>
    match jgetD d "nodes" (.arr []) with
    | .arr ns =>
      let rs := ns.map (fun n => removeFromNode n fid)
      if rs.any Prod.snd then
        (.obj (objSet kvs "nodes" (.arr (rs.map Prod.fst))), true)
      else (d, false)
    | _ => (d, false)
  | _ => (d, false)

/-! ## Key-reorder equivalence of documents

The spec claims the extractor is stable under reordering of keys within the
document.  `JEquiv` relates two documents exactly when every dict lookup
yields related values and arrays agree elementwise — in particular any
permutation of a dict with distinct keys is related to the original. -/
/-- Pointwise lifting of a relation to optional values. -/
inductive OptRel (r : Json → Json → Prop) : Option Json → Option Json → Prop where
  | none : OptRel r none none
  | some : ∀ {a b : Json}, r a b → OptRel r (some a) (some b)

/-- Equivalence of documents up to reordering of dict keys. -/
inductive JEquiv : Json → Json → Prop where
  | null : JEquiv .null .null
  | bool (b : Bool) : JEquiv (.bool b) (.bool b)
  | num (n : Int) : JEquiv (.num n) (.num n)
  | str (s : String) : JEquiv (.str s) (.str s)
  | arr : ∀ {xs ys : List Json}, List.Forall₂ JEquiv xs ys →
      JEquiv (.arr xs) (.arr ys)
  | obj : ∀ {kvs₁ kvs₂ : List (String × Json)},
      (∀ k, OptRel JEquiv (jlookup kvs₁ k) (jlookup kvs₂ k)) →
      JEquiv (.obj kvs₁) (.obj kvs₂)

/-- Whether a value is a dict. -/
def isObjB : Json → Bool
  | .obj _ => true
  | _ => false

/-- The three code-inspected reference sites, read off a node's `data`
dict. -/
def dataSites (dkvs : List (String × Json)) : Finset Int :=
  idsOf ((jlookup dkvs "fileIds").getD (.arr []))
    ∪ (targetFileId ((jlookup dkvs "target").getD (.obj []))).toFinset
    ∪ (targetFileId ((jlookup dkvs "lookupTarget").getD (.obj []))).toFinset

/-! ## Exception-aware semantics of the extractor (safety)

Attribute access (`*.get`) on a non-dict receiver raises in Python.  The
runner below uses a fallible `get` primitive at every call site of the
source and keeps the source's `isinstance` guards; proving it always
returns `ok` shows the guards protect every access. -/
/-- Python exceptions the modeled primitives can raise. -/
inductive PyErr where
  | typeErr : PyErr
  | attrErr : PyErr

/-- `v.get(k, d)`: raises `AttributeError` on a non-dict receiver. -/
def pyGetAttrD (v : Json) (k : String) (d : Json) : Except PyErr Json :=
  match v with
  | .obj kvs => .ok ((jlookup kvs k).getD d)
  | _ => .error .attrErr

/-- The extractor's per-node body with fallible attribute access. -/
def extractRunNode (acc : List Int) (node : Json) : Except PyErr (List Int) :=
  match node with
  | .obj _ =>
    match pyGetAttrD node "data" (.obj []) with
    | .error e => .error e
    | .ok data =>
      match data with
      | .obj _ =>
        match pyGetAttrD data "fileIds" (.arr []) with
        | .error e => .error e
        | .ok fl =>
          let acc₁ := scanFileIds acc fl
          match pyGetAttrD data "target" (.obj []) with
          | .error e => .error e
          | .ok tg =>
            let acc₂ := addOpt acc₁ (targetFileId tg)
            match pyGetAttrD data "lookupTarget" (.obj []) with
            | .error e => .error e
            | .ok lk => .ok (addOpt acc₂ (targetFileId lk))
      | _ => .ok acc
  | _ => .ok acc

/-- The extractor's node loop with fallible attribute access. -/
def extractRunNodes : List Json → List Int → Except PyErr (List Int)
  | [], acc => .ok acc
  | n :: rest, acc =>
    match extractRunNode acc n with
    | .error e => .error e
    | .ok acc' => extractRunNodes rest acc'

/-- `extract_file_ids_from_flow_data` with fallible attribute access. -/
def extractRun (d : Json) : Except PyErr (List Int) :=
  match d with
  | .obj _ =>
    match pyGetAttrD d "nodes" (.arr []) with
    | .error e => .error e
    | .ok nodes =>
      match nodes with
      | .arr ns => extractRunNodes ns []
      | _ => .ok []
  | _ => .ok []

/-! ## Claims C3 and C5 -/
/-- A flow document whose only file reference sits in a `mappingTargets`
list — a documented reference site the code's extractor does not inspect. -/
def mappingOnlyDoc : Json :=
  .obj [("nodes", .arr [
    .obj [("id", .str "n1"),
          ("data", .obj [
            ("blockType", .str "excel_lookup"),
            ("mappingTargets",
              .arr [.obj [("fileId", .num 5), ("sheetName", .str "Map")]])])]])]

/-- A document carrying a direct file-id reference, and the same document
with its top-level keys reordered. -/
def reorderDocA : Json :=
  .obj [("nodes", .arr [.obj [("data", .obj [("fileIds", .arr [.num 7])])]]),
        ("edges", .arr [])]

/-- `reorderDocA` with the two top-level keys swapped. -/
def reorderDocB : Json :=
  .obj [("edges", .arr []),
        ("nodes", .arr [.obj [("data", .obj [("fileIds", .arr [.num 7])])]])]

/-- A document referencing file 3 through its primary target. -/
def targetOnlyDoc : Json :=
  .obj [("nodes", .arr [.obj [("data", .obj [
    ("target", .obj [("fileId", .num 3), ("sheetName", .str "S1")])])]])]

/-! ## Preview cache

`PreviewCache` (`preview_cache.py`).  An `OrderedDict` from key to
`(timestamp, payload)`, modeled as an insertion-ordered list with unique
keys; the front of the list is the least recently used entry
(`popitem(last=False)` pops it). -/
/-- The preview cache state: capacity, TTL in seconds, and the ordered
entry list `(key, (timestamp, payload))`, least recently used first. -/
structure Cache (V : Type) where
  maxEntries : Nat
  ttl : Nat
  entries : List (String × Nat × V)

/-- First entry with the given key. -/
def centryFind {V : Type} : List (String × Nat × V) → String → Option (Nat × V)
  | [], _ => none
  | e :: rest, k => if e.1 == k then some e.2 else centryFind rest k

/-- Remove the entries with the given key (`pop(key, None)`; keys are
unique in an `OrderedDict`). -/
def centryErase {V : Type} (l : List (String × Nat × V)) (k : String) :
    List (String × Nat × V) :=
  l.filter (fun e => !(e.1 == k))

/-- `_purge_expired`: drop every entry with `now - ts > ttl`. -/
def purgeExpired {V : Type} (c : Cache V) (now : Nat) : Cache V :=
  { c with entries := c.entries.filter (fun e => decide (now - e.2.1 ≤ c.ttl)) }

/-- `get`: purge, then on a hit pop the entry and re-insert it at the
most-recently-used end with its original timestamp. -/
def cacheGet {V : Type} (c : Cache V) (now : Nat) (k : String) :
    Option V × Cache V :=
  let c₁ := purgeExpired c now
  match centryFind c₁.entries k with
  | none => (none, c₁)
  | some (ts, v) =>
    (some v, { c₁ with entries := centryErase c₁.entries k ++ [(k, ts, v)] })

/-- `set`: purge, drop any existing entry for the key, append the new entry
with the current time, then evict from the least-recently-used end while
over capacity. -/
def cacheSet {V : Type} (c : Cache V) (now : Nat) (k : String) (v : V) :
    Cache V :=
  let c₁ := purgeExpired c now
  let l₁ := if (centryFind c₁.entries k).isSome
            then centryErase c₁.entries k else c₁.entries
  let l₂ := l₁ ++ [(k, now, v)]
  { c₁ with entries := l₂.drop (l₂.length - c₁.maxEntries) }

/-- Fold `set` over a list of key/value pairs, all at one time. -/
def cacheSetAll {V : Type} (c : Cache V) (now : Nat) :
    List (String × V) → Cache V
  | [] => c
  | p :: rest => cacheSetAll (cacheSet c now p.1 p.2) now rest

/-- Fold `get` over a list of key/time pairs. -/
def applyGets {V : Type} (c : Cache V) : List (String × Nat) → Cache V
  | [] => c
  | p :: rest => applyGets (cacheGet c p.2 p.1).2 rest

/-- The empty cache. -/
def emptyCache (V : Type) (maxE ttl : Nat) : Cache V := ⟨maxE, ttl, []⟩

/-- The stored timestamp of a key's entry. -/
def cacheTs {V : Type} (c : Cache V) (k : String) : Option Nat :=
  (centryFind c.entries k).map Prod.fst

/-! ## Flow execution engine

`TransformService.execute_flow` (`transform_service.py` lines 9-209) and its
nested helpers.  DataFrames are an abstract type `T`; object identity (which
`df.copy()` exists to break) is modeled with an explicit heap of numbered
cells: `alloc` appends a fresh cell, the Table Map maps string keys to cell
numbers, and `.copy()` is an `alloc` of the same value at a fresh number.
Transforms, file parsing and `pd.concat` are parameters of the model
(`ExecEnv`); a transform's `validate`/`execute` are pure functions of the
DataFrame value and the built config. -/
/-- First-match lookup in an association list (Python `dict` access). -/
def alookup {κ β : Type} [BEq κ] : List (κ × β) → κ → Option β
  | [], _ => none
  | (k', v) :: rest, k => if k' == k then some v else alookup rest k

/-- Replace the first binding of `k`, or append a new binding (Python `dict`
assignment: an existing key keeps its position, a new key goes last). -/
def aset {κ β : Type} [BEq κ] : List (κ × β) → κ → β → List (κ × β)
  | [], k, v => [(k, v)]
  | (k', v') :: rest, k, v =>
    if k' == k then (k', v) :: rest else (k', v') :: aset rest k v

/-- A value of a built transform config: either a JSON value copied from the
stored config, an injected DataFrame (`lookup_df`), or an injected list of
DataFrames (`mapping_dfs`). -/
inductive CfgVal (T : Type) where
  | js (j : Json) : CfgVal T
  | tbl (t : T) : CfgVal T
  | tbls (ts : List T) : CfgVal T

/-- A transform class: `validate` and `execute` as pure functions of the
input DataFrame and the built config (the assumption of claim C10). -/
structure TransformImpl (T : Type) where
  validate : T → List (String × CfgVal T) → Bool
  run : T → List (String × CfgVal T) → T

/-- The execution environment: the transform registry, `parse_file`
(path and `sheet_name` to DataFrame), the empty DataFrame `pd.DataFrame()`,
and `pd.concat`. -/
structure ExecEnv (T : Type) where
  registry : String → Option (TransformImpl T)
  parseFile : String → Json → T
  emptyTable : T
  concatTables : List T → T

/-- Mutable state of one `execute_flow` call: the heap of DataFrame objects
(cell number to value, numbers allocated in order), the Table Map
(`table_map`, key to cell number), `last_table_key`, and a counter of how
many times a transform's `execute` has run. -/
structure EState (T : Type) where
  heap : List (Nat × T)
  nextId : Nat
  tableMap : List (String × Nat)
  lastKey : Option String
  execCount : Nat

/-- Create a new DataFrame object: a fresh heap cell holding `t`. -/
def alloc {T : Type} (t : T) (s : EState T) : Nat × EState T :=
  (s.nextId, { s with heap := s.heap ++ [(s.nextId, t)], nextId := s.nextId + 1 })

/-- The value in a heap cell (total: a dangling number, which a well-formed
run never produces, reads as the empty DataFrame). -/
def heapGet {T : Type} (env : ExecEnv T) (s : EState T) (n : Nat) : T :=
  (alookup s.heap n).getD env.emptyTable

/-- Using a JSON value as a key of the int-keyed `file_paths_by_id` dict:
ints are themselves, Python `bool` compares equal to 0/1, `None` and strings
never equal an int key, and unhashable values (`list`/`dict`) raise
`TypeError`. -/
def pyIdKey : Json → Except PyErr (Option Int)
  | .num n => .ok (some n)
  | .bool b => .ok (some (if b then 1 else 0))
  | .null => .ok none
  | .str _ => .ok none
  | .arr _ => .error .typeErr
  | .obj _ => .error .typeErr

/-- `file_paths_by_id[i]` for an already-hashed key, `none` when absent. -/
def lookupPathFor (paths : List (Int × String)) : Option Int → Option String
  | some n => (paths.find? (fun p => p.1 == n)).map Prod.snd
  | none => none

/-- Python `str()` of the scalar values a table key is built from.  The
f-string of a container is approximated by a marker (no claim exercises a
container file id or sheet name in a key). -/
def pyStr : Json → String
  | .null => "None"
  | .bool b => if b then "True" else "False"
  | .num n => toString n
  | .str s => s
  | .arr _ => "<list>"
  | .obj _ => "<dict>"

/-- `table_key`: the f-string `file_id:(sheet_name or '__default__')`. -/
def tableKeyJ (fid sheet : Json) : String :=
  pyStr fid ++ ":" ++ (if truthy sheet then pyStr sheet else "__default__")

/-- `virtual_key`. -/
def virtualKey (vid : String) : String := "virtual:" ++ vid

/-- `load_table` (`transform_service.py` lines 27-36): a Table Map hit
returns the cached object; a missing file yields a fresh (uncached) empty
DataFrame; otherwise parse the file, cache the object, return it. -/
def loadTable {T : Type} (env : ExecEnv T) (paths : List (Int × String))
    (fid sheet : Json) (s : EState T) : Except PyErr (Nat × EState T) :=
  let key := tableKeyJ fid sheet
  match alookup s.tableMap key with
  | some i => .ok (i, s)
  | none =>
    match pyIdKey fid with
    | .error e => .error e
    | .ok oi =>
      match lookupPathFor paths oi with
      | none => .ok (alloc env.emptyTable s)
      | some path =>
        let p := alloc (env.parseFile path sheet) s
        .ok (p.1, { p.2 with tableMap := aset p.2.tableMap key p.1 })

/-- `load_table_for_target` (lines 38-47).  A string `virtualId` reads the
virtual key from the Table Map (the `dict.get` default `pd.DataFrame()` is
built eagerly, as in Python); otherwise `fileId or default_file_id`, a falsy
result yielding a fresh empty DataFrame. -/
def loadTableForTarget {T : Type} (env : ExecEnv T)
    (paths : List (Int × String)) (dflt : Option Int) (target : Json)
    (s : EState T) : Except PyErr (Nat × EState T) :=
  match target with
  | .obj tkvs =>
    match (jlookup tkvs "virtualId").getD Json.null with
    | .str vid =>
      let p := alloc env.emptyTable s
      match alookup p.2.tableMap (virtualKey vid) with
      | some i => .ok (i, p.2)
      | none => .ok (p.1, p.2)
    | _ =>
      let raw := (jlookup tkvs "fileId").getD Json.null
      let fid := if truthy raw then raw
        else match dflt with
          | some n => Json.num n
          | none => Json.null
      if truthy fid then
        loadTable env paths fid ((jlookup tkvs "sheetName").getD Json.null) s
      else .ok (alloc env.emptyTable s)
  | _ => .error .attrErr

/-- The key `store_table_for_target` (lines 49-61) writes to, `none` when it
stores nothing: a string `virtualId` gives the virtual key; else a truthy
`fileId` gives the table key; else no write. -/
def storeKeyOf (target : Json) : Option String :=
  match target with
  | .obj tkvs =>
    match (jlookup tkvs "virtualId").getD Json.null with
    | .str vid => some (virtualKey vid)
    | _ =>
      let raw := (jlookup tkvs "fileId").getD Json.null
      if truthy raw then
        some (tableKeyJ raw ((jlookup tkvs "sheetName").getD Json.null))
      else none
  | _ => none

/-- `store_table_for_target`: bind the resolved key (when there is one) to
the given object and return the key; with no key, store nothing and return
`None`. -/
def storeTableForTarget {T : Type} (target : Json) (objId : Nat)
    (s : EState T) : Except PyErr (Option String × EState T) :=
  match target with
  | .obj _ =>
    match storeKeyOf target with
    | some k => .ok (some k, { s with tableMap := aset s.tableMap k objId })
    | none => .ok (none, s)
  | _ => .error .attrErr

/-- The `mappingTargets` loop of `build_transform_config` (lines 79-86):
collect `load_table` results for every dict entry whose `fileId` is a
supplied file. -/
def loadMappingTargets {T : Type} (env : ExecEnv T)
    (paths : List (Int × String)) :
    List Json → List T → EState T → Except PyErr (List T × EState T)
  | [], acc, s => .ok (acc, s)
  | mt :: rest, acc, s =>
    match mt with
    | .obj mkvs =>
      match pyIdKey ((jlookup mkvs "fileId").getD Json.null) with
      | .error e => .error e
      | .ok oi =>
        match lookupPathFor paths oi with
        | none => loadMappingTargets env paths rest acc s
        | some _ =>
          match loadTable env paths ((jlookup mkvs "fileId").getD Json.null)
              ((jlookup mkvs "sheetName").getD Json.null) s with
          | .error e => .error e
          | .ok q => loadMappingTargets env paths rest
              (acc ++ [heapGet env q.2 q.1]) q.2
    | _ => loadMappingTargets env paths rest acc s

/-- Lines 77-90 of `build_transform_config`: `mappingTargets or []`, the
non-list guard, and the `mapping_dfs` / fallback `lookup_df` insertions. -/
def mappingPhase {T : Type} (env : ExecEnv T) (paths : List (Int × String))
    (dkvs : List (String × Json)) (cfg : List (String × CfgVal T))
    (s : EState T) : Except PyErr (List (String × CfgVal T) × EState T) :=
  let mt₀ := (jlookup dkvs "mappingTargets").getD Json.null
  let mt := if truthy mt₀ then mt₀ else Json.arr []
  match mt with
  | .arr mts =>
    match loadMappingTargets env paths mts [] s with
    | .error e => .error e
    | .ok (mdfs, s₁) =>
      match mdfs with
      | [] => .ok (cfg, s₁)
      | m₀ :: _ =>
        let cfg₁ := aset cfg "mapping_dfs" (CfgVal.tbls mdfs)
        match alookup cfg₁ "lookup_df" with
        | some _ => .ok (cfg₁, s₁)
        | none => .ok (aset cfg₁ "lookup_df" (CfgVal.tbl m₀), s₁)
  | _ => .ok (cfg, s)

/-- `build_transform_config` (lines 63-92): clone the stored config
(`dict(config)`), inject `lookup_df` from a dict `lookupTarget` whose
`fileId` is a supplied file, then the mapping phase.  `dict()` of a
non-mapping raises. -/
def buildTransformConfig {T : Type} (env : ExecEnv T)
    (paths : List (Int × String)) (config nodeData : Json) (s : EState T) :
    Except PyErr (List (String × CfgVal T) × EState T) :=
  match config with
  | .obj ckvs =>
    match nodeData with
    | .obj dkvs =>
      let base : List (String × CfgVal T) :=
        ckvs.map (fun p => (p.1, CfgVal.js p.2))
      match (jlookup dkvs "lookupTarget").getD Json.null with
      | .obj ltkvs =>
        match pyIdKey ((jlookup ltkvs "fileId").getD Json.null) with
        | .error e => .error e
        | .ok oi =>
          match lookupPathFor paths oi with
          | none => mappingPhase env paths dkvs base s
          | some _ =>
            match loadTable env paths
                ((jlookup ltkvs "fileId").getD Json.null)
                ((jlookup ltkvs "sheetName").getD Json.null) s with
            | .error e => .error e
            | .ok q => mappingPhase env paths dkvs
                (aset base "lookup_df" (CfgVal.tbl (heapGet env q.2 q.1))) q.2
      | _ => mappingPhase env paths dkvs base s
    | _ => .error .attrErr
  | _ => .error .typeErr

/-- `block_type in {"upload", "source", "data", "output", "mapping"}`
(line 100); hashing an unhashable `block_type` raises. -/
def btSkipE : Json → Except PyErr Bool
  | .str s => .ok (s == "upload" || s == "source" || s == "data"
      || s == "output" || s == "mapping")
  | .arr _ => .error .typeErr
  | .obj _ => .error .typeErr
  | _ => .ok false

/-- `get_transform` (`registry.py`): a string-keyed dict `get`; only string
keys can be registered, unhashable keys raise. -/
def regLookup {T : Type} (env : ExecEnv T) (bt : Json) :
    Except PyErr (Option (TransformImpl T)) :=
  match bt with
  | .str s => .ok (env.registry s)
  | .arr _ => .error .typeErr
  | .obj _ => .error .typeErr
  | _ => .ok none

/-- Everything lines 96-131 compute about a node before any table is
touched: the transform class, the effective source/destination target
lists, the stored config and the node's `data` dict. -/
structure NodePrep (T : Type) where
  transform : TransformImpl T
  sources : Json
  dests : Json
  config : Json
  nodeData : Json

/-- Lines 96-131 of the node loop: `data` with its `or {}` default, the
skip set, the `sourceTargets`/`destinationTargets` defaults, the legacy
`target`/`destination` fallbacks, the mutual source/destination fallbacks,
the `continue` when both are empty, the config default, and the registry
lookup by `blockType` then by the node's `type`.  `ok none` is Python
`continue`. -/
def nodePrep {T : Type} (env : ExecEnv T) (node : Json) :
    Except PyErr (Option (NodePrep T)) :=
  match pyGetAttrD node "data" (Json.obj []) with
  | .error e => .error e
  | .ok data₀ =>
    let data := if truthy data₀ then data₀ else Json.obj []
    match data with
    | .obj dkvs =>
      let bt := (jlookup dkvs "blockType").getD Json.null
      match btSkipE bt with
      | .error e => .error e
      | .ok true => .ok none
      | .ok false =>
        let st₀ := (jlookup dkvs "sourceTargets").getD (Json.arr [])
        let st₁ := if truthy st₀ then st₀ else Json.arr []
        let dt₀ := (jlookup dkvs "destinationTargets").getD (Json.arr [])
        let dt₁ := if truthy dt₀ then dt₀ else Json.arr []
        let st₂ := if truthy st₁ then st₁ else
          (let lg₀ := (jlookup dkvs "target").getD (Json.obj [])
           let lg := if truthy lg₀ then lg₀ else Json.obj []
           if truthy lg then Json.arr [lg] else st₁)
        let dt₂ := if truthy dt₁ then dt₁ else
          (let lg₀ := (jlookup dkvs "destination").getD (Json.obj [])
           let lg := if truthy lg₀ then lg₀ else Json.obj []
           if truthy lg then Json.arr [lg] else dt₁)
        let st₃ := if !truthy st₂ && truthy dt₂ then dt₂ else st₂
        if !truthy st₃ && !truthy dt₂ then .ok none
        else
          let dt₃ := if !truthy dt₂ then st₃ else dt₂
          let cfg₀ := (jlookup dkvs "config").getD (Json.obj [])
          let config := if truthy cfg₀ then cfg₀ else Json.obj []
          match regLookup env bt with
          | .error e => .error e
          | .ok (some tc) => .ok (some ⟨tc, st₃, dt₃, config, data⟩)
          | .ok none =>
            match pyGetAttrD node "type" Json.null with
            | .error e => .error e
            | .ok nt =>
              match regLookup env nt with
              | .error e => .error e
              | .ok (some tc) => .ok (some ⟨tc, st₃, dt₃, config, data⟩)
              | .ok none => .ok none
    | _ => .error .attrErr

/-- Iterating a Python value: lists give elements, strings characters,
dicts keys; other values raise `TypeError`. -/
def pyElems : Json → Except PyErr (List Json)
  | .arr xs => .ok xs
  | .str s => .ok (s.toList.map (fun c => Json.str (String.singleton c)))
  | .obj kvs => .ok (kvs.map (fun p => Json.str p.1))
  | _ => .error .typeErr

/-- Python `len`. -/
def pyLen (v : Json) : Except PyErr Nat :=
  match pyElems v with
  | .error e => .error e
  | .ok xs => .ok xs.length

/-- `source_targets[0]`: the first element of a non-empty list (a string
indexes to its first character; indexing anything else, or an empty list,
raises). -/
def pyIndex0 : Json → Except PyErr Json
  | .arr (x :: _) => .ok x
  | .arr [] => .error .typeErr
  | .str s =>
    match s.toList with
    | c :: _ => .ok (Json.str (String.singleton c))
    | [] => .error .typeErr
  | _ => .error .typeErr

/-- Run a transform's `execute` on a DataFrame value: the result is a new
object, and the execution counter steps. -/
def allocRun {T : Type} (t : TransformImpl T) (v : T)
    (cfg : List (String × CfgVal T)) (s : EState T) : Nat × EState T :=
  let p := alloc (t.run v cfg) s
  (p.1, { p.2 with execCount := p.2.execCount + 1 })

/-- Append mode's source loop (lines 140-153): load each source, validate,
execute, collect the result objects of the sources that validated. -/
def appendLoop {T : Type} (env : ExecEnv T) (paths : List (Int × String))
    (dflt : Option Int) (t : TransformImpl T)
    (cfg : List (String × CfgVal T)) :
    List Json → List Nat → EState T → Except PyErr (List Nat × EState T)
  | [], acc, s => .ok (acc, s)
  | src :: rest, acc, s =>
    match loadTableForTarget env paths dflt src s with
    | .error e => .error e
    | .ok (i, s₁) =>
      if t.validate (heapGet env s₁ i) cfg then
        let p := allocRun t (heapGet env s₁ i) cfg s₁
        appendLoop env paths dflt t cfg rest (acc ++ [p.1]) p.2
      else appendLoop env paths dflt t cfg rest acc s₁

/-- The destination loops of append mode (lines 157-158) and broadcast mode
(lines 178-179): for each destination, store a fresh `.copy()` of the one
result value and assign `last_table_key` to what the store returned. -/
def broadcastStore {T : Type} (env : ExecEnv T) (val : T) :
    List Json → EState T → Except PyErr (EState T)
  | [], s => .ok s
  | dst :: rest, s =>
    let p := alloc val s
    match storeTableForTarget dst p.1 p.2 with
    | .error e => .error e
    | .ok (k, s₂) => broadcastStore env val rest { s₂ with lastKey := k }

/-- The 1:1 zip loop (lines 190-206): per pair, load, validate, execute,
store the result object itself (no copy) and assign `last_table_key`. -/
def pairLoop {T : Type} (env : ExecEnv T) (paths : List (Int × String))
    (dflt : Option Int) (t : TransformImpl T)
    (cfg : List (String × CfgVal T)) :
    List (Json × Json) → EState T → Except PyErr (EState T)
  | [], s => .ok s
  | (src, dst) :: rest, s =>
    match loadTableForTarget env paths dflt src s with
    | .error e => .error e
    | .ok (i, s₁) =>
      if t.validate (heapGet env s₁ i) cfg then
        let p := allocRun t (heapGet env s₁ i) cfg s₁
        match storeTableForTarget dst p.1 p.2 with
        | .error e => .error e
        | .ok (k, s₃) => pairLoop env paths dflt t cfg rest
            { s₃ with lastKey := k }
      else pairLoop env paths dflt t cfg rest s₁

/-- The body of lines 130-206 once a transform class was found: build the
config, then append mode (more sources than destinations, destinations
non-empty), broadcast mode (one source, several destinations), the
mismatch skip, or the 1:1 zip mode. -/
def execBranch {T : Type} (env : ExecEnv T) (paths : List (Int × String))
    (dflt : Option Int) (p : NodePrep T) (s : EState T) :
    Except PyErr (EState T) :=
  match buildTransformConfig env paths p.config p.nodeData s with
  | .error e => .error e
  | .ok (cfg, s₀) =>
    match pyLen p.sources with
    | .error e => .error e
    | .ok lenS =>
      match pyLen p.dests with
      | .error e => .error e
      | .ok lenD =>
        if lenD < lenS ∧ truthy p.dests then
          match pyElems p.sources with
          | .error e => .error e
          | .ok srcs =>
            match appendLoop env paths dflt p.transform cfg srcs [] s₀ with
            | .error e => .error e
            | .ok (frames, s₁) =>
              match frames with
              | [] => .ok s₁
              | _ :: _ =>
                let q := alloc (env.concatTables
                  (frames.map (heapGet env s₁))) s₁
                match pyElems p.dests with
                | .error e => .error e
                | .ok dsts => broadcastStore env (heapGet env q.2 q.1) dsts q.2
        else if lenS = 1 ∧ 1 < lenD then
          match pyIndex0 p.sources with
          | .error e => .error e
          | .ok src =>
            match loadTableForTarget env paths dflt src s₀ with
            | .error e => .error e
            | .ok (i, s₁) =>
              if p.transform.validate (heapGet env s₁ i) cfg then
                let q := allocRun p.transform (heapGet env s₁ i) cfg s₁
                match pyElems p.dests with
                | .error e => .error e
                | .ok dsts => broadcastStore env (heapGet env q.2 q.1) dsts q.2
              else .ok s₁
        else if lenS ≠ lenD then .ok s₀
        else
          match pyElems p.sources with
          | .error e => .error e
          | .ok srcs =>
            match pyElems p.dests with
            | .error e => .error e
            | .ok dsts => pairLoop env paths dflt p.transform cfg
                (List.zip srcs dsts) s₀

/-- One iteration of the node loop: prepare the node; a `continue` leaves
the state unchanged. -/
def processNode {T : Type} (env : ExecEnv T) (paths : List (Int × String))
    (dflt : Option Int) (node : Json) (s : EState T) :
    Except PyErr (EState T) :=
  match nodePrep env node with
  | .error e => .error e
  | .ok none => .ok s
  | .ok (some p) => execBranch env paths dflt p s

/-- The node loop (line 95). -/
def nodesLoop {T : Type} (env : ExecEnv T) (paths : List (Int × String))
    (dflt : Option Int) : List Json → EState T → Except PyErr (EState T)
  | [], s => .ok s
  | n :: rest, s =>
    match processNode env paths dflt n s with
    | .error e => .error e
    | .ok s₁ => nodesLoop env paths dflt rest s₁

/-- The state `execute_flow` starts from: empty heap, empty Table Map, no
`last_table_key`. -/
def initEState (T : Type) : EState T := ⟨[], 0, [], none, 0⟩

/-- `next(iter(file_paths_by_id.keys()), None)`: the first supplied file id,
if any. -/
def defaultFileId (paths : List (Int × String)) : Option Int :=
  paths.head?.map Prod.fst

/-- `execute_flow`: run the node loop over `flow_data.get("nodes", [])` and
return the pair `(table_map, last_table_key)` — the Table Map read off as
key/value pairs in insertion order. -/
def executeFlow {T : Type} (env : ExecEnv T) (paths : List (Int × String))
    (flowData : Json) : Except PyErr (List (String × T) × Option String) :=
  match pyGetAttrD flowData "nodes" (Json.arr []) with
  | .error e => .error e
  | .ok nodes =>
    match pyElems nodes with
    | .error e => .error e
    | .ok ns =>
      match nodesLoop env paths (defaultFileId paths) ns (initEState T) with
      | .error e => .error e
      | .ok s =>
        .ok (s.tableMap.map (fun q => (q.1, heapGet env s q.2)), s.lastKey)

/-- Well-formed execution state: every heap cell number and every Table Map
binding is below the allocation counter. -/
def EWF {T : Type} (s : EState T) : Prop :=
  (∀ p ∈ s.heap, p.1 < s.nextId) ∧
  (∀ k n, alookup s.tableMap k = some n → n < s.nextId)

/-- One engine step extends the state: the allocation counter is monotone,
the execution counter is untouched, and well-formedness is preserved. -/
def EStep {T : Type} (s s' : EState T) : Prop :=
  s.nextId ≤ s'.nextId ∧ s'.execCount = s.execCount ∧ (EWF s → EWF s')

/-- A concrete transform ("inc"): always valid, adds 1 to the table value. -/
def demoImpl : TransformImpl Nat := ⟨fun _ _ => true, fun v _ => v + 1⟩

/-- A concrete environment over `Nat` tables: registry with the single
transform "inc", parsing yields 5, the empty table is 0, concat sums. -/
def demoEnv : ExecEnv Nat :=
  ⟨fun s => if s == "inc" then some demoImpl else none,
    fun _ _ => 5, 0, fun ts => ts.foldl (fun a b => a + b) 0⟩

/-- A source target naming virtual table "s". -/
def demoSrcT : Json := Json.obj [("virtualId", Json.str "s")]

/-- A destination target naming virtual table "a". -/
def demoDstA : Json := Json.obj [("virtualId", Json.str "a")]

/-- A destination target naming virtual table "b". -/
def demoDstB : Json := Json.obj [("virtualId", Json.str "b")]

/-- A transform node: one source, one destination. -/
def demoNode1 : Json :=
  Json.obj [("data", Json.obj [("blockType", Json.str "inc"),
    ("sourceTargets", Json.arr [demoSrcT]),
    ("destinationTargets", Json.arr [demoDstA])])]

/-- A flow document with that single node. -/
def demoFlow : Json := Json.obj [("nodes", Json.arr [demoNode1])]

/-- The broadcast node: one source, two destinations. -/
def demoDataB : Json :=
  Json.obj [("blockType", Json.str "inc"),
    ("sourceTargets", Json.arr [demoSrcT]),
    ("destinationTargets", Json.arr [demoDstA, demoDstB])]

/-- The broadcast node wrapped as a flow node. -/
def demoNodeB : Json := Json.obj [("data", demoDataB)]

/-- What `nodePrep` extracts from the broadcast node. -/
def demoPrepB : NodePrep Nat :=
  ⟨demoImpl, Json.arr [demoSrcT], Json.arr [demoDstA, demoDstB],
    Json.obj [], demoDataB⟩

/-- A 1:1 node whose destination target is an empty dict (no `virtualId`,
no `fileId`). -/
def demoData9 : Json :=
  Json.obj [("blockType", Json.str "inc"),
    ("sourceTargets", Json.arr [demoSrcT]),
    ("destinationTargets", Json.arr [Json.obj []])]

/-- That node wrapped as a flow node. -/
def demoNode9 : Json := Json.obj [("data", demoData9)]

/-- What `nodePrep` extracts from it. -/
def demoPrep9 : NodePrep Nat :=
  ⟨demoImpl, Json.arr [demoSrcT], Json.arr [Json.obj []],
    Json.obj [], demoData9⟩

/-! ## Config cloning in `build_transform_config` (claim C10)

In the engine above the flow document is a pure value, so its immutability
is built into the embedding.  To make the one mutation-risky step explicit,
`build_transform_config` is re-embedded over an addressed store of dicts:
the stored flow document's dicts (including each node's `config`) live at
addresses of a `DHeap`, `dict(config)` allocates a fresh address holding a
copy of the contents, and the `lookup_df` / `mapping_dfs` insertions are
in-place writes at an address.  Everything else in `execute_flow` only
reads the document or writes `table_map`, and by the claim's assumption a
transform's `validate`/`execute` do not mutate the config they receive. -/
/-- An addressed store of config dicts. -/
structure DHeap (T : Type) where
  cells : List (Nat × List (String × CfgVal T))
  next : Nat

/-- Allocate a new dict object. -/
def dalloc {T : Type} (h : DHeap T) (d : List (String × CfgVal T)) :
    Nat × DHeap T :=
  (h.next, ⟨h.cells ++ [(h.next, d)], h.next + 1⟩)

/-- `obj[k] = v` on the dict stored at address `a` (in-place mutation). -/
def dsetAt {T : Type} (h : DHeap T) (a : Nat) (k : String) (v : CfgVal T) :
    DHeap T :=
  ⟨h.cells.map (fun c => if c.1 == a then (c.1, aset c.2 k v) else c),
    h.next⟩

/-- The `mappingTargets` loop of `build_transform_config` (lines 79-86)
over a pure table loader. -/
def loadMappingVals {T : Type} (paths : List (Int × String))
    (loadVal : Json → Json → T) : List Json → List T → Except PyErr (List T)
  | [], acc => .ok acc
  | mt :: rest, acc =>
    match mt with
    | .obj mkvs =>
      match pyIdKey ((jlookup mkvs "fileId").getD Json.null) with
      | .error e => .error e
      | .ok oi =>
        match lookupPathFor paths oi with
        | none => loadMappingVals paths loadVal rest acc
        | some _ => loadMappingVals paths loadVal rest
            (acc ++ [loadVal ((jlookup mkvs "fileId").getD Json.null)
              ((jlookup mkvs "sheetName").getD Json.null)])
    | _ => loadMappingVals paths loadVal rest acc

/-- Lines 77-90 over the dict store: the `mapping_dfs` and fallback
`lookup_df` writes hit the dict at address `a`. -/
def mappingPhaseH {T : Type} (paths : List (Int × String))
    (loadVal : Json → Json → T) (dkvs : List (String × Json)) (h : DHeap T)
    (a : Nat) : Except PyErr (DHeap T × Nat) :=
  let mt₀ := (jlookup dkvs "mappingTargets").getD Json.null
  let mt := if truthy mt₀ then mt₀ else Json.arr []
  match mt with
  | .arr mts =>
    match loadMappingVals paths loadVal mts [] with
    | .error e => .error e
    | .ok mdfs =>
      match mdfs with
      | [] => .ok (h, a)
      | m₀ :: _ =>
        let h₁ := dsetAt h a "mapping_dfs" (CfgVal.tbls mdfs)
        match alookup ((alookup h₁.cells a).getD []) "lookup_df" with
        | some _ => .ok (h₁, a)
        | none => .ok (dsetAt h₁ a "lookup_df" (CfgVal.tbl m₀), a)
  | _ => .ok (h, a)

/-- `build_transform_config` (lines 63-92) over the dict store:
`next_config = dict(config)` allocates a fresh address copying the contents
at `cfgAddr`; all subsequent writes go to that fresh address. -/
def buildTransformConfigH {T : Type} (paths : List (Int × String))
    (loadVal : Json → Json → T) (h : DHeap T) (cfgAddr : Nat)
    (nodeData : Json) : Except PyErr (DHeap T × Nat) :=
  match nodeData with
  | .obj dkvs =>
    let p := dalloc h ((alookup h.cells cfgAddr).getD [])
    match (jlookup dkvs "lookupTarget").getD Json.null with
    | .obj ltkvs =>
      match pyIdKey ((jlookup ltkvs "fileId").getD Json.null) with
      | .error e => .error e
      | .ok oi =>
        match lookupPathFor paths oi with
        | none => mappingPhaseH paths loadVal dkvs p.2 p.1
        | some _ => mappingPhaseH paths loadVal dkvs
            (dsetAt p.2 p.1 "lookup_df"
              (CfgVal.tbl
                (loadVal ((jlookup ltkvs "fileId").getD Json.null)
                  ((jlookup ltkvs "sheetName").getD Json.null)))) p.1
    | _ => mappingPhaseH paths loadVal dkvs p.2 p.1
  | _ => .error .attrErr

/-! ## Flow deletion and file garbage collection (claim C2)

`delete_flow` (`flows.py` lines 162-269) and `FileService.delete_batch`
(`file_service.py` lines 17-65) over a one-user database snapshot.  The
source queries `File.batch_id` and `FileBatch.flow_id`; the model files in
`src/backend/app/models` declare neither column, so these two fields are
modelled from the spec's data model (files grouped into batches, batches
owned by the flow they were uploaded in).  All queries filter on the
current user, so a single user's rows suffice.  Disk storage is the list of
stored filenames; `storage.delete_file` is assumed to succeed. -/
/-- A `Flow` row: id and `flow_data`. -/
structure FlowRec where
  id : Int
  doc : Json

/-- A `File` row: id, on-disk filename, and the batch it belongs to
(`batch_id`, modelled from the spec: nullable batch membership). -/
structure FileRec where
  id : Int
  filename : String
  batchId : Option Int

/-- A `FileBatch` row: id and the owning flow (`flow_id`, modelled from the
spec: batches created within a flow belong to it). -/
structure BatchRec where
  id : Int
  flowId : Option Int

/-- One user's database and disk state. -/
structure DB where
  flows : List FlowRec
  files : List FileRec
  batches : List BatchRec
  disk : List String

/-- `delete_batch`'s per-flow scrub: fold `remove_file_id_from_flow_data`
over the removed file ids (`file_service.py` lines 40-54; an unchanged
document is kept as is, which `removeFileId` already returns). -/
def scrubDoc (doc : Json) (fids : List Int) : Json :=
  fids.foldl (fun d fid => (removeFileId d fid).1) doc

/-- Apply the scrub to every flow of the user. -/
def scrubFlows (flows : List FlowRec) (fids : List Int) : List FlowRec :=
  flows.map (fun fl => ⟨fl.id, scrubDoc fl.doc fids⟩)

/-- `is_file_referenced` (`file_reference_service.py` lines 88-106, no
excluded flow): some flow with truthy `flow_data` extracts the id. -/
def isFileReferenced (db : DB) (fid : Int) : Bool :=
  db.flows.any (fun fl =>
    truthy fl.doc && (extractFileIdsList fl.doc).contains fid)

/-- `FileService.delete_batch`: find the batch (else 404), strip the member
files' ids from every flow document of the user, delete the member files
from disk and database, delete the batch. -/
def deleteBatch (db : DB) (batchId : Int) : Option DB :=
  match db.batches.find? (fun b => b.id == batchId) with
  | none => none
  | some _ =>
    let files := db.files.filter (fun f => f.batchId == some batchId)
    let fids := files.map FileRec.id
    some
      { flows := scrubFlows db.flows fids,
        files := db.files.filter (fun f => !(f.batchId == some batchId)),
        batches := db.batches.filter (fun b => !(b.id == batchId)),
        disk := db.disk.filter
          (fun fn => !(files.any (fun f => f.filename == fn))) }

/-- Step 1.5 of `delete_flow` (lines 188-203): per flow-owned batch id,
re-find the batch and delete it unconditionally, recording its id. -/
def step15body (acc : DB × List Int) (bid : Int) : DB × List Int :=
  match acc.1.batches.find? (fun b => b.id == bid) with
  | none => acc
  | some _ =>
    match deleteBatch acc.1 bid with
    | none => acc
    | some db' => (db', acc.2 ++ [bid])

/-- Step 3 (lines 209-229): per batch id referenced by the flow's files,
skip the already-deleted, re-find, keep the batch when any member file is
still referenced, else delete it. -/
def step3body (acc : DB × List Int) (bid : Int) : DB × List Int :=
  if bid ∈ acc.2 then acc
  else
    match acc.1.batches.find? (fun b => b.id == bid) with
    | none => acc
    | some _ =>
      let memberFiles := acc.1.files.filter (fun f => f.batchId == some bid)
      if memberFiles.any (fun f => isFileReferenced acc.1 f.id) then acc
      else
        match deleteBatch acc.1 bid with
        | none => acc
        | some db' => (db', acc.2 ++ [bid])

/-- Step 4 (lines 231-260): per file id the deleted flow referenced, when
the file is no longer referenced by any flow, delete its record and its
disk bytes. -/
def step4body (acc : DB × List Int) (fid : Int) : DB × List Int :=
  if isFileReferenced acc.1 fid then acc
  else
    match acc.1.files.find? (fun f => f.id == fid) with
    | none => acc
    | some f =>
      ({ acc.1 with
          files := acc.1.files.filter (fun g => !(g.id == fid)),
          disk := acc.1.disk.filter (fun fn => !(fn == f.filename)) },
        acc.2 ++ [fid])

/-- `delete_flow`: find the flow (else 404); collect the referenced file
ids and their batch ids; delete the flow-owned batches (step 1.5); delete
the flow row; clean orphaned batches (step 3) and orphaned files (step 4).
Returns the final state, the deleted file ids and the deleted batch ids. -/
def deleteFlow (db : DB) (flowId : Int) :
    Option (DB × List Int × List Int) :=
  match db.flows.find? (fun fl => fl.id == flowId) with
  | none => none
  | some flow =>
    let fidsInFlow : List Int :=
      if truthy flow.doc then extractFileIdsList flow.doc else []
    let batchIdsInFlow : List Int :=
      ((db.files.filter (fun f =>
        decide (f.id ∈ fidsInFlow) && f.batchId.isSome)).filterMap
          FileRec.batchId).dedup
    let flowBatchIds :=
      (db.batches.filter (fun b => b.flowId == some flowId)).map BatchRec.id
    let s15 := flowBatchIds.foldl step15body (db, [])
    let db₃ : DB :=
      { s15.1 with flows := s15.1.flows.filter (fun fl => !(fl.id == flowId)) }
    let s3 := batchIdsInFlow.foldl step3body (db₃, s15.2)
    let s4 := fidsInFlow.foldl step4body (s3.1, [])
    some (s4.1, s4.2, s3.2)

/-- Invariant carried through the deletion of flow A: file `x` and its disk
bytes survive, rows only shrink, some flow with B's id still truthily
references `x`, and every flow document is a shrunk version of an original
one with the same id. -/
def InvA (db₀ : DB) (bId : Int) (x : FileRec) (db : DB) : Prop :=
  x ∈ db.files ∧
  (∀ f ∈ db.files, f ∈ db₀.files) ∧
  (∀ K ∈ db.batches, K ∈ db₀.batches) ∧
  x.filename ∈ db.disk ∧
  (∃ fl ∈ db.flows, fl.id = bId ∧ truthy fl.doc = true ∧
    x.id ∈ extractFileIds fl.doc) ∧
  (∀ fl ∈ db.flows, ∃ fl₀ ∈ db₀.flows, fl.id = fl₀.id ∧
    truthy fl.doc = truthy fl₀.doc ∧
    extractFileIds fl.doc ⊆ extractFileIds fl₀.doc)

/-- The database facts about `x` the garbage-collection argument needs:
file ids and filenames identify `x` uniquely, and `x` is not a member of
any batch owned by flow `aId`. -/
def XGood (db₀ : DB) (aId : Int) (x : FileRec) : Prop :=
  (∀ f ∈ db₀.files, f.id = x.id → f = x) ∧
  (∀ f ∈ db₀.files, f.filename = x.filename → f = x) ∧
  (∀ K ∈ db₀.batches, K.flowId = some aId → x.batchId ≠ some K.id)

/-- Every flow document of `db` is a shrunk version (same id, same
truthiness, subset of extracted ids) of a document of `db₀`. -/
def FlowsCorr (db₀ db : DB) : Prop :=
  ∀ fl ∈ db.flows, ∃ fl₀ ∈ db₀.flows, fl.id = fl₀.id ∧
    truthy fl.doc = truthy fl₀.doc ∧
    extractFileIds fl.doc ⊆ extractFileIds fl₀.doc

/-- `x`'s id is referenced by no flow of `db`. -/
def NRef (x : FileRec) (db : DB) : Prop :=
    isFileReferenced db x.id = false

/-- Flow A's document: truthy, references no file. -/
def c2adoc : Json := Json.obj [("nodes", Json.arr [])]

/-- Flow B's document: one node whose `fileIds` holds file 10. -/
def c2bdoc : Json :=
  Json.obj [("nodes", Json.arr [Json.obj [("data",
    Json.obj [("fileIds", Json.arr [Json.num 10])])]])]

/-- Flow B's document after file 10 is scrubbed from it. -/
def c2bdocScrubbed : Json :=
  Json.obj [("nodes", Json.arr [Json.obj [("data",
    Json.obj [("fileIds", Json.arr [])])]])]

/-- The violating state: file 10 sits in batch 5, batch 5 is owned by flow
A (id 1), and flow B (id 2) references file 10. -/
def c2dbX : DB :=
  ⟨[⟨1, c2adoc⟩, ⟨2, c2bdoc⟩], [⟨10, "x.xlsx", some 5⟩], [⟨5, some 1⟩],
    ["x.xlsx"]⟩

/-- The amended claim at a concrete state: file 10 has no batch, flows A
(id 1, no references) and B (id 2, references 10). -/
def c2dbW : DB :=
  ⟨[⟨1, c2adoc⟩, ⟨2, c2bdoc⟩], [⟨10, "x.xlsx", none⟩], [], ["x.xlsx"]⟩

/-! ## Association-list and accumulator lemmas -/
theorem jlookup_objSet_self (kvs : List (String × Json)) (k : String) (v : Json) :
    jlookup (objSet kvs k v) k = some v := by
  induction kvs with
  | nil => simp [objSet, jlookup]
  | cons p rest ih =>
    obtain ⟨k₀, v₀⟩ := p
    by_cases h : k₀ = k
    · subst h; simp [objSet, jlookup]
    · simp [objSet, jlookup, h, ih]

theorem jlookup_objSet_ne (kvs : List (String × Json)) (k k' : String) (v : Json)
    (h : k' ≠ k) : jlookup (objSet kvs k v) k' = jlookup kvs k' := by
  induction kvs with
  | nil => simp [objSet, jlookup, Ne.symm h]
  | cons p rest ih =>
    obtain ⟨k₀, v₀⟩ := p
    by_cases hk : k₀ = k
    · subst hk
      have : ¬ (k₀ == k') = true := by
        simp only [beq_iff_eq]
        intro hh; exact h (hh ▸ rfl)
      simp [objSet, jlookup, this]
    · by_cases hk' : k₀ = k'
      · subst hk'; simp [objSet, jlookup, hk]
      · simp [objSet, jlookup, hk, hk', ih]

theorem addId_toFinset (acc : List Int) (i : Int) :
    (addId acc i).toFinset = insert i acc.toFinset := by
  by_cases h : i ∈ acc
  · simp [addId, h, Finset.insert_eq_self.mpr (List.mem_toFinset.mpr h)]
  · simp [addId, h, List.toFinset_append, Finset.union_comm, Finset.insert_eq]

theorem foldIds_toFinset (l : List Json) (acc : List Int) :
    (l.foldl (fun a v => match jint? v with
      | some i => addId a i
      | none => a) acc).toFinset
      = acc.toFinset ∪ (l.filterMap jint?).toFinset := by
  induction l generalizing acc with
  | nil => simp
  | cons v rest ih =>
    cases h : jint? v with
    | none => simp [List.foldl_cons, h, ih, List.filterMap_cons]
    | some i =>
      simp [List.foldl_cons, h, ih, List.filterMap_cons, addId_toFinset,
        Finset.insert_union, Finset.union_insert]

theorem scanFileIds_toFinset (acc : List Int) (fl : Json) :
    (scanFileIds acc fl).toFinset = acc.toFinset ∪ idsOf fl := by
  cases fl <;> simp [scanFileIds, idsOf, foldIds_toFinset]

theorem addOpt_toFinset (acc : List Int) (o : Option Int) :
    (addOpt acc o).toFinset = acc.toFinset ∪ o.toFinset := by
  cases o <;> simp [addOpt, addId_toFinset, Finset.union_comm, Finset.insert_eq]

theorem extractFromNode_toFinset (acc : List Int) (node : Json) :
    (extractFromNode acc node).toFinset = acc.toFinset ∪ nodeCodeSites node := by
  cases node with
  | obj nkvs =>
    cases hdata : jgetD (Json.obj nkvs) "data" (.obj []) with
    | obj dkvs =>
      have hscan : nodeScanned (Json.obj nkvs) = true := by
        simp [nodeScanned, hdata]
      simp [extractFromNode, hdata, nodeCodeSites, hscan, addOpt_toFinset,
        scanFileIds_toFinset, siteFileIds, siteTarget, siteLookupTarget,
        Finset.union_assoc]
    | null =>
      have hscan : nodeScanned (Json.obj nkvs) = false := by
        simp [nodeScanned, hdata]
      simp [extractFromNode, hdata, nodeCodeSites, hscan]
    | bool b =>
      have hscan : nodeScanned (Json.obj nkvs) = false := by
        simp [nodeScanned, hdata]
      simp [extractFromNode, hdata, nodeCodeSites, hscan]
    | num n =>
      have hscan : nodeScanned (Json.obj nkvs) = false := by
        simp [nodeScanned, hdata]
      simp [extractFromNode, hdata, nodeCodeSites, hscan]
    | str st =>
      have hscan : nodeScanned (Json.obj nkvs) = false := by
        simp [nodeScanned, hdata]
      simp [extractFromNode, hdata, nodeCodeSites, hscan]
    | arr xs =>
      have hscan : nodeScanned (Json.obj nkvs) = false := by
        simp [nodeScanned, hdata]
      simp [extractFromNode, hdata, nodeCodeSites, hscan]
  | null => simp [extractFromNode, nodeCodeSites, nodeScanned]
  | bool b => simp [extractFromNode, nodeCodeSites, nodeScanned]
  | num n => simp [extractFromNode, nodeCodeSites, nodeScanned]
  | str st => simp [extractFromNode, nodeCodeSites, nodeScanned]
  | arr xs => simp [extractFromNode, nodeCodeSites, nodeScanned]

theorem foldl_union_init {α : Type} [DecidableEq α] (f : Json → Finset α)
    (ns : List Json) (s : Finset α) :
    ns.foldl (fun t n => t ∪ f n) s = s ∪ ns.foldl (fun t n => t ∪ f n) ∅ := by
  induction ns generalizing s with
  | nil => simp
  | cons n rest ih =>
    simp only [List.foldl_cons]
    rw [ih (s ∪ f n), ih (∅ ∪ f n)]
    simp [Finset.union_assoc]

theorem extractNodes_toFinset (ns : List Json) (acc : List Int) :
    (ns.foldl extractFromNode acc).toFinset
      = acc.toFinset ∪ ns.foldl (fun s n => s ∪ nodeCodeSites n) ∅ := by
  induction ns generalizing acc with
  | nil => simp
  | cons n rest ih =>
    simp only [List.foldl_cons]
    rw [ih, extractFromNode_toFinset, foldl_union_init nodeCodeSites rest,
      foldl_union_init nodeCodeSites rest (∅ ∪ nodeCodeSites n)]
    simp [Finset.union_assoc]

/-- The extractor returns exactly the union, over all nodes, of the three
code-inspected reference sites. -/
theorem extract_eq_codeRefSites (d : Json) :
    extractFileIds d = codeRefSites d := by
  cases d with
  | obj kvs =>
    cases hn : jgetD (Json.obj kvs) "nodes" (.arr []) with
    | arr ns =>
      simp [extractFileIds, extractFileIdsList, hn, codeRefSites, docNodes,
        extractNodes_toFinset]
    | null => simp [extractFileIds, extractFileIdsList, hn, codeRefSites, docNodes]
    | bool b => simp [extractFileIds, extractFileIdsList, hn, codeRefSites, docNodes]
    | num n => simp [extractFileIds, extractFileIdsList, hn, codeRefSites, docNodes]
    | str st => simp [extractFileIds, extractFileIdsList, hn, codeRefSites, docNodes]
    | obj o => simp [extractFileIds, extractFileIdsList, hn, codeRefSites, docNodes]
  | null => simp [extractFileIds, extractFileIdsList, codeRefSites, docNodes]
  | bool b => simp [extractFileIds, extractFileIdsList, codeRefSites, docNodes]
  | num n => simp [extractFileIds, extractFileIdsList, codeRefSites, docNodes]
  | str st => simp [extractFileIds, extractFileIdsList, codeRefSites, docNodes]
  | arr xs => simp [extractFileIds, extractFileIdsList, codeRefSites, docNodes]

theorem jequiv_refl_aux : ∀ (n : Nat) (j : Json), sizeOf j ≤ n → JEquiv j j := by
  intro n
  induction n with
  | zero =>
    intro j h
    exfalso
    cases j <;> simp_all
  | succ m ih =>
    intro j h
    cases j with
    | null => exact .null
    | bool b => exact .bool b
    | num v => exact .num v
    | str s => exact .str s
    | arr xs =>
      refine .arr (List.forall₂_same.mpr (fun x hx => ih x ?_))
      have hlt : sizeOf x < sizeOf (Json.arr xs) := by
        have := List.sizeOf_lt_of_mem hx
        simp only [Json.arr.sizeOf_spec]
        omega
      omega
    | obj kvs =>
      refine .obj (fun k => ?_)
      cases hfind : jlookup kvs k with
      | none => exact .none
      | some v =>
        refine .some (ih v ?_)
        have hv : sizeOf v < sizeOf (Json.obj kvs) := by
          clear ih h
          induction kvs with
          | nil => simp [jlookup] at hfind
          | cons p rest ihp =>
            obtain ⟨k₀, v₀⟩ := p
            by_cases hk : (k₀ == k) = true
            · simp [jlookup, hk] at hfind
              subst hfind
              simp
              omega
            · simp only [jlookup, hk, if_false] at hfind
              have := ihp hfind
              simp at this ⊢
              omega
        omega

/-- `JEquiv` is reflexive. -/
theorem jequiv_refl (j : Json) : JEquiv j j :=
  jequiv_refl_aux (sizeOf j) j le_rfl

theorem jget_rel {j₁ j₂ : Json} (h : JEquiv j₁ j₂) (k : String) :
    OptRel JEquiv (jget j₁ k) (jget j₂ k) := by
  cases h with
  | null => exact .none
  | bool b => exact .none
  | num n => exact .none
  | str s => exact .none
  | arr hall => exact .none
  | obj hob => exact hob k

theorem optRel_getD {o₁ o₂ : Option Json} (h : OptRel JEquiv o₁ o₂) (d : Json) :
    JEquiv (o₁.getD d) (o₂.getD d) := by
  cases h with
  | none => exact jequiv_refl d
  | some hr => exact hr

theorem jgetD_rel {j₁ j₂ : Json} (h : JEquiv j₁ j₂) (k : String) (d : Json) :
    JEquiv (jgetD j₁ k d) (jgetD j₂ k d) :=
  optRel_getD (jget_rel h k) d

theorem jint?_rel {v w : Json} (h : JEquiv v w) : jint? v = jint? w := by
  cases h <;> simp [jint?]

theorem targetFileId_rel {t₁ t₂ : Json} (h : JEquiv t₁ t₂) :
    targetFileId t₁ = targetFileId t₂ := by
  cases h with
  | obj hob => exact jint?_rel (optRel_getD (hob "fileId") .null)
  | null => rfl
  | bool b => rfl
  | num n => rfl
  | str s => rfl
  | arr hall => rfl

theorem idsOf_rel {f₁ f₂ : Json} (h : JEquiv f₁ f₂) : idsOf f₁ = idsOf f₂ := by
  cases h with
  | arr hall =>
    simp only [idsOf]
    congr 1
    induction hall with
    | nil => rfl
    | @cons a b l₁ l₂ hxy htail ihl =>
      cases hv : jint? b <;>
        simp_all [List.filterMap_cons, jint?_rel hxy]
  | null => rfl
  | bool b => rfl
  | num n => rfl
  | str s => rfl
  | obj hob => rfl

theorem isObjB_rel {a b : Json} (h : JEquiv a b) : isObjB a = isObjB b := by
  cases h <;> rfl

theorem nodeScanned_rel {n₁ n₂ : Json} (h : JEquiv n₁ n₂) :
    nodeScanned n₁ = nodeScanned n₂ := by
  cases h with
  | @obj kvs₁ kvs₂ hob =>
    have hd := jgetD_rel (JEquiv.obj hob) "data" (Json.obj [])
    simp only [nodeScanned]
    revert hd
    generalize jgetD (Json.obj kvs₁) "data" (Json.obj []) = d₁
    generalize jgetD (Json.obj kvs₂) "data" (Json.obj []) = d₂
    intro hd
    cases hd <;> rfl
  | null => rfl
  | bool b => rfl
  | num n => rfl
  | str s => rfl
  | arr hall => rfl

theorem siteFileIds_rel {n₁ n₂ : Json} (h : JEquiv n₁ n₂) :
    siteFileIds n₁ = siteFileIds n₂ :=
  idsOf_rel (jgetD_rel (jgetD_rel h "data" (.obj [])) "fileIds" (.arr []))

theorem siteTarget_rel {n₁ n₂ : Json} (h : JEquiv n₁ n₂) :
    siteTarget n₁ = siteTarget n₂ := by
  simp only [siteTarget]
  rw [targetFileId_rel (jgetD_rel (jgetD_rel h "data" (.obj [])) "target" (.obj []))]

theorem siteLookupTarget_rel {n₁ n₂ : Json} (h : JEquiv n₁ n₂) :
    siteLookupTarget n₁ = siteLookupTarget n₂ := by
  simp only [siteLookupTarget]
  rw [targetFileId_rel
    (jgetD_rel (jgetD_rel h "data" (.obj [])) "lookupTarget" (.obj []))]

theorem nodeCodeSites_rel {n₁ n₂ : Json} (h : JEquiv n₁ n₂) :
    nodeCodeSites n₁ = nodeCodeSites n₂ := by
  simp only [nodeCodeSites]
  rw [nodeScanned_rel h, siteFileIds_rel h, siteTarget_rel h,
    siteLookupTarget_rel h]

theorem docNodes_rel {d₁ d₂ : Json} (h : JEquiv d₁ d₂) :
    List.Forall₂ JEquiv (docNodes d₁) (docNodes d₂) := by
  cases h with
  | @obj kvs₁ kvs₂ hob =>
    have hd := jgetD_rel (JEquiv.obj hob) "nodes" (Json.arr [])
    simp only [docNodes]
    revert hd
    generalize jgetD (Json.obj kvs₁) "nodes" (Json.arr []) = n₁
    generalize jgetD (Json.obj kvs₂) "nodes" (Json.arr []) = n₂
    intro hd
    cases hd with
    | arr hall => exact hall
    | null => exact .nil
    | bool b => exact .nil
    | num n => exact .nil
    | str s => exact .nil
    | obj hob₂ => exact .nil
  | null => exact .nil
  | bool b => exact .nil
  | num n => exact .nil
  | str s => exact .nil
  | arr hall => exact .nil

theorem foldl_sites_forall2 {l₁ l₂ : List Json}
    (hall : List.Forall₂ JEquiv l₁ l₂) :
    l₁.foldl (fun s n => s ∪ nodeCodeSites n) ∅
      = l₂.foldl (fun s n => s ∪ nodeCodeSites n) ∅ := by
  induction hall with
  | nil => rfl
  | @cons a b l₁ l₂ hxy htail ihl =>
    simp only [List.foldl_cons]
    rw [foldl_union_init nodeCodeSites l₁, foldl_union_init nodeCodeSites l₂,
      nodeCodeSites_rel hxy, ihl]

theorem codeRefSites_rel {d₁ d₂ : Json} (h : JEquiv d₁ d₂) :
    codeRefSites d₁ = codeRefSites d₂ := by
  simp only [codeRefSites]
  exact foldl_sites_forall2 (docNodes_rel h)

/-- The extractor is invariant under key reordering. -/
theorem extract_jequiv {d₁ d₂ : Json} (h : JEquiv d₁ d₂) :
    extractFileIds d₁ = extractFileIds d₂ := by
  rw [extract_eq_codeRefSites, extract_eq_codeRefSites, codeRefSites_rel h]

/-! ## Interaction of `removeFileId` with the extractor -/
theorem filterMap_filter_ne (l : List Json) (fid : Int) :
    (l.filter (fun v => !(jint? v == some fid))).filterMap jint?
      = (l.filterMap jint?).filter (fun i => !(i == fid)) := by
  induction l with
  | nil => rfl
  | cons v rest ih =>
    cases hv : jint? v with
    | none => simp [List.filter_cons, List.filterMap_cons, hv, ih]
    | some i =>
      by_cases hi : i = fid
      · subst hi
        simp [List.filter_cons, List.filterMap_cons, hv, ih]
      · simp [List.filter_cons, List.filterMap_cons, hv, hi, ih]

theorem idsOf_filtered (l : List Json) (fid : Int) :
    idsOf (.arr (l.filter (fun v => !(jint? v == some fid))))
      = idsOf (.arr l) \ {fid} := by
  simp only [idsOf, filterMap_filter_ne]
  ext i
  by_cases hi : i = fid <;> simp [List.mem_toFinset, List.mem_filter, hi]

theorem idsOf_not_mem_of_not_any (l : List Json) (fid : Int)
    (h : l.any (fun v => jint? v == some fid) = false) :
    fid ∉ idsOf (.arr l) := by
  simp only [idsOf, List.mem_toFinset, List.mem_filterMap]
  rintro ⟨v, hv, hint⟩
  have := List.any_eq_false.mp h v hv
  simp [hint] at this

theorem removeFromTargetObj_fileId (tkvs : List (String × Json)) (fid : Int) :
    targetFileId (.obj (removeFromTargetObj tkvs fid).1)
      = (if targetFileId (.obj tkvs) = some fid then none
         else targetFileId (.obj tkvs)) := by
  by_cases h : targetFileId (.obj tkvs) = some fid
  · have hc : (jint? ((jlookup tkvs "fileId").getD .null) == some fid) = true := by
      simp only [targetFileId] at h
      simp [h]
    simp only [removeFromTargetObj, hc, if_true, targetFileId] at h ⊢
    rw [jlookup_objSet_ne _ "sheetName" "fileId" _ (by decide),
      jlookup_objSet_self, if_pos h]
    rfl
  · have hc : (jint? ((jlookup tkvs "fileId").getD .null) == some fid) = false := by
      simp only [targetFileId] at h
      simp [h]
    simp [removeFromTargetObj, hc, h]

theorem removeFromTargetObj_changed (tkvs : List (String × Json)) (fid : Int) :
    (removeFromTargetObj tkvs fid).2
      = (targetFileId (.obj tkvs) == some fid) := by
  simp [removeFromTargetObj, targetFileId]
  by_cases h : jint? ((jlookup tkvs "fileId").getD .null) = some fid <;> simp [h]

theorem optFinset_remove (o : Option Int) (fid : Int) :
    (if o = some fid then none else o).toFinset = o.toFinset \ {fid} := by
  cases o with
  | none => simp
  | some i =>
    by_cases hi : i = fid
    · subst hi; simp
    · rw [if_neg (by simp [hi])]
      simp only [Option.toFinset_some]
      rw [eq_comm, Finset.sdiff_eq_self_iff_disjoint]
      simp [hi, Ne.symm hi]

theorem optFinset_sdiff_of_ne (o : Option Int) (fid : Int)
    (h : o ≠ some fid) : o.toFinset \ {fid} = o.toFinset := by
  cases o with
  | none => simp
  | some i =>
    have hi : i ≠ fid := fun hh => h (hh ▸ rfl)
    simp only [Option.toFinset_some]
    rw [Finset.sdiff_eq_self_iff_disjoint]
    simp [Ne.symm hi]

theorem removeStepFileIds_other (dkvs : List (String × Json)) (fid : Int)
    (k : String) (hk : k ≠ "fileIds") :
    jlookup (removeStepFileIds dkvs fid).1 k = jlookup dkvs k := by
  cases hv : (jlookup dkvs "fileIds").getD (.arr []) with
  | arr l =>
    by_cases hany : l.any (fun v => jint? v == some fid) = true
    · simp [removeStepFileIds, hv, hany, jlookup_objSet_ne _ _ _ _ hk]
    · simp [removeStepFileIds, hv, hany]
  | null => simp [removeStepFileIds, hv]
  | bool b => simp [removeStepFileIds, hv]
  | num n => simp [removeStepFileIds, hv]
  | str st => simp [removeStepFileIds, hv]
  | obj o => simp [removeStepFileIds, hv]

theorem removeStepFileIds_ids (dkvs : List (String × Json)) (fid : Int) :
    idsOf ((jlookup (removeStepFileIds dkvs fid).1 "fileIds").getD (.arr []))
      = idsOf ((jlookup dkvs "fileIds").getD (.arr [])) \ {fid} := by
  cases hv : (jlookup dkvs "fileIds").getD (.arr []) with
  | arr l =>
    by_cases hany : l.any (fun v => jint? v == some fid) = true
    · simp only [removeStepFileIds, hv, hany, if_true]
      rw [jlookup_objSet_self]
      simp [idsOf_filtered]
    · have hany' : (l.any fun v => jint? v == some fid) = false := by
        simpa using hany
      simp only [removeStepFileIds, hv, hany', Bool.false_eq_true, if_false]
      rw [eq_comm, Finset.sdiff_eq_self_iff_disjoint]
      have hmem := idsOf_not_mem_of_not_any l fid hany'
      simp [Finset.disjoint_left, hmem]
  | null => simp [removeStepFileIds, hv, idsOf]
  | bool b => simp [removeStepFileIds, hv, idsOf]
  | num n => simp [removeStepFileIds, hv, idsOf]
  | str st => simp [removeStepFileIds, hv, idsOf]
  | obj o => simp [removeStepFileIds, hv, idsOf]

theorem removeStepFileIds_unchanged (dkvs : List (String × Json)) (fid : Int)
    (h : (removeStepFileIds dkvs fid).2 = false) :
    (removeStepFileIds dkvs fid).1 = dkvs := by
  cases hv : (jlookup dkvs "fileIds").getD (.arr []) with
  | arr l =>
    by_cases hany : l.any (fun v => jint? v == some fid) = true
    · simp [removeStepFileIds, hv, hany] at h
    · simp [removeStepFileIds, hv, hany]
  | null => simp [removeStepFileIds, hv]
  | bool b => simp [removeStepFileIds, hv]
  | num n => simp [removeStepFileIds, hv]
  | str st => simp [removeStepFileIds, hv]
  | obj o => simp [removeStepFileIds, hv]

theorem removeStepFileIds_not_fired (dkvs : List (String × Json)) (fid : Int)
    (h : fid ∉ idsOf ((jlookup dkvs "fileIds").getD (.arr []))) :
    removeStepFileIds dkvs fid = (dkvs, false) := by
  cases hv : (jlookup dkvs "fileIds").getD (.arr []) with
  | arr l =>
    rw [hv] at h
    have hany : (l.any fun v => jint? v == some fid) = false := by
      rw [List.any_eq_false]
      intro v hvmem
      simp only [beq_iff_eq]
      intro hint
      apply h
      simp only [idsOf, List.mem_toFinset, List.mem_filterMap]
      exact ⟨v, hvmem, hint⟩
    simp [removeStepFileIds, hv, hany]
  | null => simp [removeStepFileIds, hv]
  | bool b => simp [removeStepFileIds, hv]
  | num n => simp [removeStepFileIds, hv]
  | str st => simp [removeStepFileIds, hv]
  | obj o => simp [removeStepFileIds, hv]

theorem removeStepTargetKey_other (dkvs : List (String × Json)) (key : String)
    (fid : Int) (k : String) (hk : k ≠ key) :
    jlookup (removeStepTargetKey dkvs key fid).1 k = jlookup dkvs k := by
  cases hv : jlookup dkvs key with
  | none => simp [removeStepTargetKey, hv]
  | some v =>
    cases v with
    | obj tkvs =>
      by_cases hch : (removeFromTargetObj tkvs fid).2 = true
      · simp [removeStepTargetKey, hv, hch, jlookup_objSet_ne _ _ _ _ hk]
      · simp [removeStepTargetKey, hv, hch]
    | null => simp [removeStepTargetKey, hv]
    | bool b => simp [removeStepTargetKey, hv]
    | num n => simp [removeStepTargetKey, hv]
    | str st => simp [removeStepTargetKey, hv]
    | arr xs => simp [removeStepTargetKey, hv]

theorem removeStepTargetKey_self (dkvs : List (String × Json)) (key : String)
    (fid : Int) :
    (targetFileId
        ((jlookup (removeStepTargetKey dkvs key fid).1 key).getD (.obj []))).toFinset
      = (targetFileId ((jlookup dkvs key).getD (.obj []))).toFinset \ {fid} := by
  cases hv : jlookup dkvs key with
  | none =>
    simp [removeStepTargetKey, hv, targetFileId, jlookup, jint?]
  | some v =>
    cases v with
    | obj tkvs =>
      by_cases hch : (removeFromTargetObj tkvs fid).2 = true
      · have hfid : targetFileId (.obj tkvs) = some fid := by
          have := removeFromTargetObj_changed tkvs fid
          rw [hch] at this
          exact (beq_iff_eq.mp this.symm)
        simp only [removeStepTargetKey, hv, hch, if_true]
        rw [jlookup_objSet_self]
        simp only [Option.getD_some, removeFromTargetObj_fileId, hfid, if_pos]
        simp [hfid]
      · have hfid : targetFileId (.obj tkvs) ≠ some fid := by
          have := removeFromTargetObj_changed tkvs fid
          simp only [hch] at this
          intro hh
          rw [hh] at this
          simp at this
        simp only [removeStepTargetKey, hv, hch, Bool.false_eq_true, if_false]
        simp only [Option.getD_some]
        rw [optFinset_sdiff_of_ne _ _ hfid]
    | null => simp [removeStepTargetKey, hv, targetFileId]
    | bool b => simp [removeStepTargetKey, hv, targetFileId]
    | num n => simp [removeStepTargetKey, hv, targetFileId]
    | str st => simp [removeStepTargetKey, hv, targetFileId]
    | arr xs => simp [removeStepTargetKey, hv, targetFileId]

theorem removeStepTargetKey_unchanged (dkvs : List (String × Json))
    (key : String) (fid : Int)
    (h : (removeStepTargetKey dkvs key fid).2 = false) :
    (removeStepTargetKey dkvs key fid).1 = dkvs := by
  cases hv : jlookup dkvs key with
  | none => simp [removeStepTargetKey, hv]
  | some v =>
    cases v with
    | obj tkvs =>
      by_cases hch : (removeFromTargetObj tkvs fid).2 = true
      · simp [removeStepTargetKey, hv, hch] at h
      · simp [removeStepTargetKey, hv, hch]
    | null => simp [removeStepTargetKey, hv]
    | bool b => simp [removeStepTargetKey, hv]
    | num n => simp [removeStepTargetKey, hv]
    | str st => simp [removeStepTargetKey, hv]
    | arr xs => simp [removeStepTargetKey, hv]

theorem removeStepTargetKey_not_fired (dkvs : List (String × Json))
    (key : String) (fid : Int)
    (h : fid ∉ (targetFileId ((jlookup dkvs key).getD (.obj []))).toFinset) :
    removeStepTargetKey dkvs key fid = (dkvs, false) := by
  cases hv : jlookup dkvs key with
  | none => simp [removeStepTargetKey, hv]
  | some v =>
    cases v with
    | obj tkvs =>
      have hfid : targetFileId (.obj tkvs) ≠ some fid := by
        intro hh
        apply h
        simp [hv, hh]
      have hch : (removeFromTargetObj tkvs fid).2 = false := by
        rw [removeFromTargetObj_changed]
        simp [hfid]
      have hun : (removeFromTargetObj tkvs fid).1 = tkvs := by
        simp only [removeFromTargetObj] at hch ⊢
        by_cases hc : (jint? ((jlookup tkvs "fileId").getD .null) == some fid) = true
        · simp [hc] at hch
        · simp [hc]
      simp [removeStepTargetKey, hv, hch]
    | null => simp [removeStepTargetKey, hv]
    | bool b => simp [removeStepTargetKey, hv]
    | num n => simp [removeStepTargetKey, hv]
    | str st => simp [removeStepTargetKey, hv]
    | arr xs => simp [removeStepTargetKey, hv]

theorem removeStepOutput_other (dkvs : List (String × Json)) (fid : Int)
    (k : String) (hk : k ≠ "output") :
    jlookup (removeStepOutput dkvs fid).1 k = jlookup dkvs k := by
  cases hv : jlookup dkvs "output" with
  | none => simp [removeStepOutput, hv]
  | some v =>
    cases v with
    | obj okvs =>
      cases hs : (jlookup okvs "sheets").getD (.arr []) with
      | arr sheets =>
        by_cases hany :
            (sheets.map (fun sh => removeFromSheet sh fid)).any Prod.snd = true
        · simp [removeStepOutput, hv, hs, hany, jlookup_objSet_ne _ _ _ _ hk]
        · simp [removeStepOutput, hv, hs, hany]
      | null => simp [removeStepOutput, hv, hs]
      | bool b => simp [removeStepOutput, hv, hs]
      | num n => simp [removeStepOutput, hv, hs]
      | str st => simp [removeStepOutput, hv, hs]
      | obj o => simp [removeStepOutput, hv, hs]
    | null => simp [removeStepOutput, hv]
    | bool b => simp [removeStepOutput, hv]
    | num n => simp [removeStepOutput, hv]
    | str st => simp [removeStepOutput, hv]
    | arr xs => simp [removeStepOutput, hv]

theorem removeStepOutput_unchanged (dkvs : List (String × Json)) (fid : Int)
    (h : (removeStepOutput dkvs fid).2 = false) :
    (removeStepOutput dkvs fid).1 = dkvs := by
  cases hv : jlookup dkvs "output" with
  | none => simp [removeStepOutput, hv]
  | some v =>
    cases v with
    | obj okvs =>
      cases hs : (jlookup okvs "sheets").getD (.arr []) with
      | arr sheets =>
        by_cases hany :
            (sheets.map (fun sh => removeFromSheet sh fid)).any Prod.snd = true
        · simp [removeStepOutput, hv, hs, hany] at h
        · simp [removeStepOutput, hv, hs, hany]
      | null => simp [removeStepOutput, hv, hs]
      | bool b => simp [removeStepOutput, hv, hs]
      | num n => simp [removeStepOutput, hv, hs]
      | str st => simp [removeStepOutput, hv, hs]
      | obj o => simp [removeStepOutput, hv, hs]
    | null => simp [removeStepOutput, hv]
    | bool b => simp [removeStepOutput, hv]
    | num n => simp [removeStepOutput, hv]
    | str st => simp [removeStepOutput, hv]
    | arr xs => simp [removeStepOutput, hv]

theorem removeFromSheet_changed (sh : Json) (fid : Int) :
    (removeFromSheet sh fid).2 = (sheetSource sh == some fid) := by
  cases sh with
  | obj skvs =>
    cases hsrc : jlookup skvs "source" with
    | none => simp [removeFromSheet, sheetSource, hsrc]
    | some v =>
      cases v with
      | obj srckvs =>
        simp [removeFromSheet, sheetSource, hsrc,
          removeFromTargetObj_changed, targetFileId]
      | null => simp [removeFromSheet, sheetSource, hsrc]
      | bool b => simp [removeFromSheet, sheetSource, hsrc]
      | num n => simp [removeFromSheet, sheetSource, hsrc]
      | str st => simp [removeFromSheet, sheetSource, hsrc]
      | arr xs => simp [removeFromSheet, sheetSource, hsrc]
  | null => simp [removeFromSheet, sheetSource]
  | bool b => simp [removeFromSheet, sheetSource]
  | num n => simp [removeFromSheet, sheetSource]
  | str st => simp [removeFromSheet, sheetSource]
  | arr xs => simp [removeFromSheet, sheetSource]

theorem removeStepOutput_not_fired (dkvs : List (String × Json)) (fid : Int)
    (h : fid ∉ outputSitesOf ((jlookup dkvs "output").getD .null)) :
    removeStepOutput dkvs fid = (dkvs, false) := by
  cases hv : jlookup dkvs "output" with
  | none => simp [removeStepOutput, hv]
  | some v =>
    cases v with
    | obj okvs =>
      rw [hv] at h
      cases hs : (jlookup okvs "sheets").getD (.arr []) with
      | arr sheets =>
        simp only [Option.getD_some, outputSitesOf, hs] at h
        have hany :
            (sheets.map (fun sh => removeFromSheet sh fid)).any Prod.snd = false := by
          rw [List.any_eq_false]
          intro x hx
          rcases List.mem_map.mp hx with ⟨sh, hshmem, rfl⟩
          simp only [removeFromSheet_changed, beq_iff_eq]
          intro hsrc
          apply h
          simp only [List.mem_toFinset, List.mem_filterMap]
          exact ⟨sh, hshmem, hsrc⟩
        simp [removeStepOutput, hv, hs, hany]
      | null => simp [removeStepOutput, hv, hs]
      | bool b => simp [removeStepOutput, hv, hs]
      | num n => simp [removeStepOutput, hv, hs]
      | str st => simp [removeStepOutput, hv, hs]
      | obj o => simp [removeStepOutput, hv, hs]
    | null => simp [removeStepOutput, hv]
    | bool b => simp [removeStepOutput, hv]
    | num n => simp [removeStepOutput, hv]
    | str st => simp [removeStepOutput, hv]
    | arr xs => simp [removeStepOutput, hv]

theorem removeFromData_sites (dkvs : List (String × Json)) (fid : Int) :
    dataSites (removeFromData dkvs fid).1 = dataSites dkvs \ {fid} := by
  simp only [removeFromData, dataSites]
  rw [removeStepOutput_other _ fid "fileIds" (by decide),
    removeStepTargetKey_other _ "lookupTarget" fid "fileIds" (by decide),
    removeStepTargetKey_other _ "target" fid "fileIds" (by decide),
    removeStepFileIds_ids,
    removeStepOutput_other _ fid "target" (by decide),
    removeStepTargetKey_other _ "lookupTarget" fid "target" (by decide),
    removeStepTargetKey_self _ "target" fid,
    removeStepFileIds_other _ _ "target" (by decide),
    removeStepOutput_other _ fid "lookupTarget" (by decide),
    removeStepTargetKey_self _ "lookupTarget" fid,
    removeStepTargetKey_other _ "target" fid "lookupTarget" (by decide),
    removeStepFileIds_other _ _ "lookupTarget" (by decide),
    Finset.union_sdiff_distrib, Finset.union_sdiff_distrib]

theorem removeFromData_unchanged (dkvs : List (String × Json)) (fid : Int)
    (h : (removeFromData dkvs fid).2 = false) :
    (removeFromData dkvs fid).1 = dkvs := by
  simp only [removeFromData, Bool.or_eq_false_iff] at h
  obtain ⟨h₁, h₂, h₃, h₄⟩ := h
  simp only [removeFromData]
  rw [removeStepOutput_unchanged _ _ h₄, removeStepTargetKey_unchanged _ _ _ h₃,
    removeStepTargetKey_unchanged _ _ _ h₂, removeStepFileIds_unchanged _ _ h₁]

theorem removeStepFileIds_flag_of_mem (dkvs : List (String × Json)) (fid : Int)
    (h : fid ∈ idsOf ((jlookup dkvs "fileIds").getD (.arr []))) :
    (removeStepFileIds dkvs fid).2 = true := by
  cases hv : (jlookup dkvs "fileIds").getD (.arr []) with
  | arr l =>
    rw [hv] at h
    simp only [idsOf, List.mem_toFinset, List.mem_filterMap] at h
    obtain ⟨v, hvmem, hint⟩ := h
    have hany : (l.any fun v => jint? v == some fid) = true := by
      rw [List.any_eq_true]
      exact ⟨v, hvmem, by simp [hint]⟩
    simp [removeStepFileIds, hv, hany]
  | null => rw [hv] at h; simp [idsOf] at h
  | bool b => rw [hv] at h; simp [idsOf] at h
  | num n => rw [hv] at h; simp [idsOf] at h
  | str st => rw [hv] at h; simp [idsOf] at h
  | obj o => rw [hv] at h; simp [idsOf] at h

theorem removeStepTargetKey_flag_of_mem (dkvs : List (String × Json))
    (key : String) (fid : Int)
    (h : fid ∈ (targetFileId ((jlookup dkvs key).getD (.obj []))).toFinset) :
    (removeStepTargetKey dkvs key fid).2 = true := by
  cases hv : jlookup dkvs key with
  | none =>
    rw [hv] at h
    simp [targetFileId, jlookup, jint?] at h
  | some v =>
    rw [hv] at h
    cases v with
    | obj tkvs =>
      simp only [Option.getD_some, Option.mem_toFinset] at h
      have : targetFileId (.obj tkvs) = some fid := by
        cases hval : targetFileId (.obj tkvs) with
        | none => rw [hval] at h; simp at h
        | some i =>
          rw [hval] at h
          simp at h
          rw [h]
      have hch : (removeFromTargetObj tkvs fid).2 = true := by
        rw [removeFromTargetObj_changed, this]
        simp
      simp [removeStepTargetKey, hv, hch]
    | null => simp [targetFileId] at h
    | bool b => simp [targetFileId] at h
    | num n => simp [targetFileId] at h
    | str st => simp [targetFileId] at h
    | arr xs => simp [targetFileId] at h

theorem removeFromData_flag_absent (dkvs : List (String × Json)) (fid : Int)
    (h : (removeFromData dkvs fid).2 = false) : fid ∉ dataSites dkvs := by
  have hun := removeFromData_unchanged dkvs fid h
  simp only [removeFromData, Bool.or_eq_false_iff] at h
  obtain ⟨h₁, h₂, h₃, h₄⟩ := h
  have e₁ := removeStepFileIds_unchanged dkvs fid h₁
  rw [e₁] at h₂ h₃
  have e₂ := removeStepTargetKey_unchanged dkvs "target" fid h₂
  rw [e₂] at h₃
  intro hmem
  simp only [dataSites, Finset.mem_union] at hmem
  rcases hmem with (hA | hB) | hC
  · rw [removeStepFileIds_flag_of_mem dkvs fid hA] at h₁
    simp at h₁
  · rw [removeStepTargetKey_flag_of_mem dkvs "target" fid hB] at h₂
    simp at h₂
  · rw [removeStepTargetKey_flag_of_mem dkvs "lookupTarget" fid hC] at h₃
    simp at h₃

theorem removeFromData_not_fired (dkvs : List (String × Json)) (fid : Int)
    (hsites : fid ∉ dataSites dkvs)
    (hout : fid ∉ outputSitesOf ((jlookup dkvs "output").getD .null)) :
    removeFromData dkvs fid = (dkvs, false) := by
  simp only [dataSites, Finset.mem_union, not_or] at hsites
  obtain ⟨⟨hA, hB⟩, hC⟩ := hsites
  have e₁ := removeStepFileIds_not_fired dkvs fid hA
  have e₂ := removeStepTargetKey_not_fired dkvs "target" fid hB
  have e₃ := removeStepTargetKey_not_fired dkvs "lookupTarget" fid hC
  have e₄ := removeStepOutput_not_fired dkvs fid hout
  simp [removeFromData, e₁, e₂, e₃, e₄]

/-- The code-site set of a dict node whose `data` is a dict is exactly the
value-level `dataSites` of that dict. -/
theorem nodeCodeSites_data (nkvs dkvs : List (String × Json))
    (hd : jlookup nkvs "data" = some (.obj dkvs)) :
    nodeCodeSites (.obj nkvs) = dataSites dkvs := by
  simp [nodeCodeSites, nodeScanned, jgetD, jget, hd, siteFileIds, siteTarget,
    siteLookupTarget, dataSites]

theorem specOutputSheetSites_data (nkvs dkvs : List (String × Json))
    (hd : jlookup nkvs "data" = some (.obj dkvs)) :
    specOutputSheetSites (.obj nkvs)
      = outputSitesOf ((jlookup dkvs "output").getD .null) := by
  simp [specOutputSheetSites, jgetD, jget, hd]

theorem removeFromNode_sites (n : Json) (fid : Int) :
    nodeCodeSites (removeFromNode n fid).1 = nodeCodeSites n \ {fid} := by
  cases n with
  | obj nkvs =>
    cases hd : jlookup nkvs "data" with
    | some v =>
      cases v with
      | obj dkvs =>
        by_cases hch : (removeFromData dkvs fid).2 = true
        · simp only [removeFromNode, hd, hch, if_true]
          rw [nodeCodeSites_data _ _ (jlookup_objSet_self nkvs "data" _),
            removeFromData_sites, nodeCodeSites_data nkvs dkvs hd]
        · have hch' : (removeFromData dkvs fid).2 = false := by simpa using hch
          have habs := removeFromData_flag_absent dkvs fid hch'
          simp only [removeFromNode, hd, hch', Bool.false_eq_true, if_false]
          rw [nodeCodeSites_data nkvs dkvs hd, eq_comm,
            Finset.sdiff_eq_self_iff_disjoint]
          simp [Finset.disjoint_left, habs]
      | null =>
        have : nodeCodeSites (Json.obj nkvs) = ∅ := by
          simp [nodeCodeSites, nodeScanned, jgetD, jget, hd]
        simp [removeFromNode, hd, this]
      | bool b =>
        have : nodeCodeSites (Json.obj nkvs) = ∅ := by
          simp [nodeCodeSites, nodeScanned, jgetD, jget, hd]
        simp [removeFromNode, hd, this]
      | num nn =>
        have : nodeCodeSites (Json.obj nkvs) = ∅ := by
          simp [nodeCodeSites, nodeScanned, jgetD, jget, hd]
        simp [removeFromNode, hd, this]
      | str st =>
        have : nodeCodeSites (Json.obj nkvs) = ∅ := by
          simp [nodeCodeSites, nodeScanned, jgetD, jget, hd]
        simp [removeFromNode, hd, this]
      | arr xs =>
        have : nodeCodeSites (Json.obj nkvs) = ∅ := by
          simp [nodeCodeSites, nodeScanned, jgetD, jget, hd]
        simp [removeFromNode, hd, this]
    | none =>
      have : nodeCodeSites (Json.obj nkvs) = ∅ := by
        simp [nodeCodeSites, nodeScanned, jgetD, jget, hd, siteFileIds,
          siteTarget, siteLookupTarget, idsOf, targetFileId, jlookup, jint?]
      simp [removeFromNode, hd, this]
  | null => simp [removeFromNode, nodeCodeSites, nodeScanned]
  | bool b => simp [removeFromNode, nodeCodeSites, nodeScanned]
  | num nn => simp [removeFromNode, nodeCodeSites, nodeScanned]
  | str st => simp [removeFromNode, nodeCodeSites, nodeScanned]
  | arr xs => simp [removeFromNode, nodeCodeSites, nodeScanned]

theorem removeFromNode_flag_absent (n : Json) (fid : Int)
    (h : (removeFromNode n fid).2 = false) : fid ∉ nodeCodeSites n := by
  cases n with
  | obj nkvs =>
    cases hd : jlookup nkvs "data" with
    | some v =>
      cases v with
      | obj dkvs =>
        have hflag : (removeFromData dkvs fid).2 = false := by
          simpa [removeFromNode, hd] using h
        rw [nodeCodeSites_data nkvs dkvs hd]
        exact removeFromData_flag_absent dkvs fid hflag
      | null =>
        simp [nodeCodeSites, nodeScanned, jgetD, jget, hd]
      | bool b =>
        simp [nodeCodeSites, nodeScanned, jgetD, jget, hd]
      | num nn =>
        simp [nodeCodeSites, nodeScanned, jgetD, jget, hd]
      | str st =>
        simp [nodeCodeSites, nodeScanned, jgetD, jget, hd]
      | arr xs =>
        simp [nodeCodeSites, nodeScanned, jgetD, jget, hd]
    | none =>
      simp [nodeCodeSites, nodeScanned, jgetD, jget, hd, siteFileIds,
        siteTarget, siteLookupTarget, idsOf, targetFileId, jlookup, jint?]
  | null => simp [nodeCodeSites, nodeScanned]
  | bool b => simp [nodeCodeSites, nodeScanned]
  | num nn => simp [nodeCodeSites, nodeScanned]
  | str st => simp [nodeCodeSites, nodeScanned]
  | arr xs => simp [nodeCodeSites, nodeScanned]

theorem removeFromNode_not_fired (n : Json) (fid : Int)
    (hsites : fid ∉ nodeCodeSites n) (hout : fid ∉ specOutputSheetSites n) :
    removeFromNode n fid = (n, false) := by
  cases n with
  | obj nkvs =>
    cases hd : jlookup nkvs "data" with
    | some v =>
      cases v with
      | obj dkvs =>
        rw [nodeCodeSites_data nkvs dkvs hd] at hsites
        rw [specOutputSheetSites_data nkvs dkvs hd] at hout
        have := removeFromData_not_fired dkvs fid hsites hout
        simp [removeFromNode, hd, this]
      | null => simp [removeFromNode, hd]
      | bool b => simp [removeFromNode, hd]
      | num nn => simp [removeFromNode, hd]
      | str st => simp [removeFromNode, hd]
      | arr xs => simp [removeFromNode, hd]
    | none => simp [removeFromNode, hd]
  | null => simp [removeFromNode]
  | bool b => simp [removeFromNode]
  | num nn => simp [removeFromNode]
  | str st => simp [removeFromNode]
  | arr xs => simp [removeFromNode]

theorem mem_foldl_union {α : Type} [DecidableEq α] (f : Json → Finset α)
    (ns : List Json) (x : α) :
    x ∈ ns.foldl (fun s n => s ∪ f n) ∅ ↔ ∃ n ∈ ns, x ∈ f n := by
  induction ns with
  | nil => simp
  | cons n rest ih =>
    simp only [List.foldl_cons]
    rw [foldl_union_init f rest]
    simp [ih]

theorem fold_sites_removed (ns : List Json) (fid : Int) :
    (ns.map (fun n => (removeFromNode n fid).1)).foldl
        (fun s n => s ∪ nodeCodeSites n) ∅
      = (ns.foldl (fun s n => s ∪ nodeCodeSites n) ∅) \ {fid} := by
  induction ns with
  | nil => simp
  | cons n rest ih =>
    simp only [List.map_cons, List.foldl_cons]
    rw [foldl_union_init nodeCodeSites (rest.map (fun n => (removeFromNode n fid).1)),
      foldl_union_init nodeCodeSites rest, ih, removeFromNode_sites,
      Finset.union_sdiff_distrib]
    simp

/-- Reference-set effect of `remove_file_id_from_flow_data`: the extracted
set of the edited document is the original set minus the removed id. -/
theorem removeFileId_extract (d : Json) (fid : Int) :
    extractFileIds ((removeFileId d fid).1) = extractFileIds d \ {fid} := by
  rw [extract_eq_codeRefSites, extract_eq_codeRefSites]
  cases d with
  | obj kvs =>
    cases hn : jgetD (Json.obj kvs) "nodes" (.arr []) with
    | arr ns =>
      by_cases hany : (ns.map (fun n => removeFromNode n fid)).any Prod.snd = true
      · simp only [removeFileId, hn, hany, if_true]
        simp only [codeRefSites, docNodes, jgetD, jget, jlookup_objSet_self,
          Option.getD_some]
        rw [List.map_map]
        have : (Prod.fst ∘ fun n => removeFromNode n fid)
            = fun n => (removeFromNode n fid).1 := rfl
        rw [this, fold_sites_removed]
        have hn' : (jlookup kvs "nodes").getD (.arr []) = Json.arr ns := by
          simpa [jgetD, jget] using hn
        rw [hn']
      · have hany' : (ns.map (fun n => removeFromNode n fid)).any Prod.snd = false := by
          simpa using hany
        simp only [removeFileId, hn, hany', Bool.false_eq_true, if_false]
        rw [eq_comm, Finset.sdiff_eq_self_iff_disjoint, Finset.disjoint_left]
        intro x hx hxm
        simp only [Finset.mem_singleton] at hxm
        rw [hxm] at hx
        simp only [codeRefSites, docNodes, hn] at hx
        rw [mem_foldl_union] at hx
        obtain ⟨n, hnmem, hnsite⟩ := hx
        have hflag : (removeFromNode n fid).2 = false := by
          have := List.any_eq_false.mp hany'
          have hm : removeFromNode n fid ∈ ns.map (fun n => removeFromNode n fid) :=
            List.mem_map.mpr ⟨n, hnmem, rfl⟩
          simpa using this _ hm
        exact removeFromNode_flag_absent n fid hflag hnsite
    | null => simp [removeFileId, hn, codeRefSites, docNodes]
    | bool b => simp [removeFileId, hn, codeRefSites, docNodes]
    | num nn => simp [removeFileId, hn, codeRefSites, docNodes]
    | str st => simp [removeFileId, hn, codeRefSites, docNodes]
    | obj o => simp [removeFileId, hn, codeRefSites, docNodes]
  | null => simp [removeFileId, codeRefSites, docNodes]
  | bool b => simp [removeFileId, codeRefSites, docNodes]
  | num nn => simp [removeFileId, codeRefSites, docNodes]
  | str st => simp [removeFileId, codeRefSites, docNodes]
  | arr xs => simp [removeFileId, codeRefSites, docNodes]

/-- When the id is absent from every documented reference site, removal is a
no-op: the document is returned unchanged and `changed` is `False`. -/
theorem removeFileId_not_fired (d : Json) (fid : Int)
    (h : fid ∉ specRefSites d) : removeFileId d fid = (d, false) := by
  cases d with
  | obj kvs =>
    cases hn : jgetD (Json.obj kvs) "nodes" (.arr []) with
    | arr ns =>
      have hnodes : ∀ n ∈ ns, removeFromNode n fid = (n, false) := by
        intro n hnmem
        have habs : fid ∉ nodeCodeSites n ∪ specMappingSites n
            ∪ specOutputSheetSites n := by
          intro hmem
          apply h
          simp only [specRefSites, docNodes, hn]
          rw [mem_foldl_union]
          exact ⟨n, hnmem, hmem⟩
        simp only [Finset.mem_union, not_or] at habs
        exact removeFromNode_not_fired n fid habs.1.1 habs.2
      have hany : (ns.map (fun n => removeFromNode n fid)).any Prod.snd = false := by
        rw [List.any_eq_false]
        intro x hx
        rcases List.mem_map.mp hx with ⟨n, hnmem, rfl⟩
        rw [hnodes n hnmem]
        simp
      simp [removeFileId, hn, hany]
    | null => simp [removeFileId, hn]
    | bool b => simp [removeFileId, hn]
    | num nn => simp [removeFileId, hn]
    | str st => simp [removeFileId, hn]
    | obj o => simp [removeFileId, hn]
  | null => simp [removeFileId]
  | bool b => simp [removeFileId]
  | num nn => simp [removeFileId]
  | str st => simp [removeFileId]
  | arr xs => simp [removeFileId]

theorem extractRunNode_eq (acc : List Int) (n : Json) :
    extractRunNode acc n = .ok (extractFromNode acc n) := by
  cases n with
  | obj nkvs =>
    simp only [extractRunNode, extractFromNode, pyGetAttrD, jgetD, jget]
    cases (jlookup nkvs "data").getD (.obj []) <;> simp [pyGetAttrD]
  | null => rfl
  | bool b => rfl
  | num nn => rfl
  | str st => rfl
  | arr xs => rfl

theorem extractRunNodes_eq (ns : List Json) (acc : List Int) :
    extractRunNodes ns acc = .ok (ns.foldl extractFromNode acc) := by
  induction ns generalizing acc with
  | nil => rfl
  | cons n rest ih =>
    simp [extractRunNodes, extractRunNode_eq, ih]

/-- C7: for every input value whatsoever the extractor terminates normally —
every fallible attribute access is behind a shape guard — and returns the
integer id set of the pure extractor; malformed shapes are skipped, never
propagated as errors. -/
theorem C7_extract_never_raises (d : Json) :
    extractRun d = Except.ok (extractFileIdsList d) := by
  cases d with
  | obj kvs =>
    simp only [extractRun, extractFileIdsList, pyGetAttrD, jgetD, jget]
    cases (jlookup kvs "nodes").getD (.arr []) <;> simp [extractRunNodes_eq]
  | null => rfl
  | bool b => rfl
  | num nn => rfl
  | str st => rfl
  | arr xs => rfl

/-- C3 counterexample: id 5 occurs at a documented reference site (a
mapping-target list) of `mappingOnlyDoc`, yet the extractor returns the
empty set, so the extractor does not return every documented site's ids. -/
theorem C3_counterexample :
    (5 : Int) ∈ specRefSites mappingOnlyDoc
      ∧ extractFileIds mappingOnlyDoc = ∅ := by
  constructor
  · decide
  · decide

/-- C3 (amended): the extractor returns exactly the ids at the three sites
it inspects — per-node direct `fileIds` lists, the primary target and the
lookup target (mapping-target lists and legacy output-sheet sources are not
inspected) — and the result is unchanged under reordering of keys within
the document. -/
theorem C3_extract_code_sites_reorder_stable :
    (∀ d : Json, extractFileIds d = codeRefSites d) ∧
    (∀ d₁ d₂ : Json, JEquiv d₁ d₂ → extractFileIds d₁ = extractFileIds d₂) :=
  ⟨extract_eq_codeRefSites, fun _ _ h => extract_jequiv h⟩

theorem C3_extract_code_sites_reorder_stable_witness :
    extractFileIds reorderDocA = extractFileIds reorderDocB
      ∧ extractFileIds reorderDocA = ({7} : Finset Int) := by
  refine ⟨C3_extract_code_sites_reorder_stable.2 _ _ ?_, by decide⟩
  unfold reorderDocA reorderDocB
  apply JEquiv.obj
  intro k
  by_cases h₁ : ("nodes" == k) = true
  · have hk : "nodes" = k := beq_iff_eq.mp h₁
    subst hk
    have h₂ : ("edges" == "nodes") = false := by decide
    simp only [jlookup, h₁, h₂, if_true, Bool.false_eq_true, if_false]
    exact OptRel.some (jequiv_refl _)
  · by_cases h₂ : ("edges" == k) = true
    · have h₁' : ("nodes" == k) = false := by simpa using h₁
      simp only [jlookup, h₁', h₂, if_true, Bool.false_eq_true, if_false]
      exact OptRel.some (jequiv_refl _)
    · have h₁' : ("nodes" == k) = false := by simpa using h₁
      have h₂' : ("edges" == k) = false := by simpa using h₂
      simp only [jlookup, h₁', h₂', Bool.false_eq_true, if_false]
      exact OptRel.none

/-- C5: the reference set extracted after `remove_file_id` never contains
the removed id; and when the id is absent from the document's reference
sites, removal reports `changed = False` and returns the document
unchanged. -/
theorem C5_remove_file_id :
    (∀ (d : Json) (fid : Int), fid ∉ extractFileIds ((removeFileId d fid).1)) ∧
    (∀ (d : Json) (fid : Int), fid ∉ specRefSites d →
      removeFileId d fid = (d, false)) := by
  constructor
  · intro d fid
    rw [removeFileId_extract]
    simp
  · intro d fid h
    exact removeFileId_not_fired d fid h

theorem C5_remove_file_id_witness :
    (5 : Int) ∉ specRefSites targetOnlyDoc
      ∧ removeFileId targetOnlyDoc 5 = (targetOnlyDoc, false)
      ∧ (3 : Int) ∉ extractFileIds ((removeFileId targetOnlyDoc 3).1) :=
  ⟨by decide, C5_remove_file_id.2 targetOnlyDoc 5 (by decide),
    C5_remove_file_id.1 targetOnlyDoc 3⟩

theorem centryFind_mem {V : Type} (l : List (String × Nat × V)) (k : String)
    (ts : Nat) (v : V) (h : centryFind l k = some (ts, v)) : (k, ts, v) ∈ l := by
  induction l with
  | nil => simp [centryFind] at h
  | cons e rest ih =>
    by_cases he : (e.1 == k) = true
    · simp only [centryFind, he, if_true] at h
      obtain ⟨k₀, p⟩ := e
      simp only [Option.some.injEq] at h
      simp only [beq_iff_eq] at he
      subst he
      subst h
      exact List.mem_cons_self _ _
    · simp only [centryFind, he, Bool.false_eq_true, if_false] at h
      exact List.mem_cons_of_mem _ (ih h)

theorem centryFind_none_of_not_mem {V : Type} (l : List (String × Nat × V))
    (k : String) (h : k ∉ l.map Prod.fst) : centryFind l k = none := by
  induction l with
  | nil => rfl
  | cons e rest ih =>
    simp only [List.map_cons, List.mem_cons, not_or] at h
    have he : (e.1 == k) = false := by simp [Ne.symm h.1]
    simp only [centryFind, he, Bool.false_eq_true, if_false]
    exact ih h.2

theorem centryFind_append {V : Type} (l₁ l₂ : List (String × Nat × V))
    (k : String) :
    centryFind (l₁ ++ l₂) k
      = (match centryFind l₁ k with
         | some p => some p
         | none => centryFind l₂ k) := by
  induction l₁ with
  | nil => simp [centryFind]
  | cons e rest ih =>
    by_cases he : (e.1 == k) = true
    · simp [centryFind, he]
    · simp [centryFind, he, ih]

theorem centryFind_erase_self {V : Type} (l : List (String × Nat × V))
    (k : String) : centryFind (centryErase l k) k = none := by
  apply centryFind_none_of_not_mem
  intro hmem
  rcases List.mem_map.mp hmem with ⟨e, hemem, hek⟩
  simp only [centryErase] at hemem
  have hcond := (List.mem_filter.mp hemem).2
  simp only [Bool.not_eq_true', beq_eq_false_iff_ne] at hcond
  exact hcond (by rw [hek])

theorem centryFind_erase_ne {V : Type} (l : List (String × Nat × V))
    (k k' : String) (h : k' ≠ k) :
    centryFind (centryErase l k) k' = centryFind l k' := by
  induction l with
  | nil => rfl
  | cons e rest ih =>
    by_cases hek : (e.1 == k) = true
    · have hek' : (e.1 == k') = false := by
        rw [beq_iff_eq.mp hek]
        simp only [beq_eq_false_iff_ne]
        exact Ne.symm h
      simp [centryErase, centryFind, hek, hek'] at ih ⊢
      exact ih
    · by_cases hek' : (e.1 == k') = true
      · simp [centryErase, centryFind, hek, hek']
      · simp [centryErase, centryFind, hek, hek'] at ih ⊢
        exact ih

theorem centryFind_filter_of_nodup {V : Type} (l : List (String × Nat × V))
    (p : String × Nat × V → Bool) (k : String)
    (hw : (l.map Prod.fst).Nodup) :
    centryFind (l.filter p) k = none
      ∨ centryFind (l.filter p) k = centryFind l k := by
  induction l with
  | nil => left; rfl
  | cons e rest ih =>
    simp only [List.map_cons, List.nodup_cons] at hw
    by_cases hek : (e.1 == k) = true
    · by_cases hp : p e = true
      · right
        simp [List.filter_cons, hp, centryFind, hek]
      · left
        have : k ∉ (rest.filter p).map Prod.fst := by
          intro hmem
          rcases List.mem_map.mp hmem with ⟨e', he'mem, hek'⟩
          apply hw.1
          rw [beq_iff_eq.mp hek, ← hek']
          exact List.mem_map.mpr ⟨e', (List.mem_filter.mp he'mem).1, rfl⟩
        simp only [List.filter_cons, hp, Bool.false_eq_true, if_false]
        exact centryFind_none_of_not_mem _ _ this
    · by_cases hp : p e = true
      · simp only [List.filter_cons, hp, if_true, centryFind, hek,
          Bool.false_eq_true, if_false]
        exact ih hw.2
      · simp only [List.filter_cons, hp, Bool.false_eq_true, if_false,
          centryFind, hek]
        exact ih hw.2

theorem mem_keys_iff_find {V : Type} (l : List (String × Nat × V)) (k : String) :
    k ∈ l.map Prod.fst ↔ (centryFind l k).isSome := by
  induction l with
  | nil => simp [centryFind]
  | cons e rest ih =>
    by_cases he : (e.1 == k) = true
    · simp [centryFind, he, beq_iff_eq.mp he]
    · have : ¬ e.1 = k := by simpa using he
      simp [centryFind, he, ih, Ne.symm this]

theorem centryFind_filter_eq {V : Type} (l : List (String × Nat × V))
    (p : String × Nat × V → Bool) (k : String)
    (hw : (l.map Prod.fst).Nodup) :
    centryFind (l.filter p) k
      = (match centryFind l k with
         | some (ts, v) => if p (k, ts, v) then some (ts, v) else none
         | none => none) := by
  induction l with
  | nil => rfl
  | cons e rest ih =>
    simp only [List.map_cons, List.nodup_cons] at hw
    by_cases hek : (e.1 == k) = true
    · obtain ⟨e₁, e₂⟩ := e
      simp only at hek
      have he₁ : e₁ = k := beq_iff_eq.mp hek
      subst he₁
      by_cases hp : p (e₁, e₂) = true
      · simp [List.filter_cons, hp, centryFind, hek]
      · have hpf : p (e₁, e₂) = false := by simpa using hp
        simp only [List.filter_cons, hpf, Bool.false_eq_true, if_false,
          centryFind, hek, if_true]
        have hnone : centryFind (rest.filter p) e₁ = none := by
          apply centryFind_none_of_not_mem
          intro hmem
          apply hw.1
          rcases List.mem_map.mp hmem with ⟨e', he'mem, hek'⟩
          rw [← hek']
          exact List.mem_map.mpr ⟨e', (List.mem_filter.mp he'mem).1, rfl⟩
        rw [hnone]
    · by_cases hp : p e = true
      · simp only [List.filter_cons, hp, if_true, centryFind, hek,
          Bool.false_eq_true, if_false]
        exact ih hw.2
      · simp only [List.filter_cons, hp, Bool.false_eq_true, if_false,
          centryFind, hek]
        exact ih hw.2

theorem nodup_keys_filter {V : Type} (l : List (String × Nat × V))
    (p : String × Nat × V → Bool) (hw : (l.map Prod.fst).Nodup) :
    ((l.filter p).map Prod.fst).Nodup :=
  List.Nodup.sublist (List.Sublist.map Prod.fst (List.filter_sublist l)) hw

theorem nodup_keys_append_one {V : Type} (l : List (String × Nat × V))
    (k : String) (ts : Nat) (v : V) (hw : (l.map Prod.fst).Nodup)
    (hk : k ∉ l.map Prod.fst) :
    ((l ++ [(k, ts, v)]).map Prod.fst).Nodup := by
  simp only [List.map_append, List.map_cons, List.map_nil]
  rw [List.nodup_append]
  refine ⟨hw, by simp, ?_⟩
  intro a ha
  simp only [List.mem_singleton]
  intro hak
  subst hak
  exact hk ha

theorem cacheGet_nodup {V : Type} (c : Cache V) (now : Nat) (k : String)
    (hw : (c.entries.map Prod.fst).Nodup) :
    (((cacheGet c now k).2).entries.map Prod.fst).Nodup := by
  have hw₁ : (((purgeExpired c now).entries).map Prod.fst).Nodup :=
    nodup_keys_filter _ _ hw
  cases hf : centryFind (purgeExpired c now).entries k with
  | none => simpa [cacheGet, hf] using hw₁
  | some p =>
    obtain ⟨ts, v⟩ := p
    simp only [cacheGet, hf]
    apply nodup_keys_append_one
    · exact nodup_keys_filter _ _ hw₁
    · rw [mem_keys_iff_find, centryFind_erase_self]
      simp

theorem cacheGet_ttl {V : Type} (c : Cache V) (now : Nat) (k : String) :
    ((cacheGet c now k).2).ttl = c.ttl ∧
      ((cacheGet c now k).2).maxEntries = c.maxEntries := by
  cases hf : centryFind (purgeExpired c now).entries k with
  | none =>
    simp only [cacheGet, hf]
    exact ⟨rfl, rfl⟩
  | some p =>
    obtain ⟨ts, v⟩ := p
    simp only [cacheGet, hf]
    exact ⟨rfl, rfl⟩

theorem cacheTs_get_invar {V : Type} (c : Cache V) (tm : Nat) (k₀ k : String)
    (hw : (c.entries.map Prod.fst).Nodup) :
    cacheTs (cacheGet c tm k₀).2 k = cacheTs c k
      ∨ cacheTs (cacheGet c tm k₀).2 k = none := by
  have hpf : centryFind (purgeExpired c tm).entries k = none
      ∨ centryFind (purgeExpired c tm).entries k = centryFind c.entries k :=
    centryFind_filter_of_nodup c.entries _ k hw
  cases hf : centryFind (purgeExpired c tm).entries k₀ with
  | none =>
    simp only [cacheGet, hf, cacheTs]
    rcases hpf with h | h
    · right; rw [h]; rfl
    · left; rw [h]
  | some p =>
    obtain ⟨ts₀, v₀⟩ := p
    simp only [cacheGet, hf, cacheTs]
    by_cases hkk : k = k₀
    · subst hkk
      rw [centryFind_append, centryFind_erase_self]
      have hsingle : centryFind [(k, ts₀, v₀)] k = some (ts₀, v₀) := by
        simp [centryFind]
      rcases hpf with h | h
      · rw [h] at hf
        simp [centryFind] at hf
      · left
        rw [h] at hf
        rw [hf, hsingle]
    · have hsingle : centryFind [(k₀, ts₀, v₀)] k = none := by
        have : (k₀ == k) = false := by
          simp only [beq_eq_false_iff_ne]
          exact Ne.symm hkk
        simp [centryFind, this]
      rw [centryFind_append, centryFind_erase_ne _ _ _ hkk]
      rcases hpf with h | h
      · right
        rw [h, hsingle]
        rfl
      · left
        rw [h]
        cases hc : centryFind c.entries k with
        | none => rw [hsingle]
        | some q => rfl

theorem purge_id {V : Type} (c : Cache V) (now : Nat)
    (h : ∀ e ∈ c.entries, now - e.2.1 ≤ c.ttl) : purgeExpired c now = c := by
  obtain ⟨m, t, l⟩ := c
  simp only [purgeExpired]
  congr 1
  apply List.filter_eq_self.mpr
  intro e he
  simpa using h e he

theorem centryErase_of_not_mem {V : Type} (l : List (String × Nat × V))
    (k : String) (h : k ∉ l.map Prod.fst) : centryErase l k = l := by
  apply List.filter_eq_self.mpr
  intro e he
  simp only [Bool.not_eq_true', beq_eq_false_iff_ne]
  intro hek
  exact h (List.mem_map.mpr ⟨e, he, hek⟩)

theorem centryErase_cons_self {V : Type} (l : List (String × Nat × V))
    (k : String) (p : Nat × V) :
    centryErase ((k, p) :: l) k = centryErase l k := by
  simp [centryErase, List.filter_cons]

theorem cacheGet_hit_all_now {V : Type} (c : Cache V) (now : Nat) (k : String)
    (ts : Nat) (v : V) (hkeep : ∀ e ∈ c.entries, now - e.2.1 ≤ c.ttl)
    (hfind : centryFind c.entries k = some (ts, v)) :
    cacheGet c now k
      = (some v, ⟨c.maxEntries, c.ttl, centryErase c.entries k ++ [(k, ts, v)]⟩) := by
  have hp : purgeExpired c now = c := purge_id c now hkeep
  simp only [cacheGet, hp, hfind]

theorem cacheSet_step {V : Type} (c : Cache V) (now : Nat) (k : String) (v : V)
    (hkeep : ∀ e ∈ c.entries, now - e.2.1 ≤ c.ttl)
    (hfresh : centryFind c.entries k = none) :
    cacheSet c now k v
      = ⟨c.maxEntries, c.ttl,
         (c.entries ++ [(k, now, v)]).drop
           ((c.entries.length + 1) - c.maxEntries)⟩ := by
  have hp : purgeExpired c now = c := purge_id c now hkeep
  simp only [cacheSet, hp, hfresh, Option.isSome_none, Bool.false_eq_true,
    if_false, List.length_append, List.length_cons, List.length_nil]

theorem drop_append_drop {α : Type} (x y : List α) (a b : Nat)
    (ha : a ≤ x.length) :
    (x.drop a ++ y).drop b = (x ++ y).drop (a + b) := by
  rw [← List.drop_append_of_le_length ha, List.drop_drop]

theorem cacheSetAll_entries {V : Type} (pairs : List (String × V)) :
    ∀ (c : Cache V) (now : Nat),
    (∀ e ∈ c.entries, e.2.1 = now) →
    ((c.entries.map Prod.fst) ++ pairs.map Prod.fst).Nodup →
    c.entries.length ≤ c.maxEntries →
    cacheSetAll c now pairs
      = ⟨c.maxEntries, c.ttl,
         (c.entries ++ pairs.map (fun p => (p.1, now, p.2))).drop
           ((c.entries.length + pairs.length) - c.maxEntries)⟩ := by
  induction pairs with
  | nil =>
    intro c now hts hnd hlen
    obtain ⟨m, t, l⟩ := c
    simp only at hlen
    simp only [cacheSetAll, List.map_nil, List.append_nil, List.length_nil,
      Nat.add_zero]
    rw [Nat.sub_eq_zero_of_le hlen, List.drop_zero]
  | cons p rest ih =>
    intro c now hts hnd hlen
    obtain ⟨k, v⟩ := p
    have hkfresh : k ∉ c.entries.map Prod.fst := by
      simp only [List.map_cons] at hnd
      rw [List.nodup_append] at hnd
      intro hmem
      exact hnd.2.2 hmem (List.mem_cons_self _ _)
    have hfind : centryFind c.entries k = none :=
      centryFind_none_of_not_mem _ _ hkfresh
    have hkeep : ∀ e ∈ c.entries, now - e.2.1 ≤ c.ttl := by
      intro e he
      rw [hts e he]
      simp
    have hstep := cacheSet_step c now k v hkeep hfind
    have hd₁ : (c.entries.length + 1) - c.maxEntries
        ≤ (c.entries ++ [(k, now, v)]).length := by
      simp only [List.length_append, List.length_cons, List.length_nil]
      omega
    have hts' : ∀ e ∈ (cacheSet c now k v).entries, e.2.1 = now := by
      rw [hstep]
      intro e he
      have := List.mem_of_mem_drop he
      rcases List.mem_append.mp this with h | h
      · exact hts e h
      · simp only [List.mem_singleton] at h
        rw [h]
    have hnd' : (((cacheSet c now k v).entries.map Prod.fst)
        ++ rest.map Prod.fst).Nodup := by
      rw [hstep]
      simp only [List.map_drop]
      apply List.Nodup.sublist
        (List.Sublist.append_right (List.drop_sublist _ _) (rest.map Prod.fst))
      simp only [List.map_append, List.map_cons, List.map_nil, List.map_cons] at hnd ⊢
      rw [List.append_assoc]
      simpa using hnd
    have hlen' : (cacheSet c now k v).entries.length
        ≤ (cacheSet c now k v).maxEntries := by
      rw [hstep]
      simp only [List.length_drop, List.length_append, List.length_cons,
        List.length_nil]
      omega
    have ihres := ih (cacheSet c now k v) now hts' hnd' hlen'
    simp only [cacheSetAll] at ihres ⊢
    rw [ihres, hstep]
    simp only [List.length_drop, List.length_append, List.length_cons,
      List.length_nil, List.map_cons, List.length_map]
    congr 1
    rw [drop_append_drop _ _ _ _ hd₁, List.append_assoc]
    congr 1
    omega

theorem centryFind_drop_last {V : Type} (l₁ : List (String × Nat × V))
    (k : String) (ts : Nat) (v : V) (hk : k ∉ l₁.map Prod.fst) (d : Nat)
    (hd : d ≤ l₁.length) :
    centryFind ((l₁ ++ [(k, ts, v)]).drop d) k = some (ts, v) := by
  rw [List.drop_append_of_le_length hd, centryFind_append]
  have : centryFind (l₁.drop d) k = none := by
    apply centryFind_none_of_not_mem
    intro hmem
    apply hk
    rw [List.map_drop] at hmem
    exact List.mem_of_mem_drop hmem
  rw [this]
  simp [centryFind]

/-- C4: with capacity `max`, inserting `max+1` distinct keys (all within the
TTL, here at one instant) evicts exactly the least-recently-used entry and
keeps all others in order; a `get` on the LRU key moves it to the
most-recently-used position, so the next insertion evicts the second-oldest
entry instead and the got key survives; and `set` on an existing key
replaces its payload and resets its age to the current time. -/
theorem C4_lru_eviction :
    (∀ (V : Type) (m ttl t : Nat) (pairs : List (String × V)),
      pairs.length = m + 1 → (pairs.map Prod.fst).Nodup →
      (cacheSetAll (emptyCache V m ttl) t pairs).entries
        = (pairs.drop 1).map (fun p => (p.1, t, p.2))) ∧
    (∀ (V : Type) (m ttl t : Nat) (p₀ p₁ : String × V)
       (rest : List (String × V)) (k' : String) (v' : V),
      (p₀ :: p₁ :: rest).length = m →
      ((p₀ :: p₁ :: rest).map Prod.fst).Nodup →
      k' ∉ (p₀ :: p₁ :: rest).map Prod.fst →
      (cacheSet ((cacheGet (cacheSetAll (emptyCache V m ttl) t
            (p₀ :: p₁ :: rest)) t p₀.1).2) t k' v').entries
        = (rest.map (fun p => (p.1, t, p.2)))
            ++ [(p₀.1, t, p₀.2), (k', t, v')]) ∧
    (∀ (V : Type) (c : Cache V) (t : Nat) (k : String) (ts₀ : Nat) (v₀ v' : V),
      1 ≤ c.maxEntries →
      (∀ e ∈ c.entries, t - e.2.1 ≤ c.ttl) →
      centryFind c.entries k = some (ts₀, v₀) →
      centryFind (cacheSet c t k v').entries k = some (t, v')) := by
  refine ⟨?_, ?_, ?_⟩
  · intro V m ttl t pairs hlen hnd
    have h := cacheSetAll_entries pairs (emptyCache V m ttl) t
      (by intro e he; simp [emptyCache] at he)
      (by simpa [emptyCache] using hnd)
      (by simp [emptyCache])
    rw [h]
    simp only [emptyCache, List.nil_append, List.length_nil, Nat.zero_add, hlen]
    rw [show m + 1 - m = 1 by omega, ← List.map_drop]
  · intro V m ttl t p₀ p₁ rest k' v' hlen hnd hk'
    obtain ⟨k₀, v₀⟩ := p₀
    dsimp only at *
    have hall := cacheSetAll_entries ((k₀, v₀) :: p₁ :: rest)
      (emptyCache V m ttl) t
      (by intro e he; simp [emptyCache] at he)
      (by simpa [emptyCache] using hnd)
      (by simp [emptyCache])
    simp only [List.length_cons] at hlen
    have hdrop0 : (0 + ((k₀, v₀) :: p₁ :: rest).length) - m = 0 := by
      simp only [List.length_cons]
      omega
    simp only [emptyCache, List.nil_append, List.length_nil] at hall
    rw [hdrop0, List.drop_zero] at hall
    set fullmap := ((k₀, v₀) :: p₁ :: rest).map (fun p => (p.1, t, p.2)) with hfm
    have hts_all : ∀ e ∈ fullmap, e.2.1 = t := by
      intro e he
      rcases List.mem_map.mp he with ⟨q, _, rfl⟩
      rfl
    have hkeep : ∀ e ∈ fullmap, t - e.2.1 ≤ ttl := by
      intro e he
      rw [hts_all e he]
      simp
    have hfind₀ : centryFind fullmap k₀ = some (t, v₀) := by
      simp [hfm, List.map_cons, centryFind]
    have hget := cacheGet_hit_all_now
      (⟨m, ttl, fullmap⟩ : Cache V) t k₀ t v₀ hkeep hfind₀
    have hk₀tail : k₀ ∉ ((p₁ :: rest).map (fun p => (p.1, t, p.2))).map Prod.fst := by
      simp only [List.map_cons, List.nodup_cons] at hnd
      intro hmem
      apply hnd.1
      rcases List.mem_map.mp hmem with ⟨q, hq, hqk⟩
      rcases List.mem_map.mp hq with ⟨r, hr, rfl⟩
      simp only at hqk
      rw [← hqk]
      exact List.mem_map.mpr ⟨r, hr, rfl⟩
    have herase : centryErase fullmap k₀
        = (p₁ :: rest).map (fun p => (p.1, t, p.2)) := by
      rw [hfm]
      simp only [List.map_cons]
      rw [show ((k₀, t, v₀) : String × Nat × V) = (k₀, ((t, v₀) : Nat × V)) from rfl]
      rw [centryErase_cons_self]
      apply centryErase_of_not_mem
      simpa using hk₀tail
    simp only [emptyCache]
    rw [hall, hget]
    simp only [herase]
    set l₂ := (p₁ :: rest).map (fun p => (p.1, t, p.2)) ++ [(k₀, t, v₀)] with hl₂
    have hts₂ : ∀ e ∈ l₂, e.2.1 = t := by
      intro e he
      rcases List.mem_append.mp he with h | h
      · rcases List.mem_map.mp h with ⟨q, _, rfl⟩
        rfl
      · simp only [List.mem_singleton] at h
        rw [h]
    have hkeep₂ : ∀ e ∈ l₂, t - e.2.1 ≤ ttl := by
      intro e he
      rw [hts₂ e he]
      simp
    have hkeys : ∀ (l : List (String × V)),
        (l.map (fun p => (p.1, t, p.2))).map Prod.fst = l.map Prod.fst := by
      intro l
      rw [List.map_map]
      rfl
    have hfind₂ : centryFind l₂ k' = none := by
      apply centryFind_none_of_not_mem
      rw [hl₂, List.map_append, hkeys]
      intro hmem
      rcases List.mem_append.mp hmem with h | h
      · apply hk'
        simp only [List.map_cons, List.mem_cons] at h ⊢
        tauto
      · simp only [List.map_cons, List.map_nil, List.mem_singleton] at h
        apply hk'
        simp only [List.map_cons, List.mem_cons]
        left
        exact h
    have hset := cacheSet_step (⟨m, ttl, l₂⟩ : Cache V) t k' v' hkeep₂ hfind₂
    rw [hset]
    simp only [hl₂, List.length_append, List.length_map, List.length_cons,
      List.length_nil, Nat.add_zero, Nat.zero_add]
    rw [show rest.length + 1 + 1 + 1 - m = 1 from by omega]
    simp [List.map_cons, List.cons_append, List.append_assoc]
  · intro V c t k ts₀ v₀ v' hmax hkeep hfind
    have hp : purgeExpired c t = c := purge_id c t hkeep
    simp only [cacheSet, hp, hfind, Option.isSome_some, if_true]
    apply centryFind_drop_last
    · rw [mem_keys_iff_find, centryFind_erase_self]
      simp
    · simp only [List.length_append, List.length_cons, List.length_nil]
      omega

theorem C4_lru_eviction_witness :
    (cacheSetAll (emptyCache Nat 2 100) 0 [("a", 1), ("b", 2), ("c", 3)]).entries
      = [("b", 0, 2), ("c", 0, 3)]
    ∧ (cacheSet ((cacheGet (cacheSetAll (emptyCache Nat 2 100) 0
          [("a", 1), ("b", 2)]) 0 "a").2) 0 "c" 3).entries
      = [("a", 0, 1), ("c", 0, 3)]
    ∧ centryFind (cacheSet ⟨2, 100, [("a", 5, 1)]⟩ 7 "a" 9).entries "a"
      = some (7, 9) := by
  refine ⟨?_, ?_, ?_⟩
  · rw [C4_lru_eviction.1 Nat 2 100 0 [("a", 1), ("b", 2), ("c", 3)]
      (by decide) (by decide)]
    rfl
  · rw [C4_lru_eviction.2.1 Nat 2 100 0 ("a", 1) ("b", 2) [] "c" 3
      (by decide) (by decide) (by decide)]
    rfl
  · exact C4_lru_eviction.2.2 Nat ⟨2, 100, [("a", 5, 1)]⟩ 7 "a" 5 1 9
      (by decide) (by decide) (by decide)

theorem cacheGet_fresh_entries {V : Type} (c : Cache V) (now : Nat)
    (k : String) :
    ∀ e ∈ ((cacheGet c now k).2).entries, now - e.2.1 ≤ c.ttl := by
  have hpure : ∀ e ∈ (purgeExpired c now).entries, now - e.2.1 ≤ c.ttl := by
    intro e he
    have := (List.mem_filter.mp he).2
    simpa using this
  cases hf : centryFind (purgeExpired c now).entries k with
  | none =>
    simp only [cacheGet, hf]
    exact hpure
  | some p =>
    obtain ⟨ts, v⟩ := p
    simp only [cacheGet, hf]
    intro e he
    rcases List.mem_append.mp he with h | h
    · exact hpure e (List.mem_filter.mp h).1
    · simp only [List.mem_singleton] at h
      subst h
      exact hpure _ (centryFind_mem _ _ _ _ hf)

theorem cacheSet_fresh_entries {V : Type} (c : Cache V) (now : Nat)
    (k : String) (v : V) :
    ∀ e ∈ (cacheSet c now k v).entries, now - e.2.1 ≤ c.ttl := by
  have hpure : ∀ e ∈ (purgeExpired c now).entries, now - e.2.1 ≤ c.ttl := by
    intro e he
    have := (List.mem_filter.mp he).2
    simpa using this
  intro e he
  simp only [cacheSet] at he
  have he₂ := List.mem_of_mem_drop he
  rcases List.mem_append.mp he₂ with h | h
  · by_cases hs : (centryFind (purgeExpired c now).entries k).isSome = true
    · simp only [hs, if_true] at h
      exact hpure e (List.mem_filter.mp h).1
    · simp only [hs, Bool.false_eq_true, if_false] at h
      exact hpure e h
  · simp only [List.mem_singleton] at h
    subst h
    simp

theorem applyGets_invar {V : Type} (ops : List (String × Nat)) :
    ∀ (c : Cache V), (c.entries.map Prod.fst).Nodup →
    (((applyGets c ops).entries.map Prod.fst).Nodup
      ∧ (applyGets c ops).ttl = c.ttl
      ∧ ∀ k, cacheTs (applyGets c ops) k = cacheTs c k
          ∨ cacheTs (applyGets c ops) k = none) := by
  induction ops with
  | nil =>
    intro c hw
    exact ⟨hw, rfl, fun k => Or.inl rfl⟩
  | cons p rest ih =>
    intro c hw
    obtain ⟨k₁, t₁⟩ := p
    have hw' := cacheGet_nodup c t₁ k₁ hw
    have hstep := ih (cacheGet c t₁ k₁).2 hw'
    refine ⟨hstep.1, ?_, ?_⟩
    · rw [show applyGets c ((k₁, t₁) :: rest)
          = applyGets (cacheGet c t₁ k₁).2 rest from rfl]
      rw [hstep.2.1, (cacheGet_ttl c t₁ k₁).1]
    · intro k
      have h₁ := hstep.2.2 k
      have h₂ := cacheTs_get_invar c t₁ k₁ k hw
      rw [show applyGets c ((k₁, t₁) :: rest)
          = applyGets (cacheGet c t₁ k₁).2 rest from rfl]
      rcases h₁ with h₁ | h₁
      · rcases h₂ with h₂ | h₂
        · left; rw [h₁, h₂]
        · right; rw [h₁, h₂]
      · right; exact h₁

theorem cacheGet_miss {V : Type} (c : Cache V) (t' : Nat) (k : String)
    (h : cacheTs c k = none) : (cacheGet c t' k).1 = none := by
  have hfind : centryFind c.entries k = none := by
    cases hc : centryFind c.entries k with
    | none => rfl
    | some p => rw [cacheTs, hc] at h; simp at h
  have hnotmem : k ∉ c.entries.map Prod.fst := by
    rw [mem_keys_iff_find, hfind]
    simp
  have hpf : centryFind (purgeExpired c t').entries k = none := by
    apply centryFind_none_of_not_mem
    intro hmem
    apply hnotmem
    rcases List.mem_map.mp hmem with ⟨e, he, rfl⟩
    exact List.mem_map.mpr ⟨e, (List.mem_filter.mp he).1, rfl⟩
  simp [cacheGet, hpf]

theorem cacheGet_stale {V : Type} (c : Cache V) (t' : Nat) (k : String)
    (hw : (c.entries.map Prod.fst).Nodup) (ts : Nat)
    (hts : cacheTs c k = some ts) (hexp : c.ttl < t' - ts) :
    (cacheGet c t' k).1 = none := by
  cases hfind : centryFind c.entries k with
  | none =>
    rw [cacheTs, hfind] at hts
    simp at hts
  | some p =>
    obtain ⟨ts', v⟩ := p
    have hts'' : ts' = ts := by
      rw [cacheTs, hfind] at hts
      simpa using hts
    subst hts''
    have hfilter := centryFind_filter_eq c.entries
      (fun e => decide (t' - e.2.1 ≤ c.ttl)) k hw
    have hpf : centryFind (purgeExpired c t').entries k = none := by
      rw [show (purgeExpired c t').entries
          = c.entries.filter (fun e => decide (t' - e.2.1 ≤ c.ttl)) from rfl]
      rw [hfilter, hfind]
      have hnot : ¬ (t' - ts' ≤ c.ttl) := by omega
      simp [hnot]
    simp [cacheGet, hpf]

/-- C8: every `get` and `set` first purges all entries older than the TTL,
so afterwards every remaining entry is within the TTL of the operation
time; a `get` hit moves the entry to the most-recently-used end while
preserving its original insertion timestamp; consequently a `get` on a key
performed more than TTL after that key's last `set` returns absent no
matter how many intervening `get` hits occurred on it. -/
theorem C8_lazy_expiry :
    (∀ (V : Type) (c : Cache V) (now : Nat) (k : String),
        ∀ e ∈ ((cacheGet c now k).2).entries, now - e.2.1 ≤ c.ttl) ∧
    (∀ (V : Type) (c : Cache V) (now : Nat) (k : String) (v : V),
        ∀ e ∈ (cacheSet c now k v).entries, now - e.2.1 ≤ c.ttl) ∧
    (∀ (V : Type) (c : Cache V) (now : Nat) (k : String) (ts : Nat) (v : V),
        centryFind (purgeExpired c now).entries k = some (ts, v) →
        cacheGet c now k
          = (some v, ⟨c.maxEntries, c.ttl,
              centryErase (purgeExpired c now).entries k ++ [(k, ts, v)]⟩)) ∧
    (∀ (V : Type) (c : Cache V) (ops : List (String × Nat)) (k : String)
        (ts t' : Nat),
        (c.entries.map Prod.fst).Nodup →
        cacheTs c k = some ts →
        c.ttl < t' - ts →
        (cacheGet (applyGets c ops) t' k).1 = none) := by
  refine ⟨?_, ?_, ?_, ?_⟩
  · intro V c now k
    exact cacheGet_fresh_entries c now k
  · intro V c now k v
    exact cacheSet_fresh_entries c now k v
  · intro V c now k ts v hfind
    simp only [cacheGet, hfind]
    rfl
  · intro V c ops k ts t' hw hts hexp
    have hinv := applyGets_invar ops c hw
    rcases hinv.2.2 k with h | h
    · exact cacheGet_stale (applyGets c ops) t' k hinv.1 ts (by rw [h, hts])
        (by rw [hinv.2.1]; exact hexp)
    · exact cacheGet_miss (applyGets c ops) t' k h

theorem C8_lazy_expiry_witness :
    ((5 : Nat) - (("a", (0 : Nat), (1 : Nat)) : String × Nat × Nat).2.1
        ≤ (⟨2, 10, [("a", 0, 1)]⟩ : Cache Nat).ttl)
    ∧ ((5 : Nat) - (("k", (5 : Nat), (42 : Nat)) : String × Nat × Nat).2.1
        ≤ (⟨1, 10, []⟩ : Cache Nat).ttl)
    ∧ (cacheGet (⟨2, 10, [("a", 0, 1), ("b", 0, 2)]⟩ : Cache Nat) 5 "a"
        = (some 1, ⟨2, 10,
            centryErase (purgeExpired
              (⟨2, 10, [("a", 0, 1), ("b", 0, 2)]⟩ : Cache Nat) 5).entries "a"
              ++ [("a", 0, 1)]⟩))
    ∧ ((cacheGet (applyGets (⟨2, 3, [("a", 0, 7)]⟩ : Cache Nat)
          [("a", 2), ("a", 3)]) 10 "a").1 = none) := by
  refine ⟨?_, ?_, ?_, ?_⟩
  · exact C8_lazy_expiry.1 Nat ⟨2, 10, [("a", 0, 1)]⟩ 5 "a" ("a", 0, 1)
      (by decide)
  · exact C8_lazy_expiry.2.1 Nat ⟨1, 10, []⟩ 5 "k" 42 ("k", 5, 42) (by decide)
  · exact C8_lazy_expiry.2.2.1 Nat ⟨2, 10, [("a", 0, 1), ("b", 0, 2)]⟩ 5 "a"
      0 1 (by decide)
  · exact C8_lazy_expiry.2.2.2 Nat ⟨2, 3, [("a", 0, 7)]⟩ [("a", 2), ("a", 3)]
      "a" 0 10 (by decide) (by decide) (by decide)

/-! ### Association list and state lemmas -/
theorem alookup_aset_self {κ β : Type} [BEq κ] [LawfulBEq κ]
    (m : List (κ × β)) (k : κ) (v : β) : alookup (aset m k v) k = some v := by
  induction m with
  | nil => simp [aset, alookup]
  | cons p rest ih =>
    obtain ⟨k', v'⟩ := p
    by_cases h : k' == k
    · simp [aset, alookup, h]
    · simp only [aset, alookup, h, Bool.false_eq_true, if_false]
      exact ih

theorem alookup_aset_ne {κ β : Type} [BEq κ] [LawfulBEq κ]
    (m : List (κ × β)) (k k' : κ) (v : β) (h : k' ≠ k) :
    alookup (aset m k v) k' = alookup m k' := by
  induction m with
  | nil =>
    simp only [aset, alookup]
    have : (k == k') = false := by
      simpa using fun e => h e.symm
    simp [this]
  | cons p rest ih =>
    obtain ⟨k₀, v₀⟩ := p
    by_cases h₀ : k₀ == k
    · have hk : k₀ = k := by simpa using h₀
      have : (k₀ == k') = false := by
        simpa using fun e => h (hk ▸ e).symm
      simp [aset, alookup, h₀, this]
    · simp only [aset, alookup, h₀, Bool.false_eq_true, if_false]
      by_cases h₁ : k₀ == k'
      · simp [alookup, h₁]
      · simp only [alookup, h₁, Bool.false_eq_true, if_false]
        exact ih

theorem alookup_append_one_ne {β : Type} (h : List (Nat × β)) (m n : Nat)
    (t : β) (hn : n ≠ m) : alookup (h ++ [(m, t)]) n = alookup h n := by
  induction h with
  | nil =>
    simp only [List.nil_append, alookup]
    have : (m == n) = false := by
      simpa using fun e => hn e.symm
    simp [this]
  | cons p rest ih =>
    obtain ⟨k₀, v₀⟩ := p
    by_cases h₀ : k₀ == n
    · simp [alookup, h₀]
    · simp only [List.cons_append, alookup, h₀, Bool.false_eq_true, if_false]
      exact ih

theorem alookup_append_one_self {β : Type} (h : List (Nat × β)) (m : Nat)
    (t : β) (hb : ∀ p ∈ h, p.1 < m) : alookup (h ++ [(m, t)]) m = some t := by
  induction h with
  | nil => simp [alookup]
  | cons p rest ih =>
    obtain ⟨k₀, v₀⟩ := p
    have hk : k₀ < m := hb (k₀, v₀) (by simp)
    have : (k₀ == m) = false := by
      simpa using Nat.ne_of_lt hk
    simp only [List.cons_append, alookup, this, Bool.false_eq_true, if_false]
    exact ih fun q hq => hb q (by simp [hq])

theorem estep_refl {T : Type} (s : EState T) : EStep s s :=
  ⟨Nat.le_refl _, rfl, id⟩

theorem estep_trans {T : Type} {s₁ s₂ s₃ : EState T}
    (h₁ : EStep s₁ s₂) (h₂ : EStep s₂ s₃) : EStep s₁ s₃ :=
  ⟨Nat.le_trans h₁.1 h₂.1, h₂.2.1.trans h₁.2.1, fun w => h₂.2.2 (h₁.2.2 w)⟩

theorem estep_alloc {T : Type} (t : T) (s : EState T) : EStep s (alloc t s).2 := by
  refine ⟨by simp [alloc], by simp [alloc], fun w => ⟨?_, ?_⟩⟩
  · intro p hp
    simp only [alloc] at hp
    rcases List.mem_append.mp hp with h | h
    · exact Nat.lt_succ_of_lt (w.1 p h)
    · simp only [List.mem_singleton] at h
      subst h
      exact Nat.lt_succ_self _
  · intro k n hn
    simp only [alloc] at hn
    exact Nat.lt_succ_of_lt (w.2 k n hn)

theorem alloc_fst {T : Type} (t : T) (s : EState T) :
    (alloc t s).1 = s.nextId := rfl

theorem loadTable_ext {T : Type} (env : ExecEnv T)
    (paths : List (Int × String)) (fid sheet : Json) (s : EState T)
    (i : Nat) (s' : EState T)
    (h : loadTable env paths fid sheet s = Except.ok (i, s')) :
    EStep s s' ∧ (EWF s → i < s'.nextId) := by
  unfold loadTable at h
  simp only [] at h
  split at h
  · rename_i j hj
    cases h
    exact ⟨estep_refl s, fun w => w.2 _ _ hj⟩
  · split at h
    · cases h
    · split at h
      · cases h
        refine ⟨estep_alloc _ _, fun _ => ?_⟩
        simp [alloc]
      · rename_i path hpath
        cases h
        refine ⟨⟨by simp [alloc], by simp [alloc], fun w => ⟨?_, ?_⟩⟩,
          fun _ => by simp [alloc]⟩
        · intro p hp
          simp only [alloc] at hp
          rcases List.mem_append.mp hp with hm | hm
          · exact Nat.lt_succ_of_lt (w.1 p hm)
          · simp only [List.mem_singleton] at hm
            subst hm
            exact Nat.lt_succ_self _
        · intro k n hn
          simp only [alloc] at hn
          by_cases hk : k = tableKeyJ fid sheet
          · subst hk
            rw [alookup_aset_self] at hn
            cases hn
            exact Nat.lt_succ_self _
          · rw [alookup_aset_ne _ _ _ _ hk] at hn
            exact Nat.lt_succ_of_lt (w.2 k n hn)

theorem loadFileBranch_ext {T : Type} (env : ExecEnv T)
    (paths : List (Int × String)) (fid sheet : Json) (s : EState T)
    (i : Nat) (s' : EState T)
    (h : (if truthy fid = true then loadTable env paths fid sheet s
      else Except.ok (alloc env.emptyTable s)) = Except.ok (i, s')) :
    EStep s s' ∧ (EWF s → i < s'.nextId) := by
  by_cases ht : truthy fid = true
  · rw [if_pos ht] at h
    exact loadTable_ext _ _ _ _ _ _ _ h
  · rw [if_neg ht] at h
    cases h
    exact ⟨estep_alloc _ _, fun _ => by simp [alloc]⟩

theorem loadTableForTarget_ext {T : Type} (env : ExecEnv T)
    (paths : List (Int × String)) (dflt : Option Int) (target : Json)
    (s : EState T) (i : Nat) (s' : EState T)
    (h : loadTableForTarget env paths dflt target s = Except.ok (i, s')) :
    EStep s s' ∧ (EWF s → i < s'.nextId) := by
  unfold loadTableForTarget at h
  simp only [] at h
  split at h
  · split at h
    · split at h
      · rename_i j hj
        cases h
        refine ⟨estep_alloc _ _, fun w => ?_⟩
        simp only [alloc] at hj ⊢
        exact Nat.lt_succ_of_lt (w.2 _ _ hj)
      · cases h
        exact ⟨estep_alloc _ _, fun _ => by simp [alloc]⟩
    · exact loadFileBranch_ext env paths _ _ s i s' h
  · cases h

theorem loadMappingTargets_ext {T : Type} (env : ExecEnv T)
    (paths : List (Int × String)) :
    ∀ (mts : List Json) (acc : List T) (s : EState T) (mdfs : List T)
      (s' : EState T),
    loadMappingTargets env paths mts acc s = Except.ok (mdfs, s') →
    EStep s s' := by
  intro mts
  induction mts with
  | nil =>
    intro acc s mdfs s' h
    simp only [loadMappingTargets] at h
    cases h
    exact estep_refl _
  | cons mt rest ih =>
    intro acc s mdfs s' h
    simp only [loadMappingTargets] at h
    split at h
    · split at h
      · cases h
      · split at h
        · exact ih _ _ _ _ h
        · split at h
          · cases h
          · rename_i q hq
            exact estep_trans (loadTable_ext _ _ _ _ _ _ _ hq).1 (ih _ _ _ _ h)
    · exact ih _ _ _ _ h

theorem mappingPhase_ext {T : Type} (env : ExecEnv T)
    (paths : List (Int × String)) (dkvs : List (String × Json))
    (cfg : List (String × CfgVal T)) (s : EState T)
    (cfg' : List (String × CfgVal T)) (s' : EState T)
    (h : mappingPhase env paths dkvs cfg s = Except.ok (cfg', s')) :
    EStep s s' := by
  unfold mappingPhase at h
  simp only [] at h
  split at h
  · split at h
    · cases h
    · rename_i r hr
      obtain ⟨mdfs, s₁⟩ := r
      have he := loadMappingTargets_ext env paths _ _ _ _ _ hr
      split at h
      · cases h
        exact he
      · split at h
        · cases h
          exact he
        · cases h
          exact he
  · cases h
    exact estep_refl _

theorem buildTransformConfig_ext {T : Type} (env : ExecEnv T)
    (paths : List (Int × String)) (config nodeData : Json) (s : EState T)
    (cfg : List (String × CfgVal T)) (s' : EState T)
    (h : buildTransformConfig env paths config nodeData s
      = Except.ok (cfg, s')) : EStep s s' := by
  unfold buildTransformConfig at h
  simp only [] at h
  split at h
  · split at h
    · split at h
      · split at h
        · cases h
        · split at h
          · exact mappingPhase_ext _ _ _ _ _ _ _ h
          · split at h
            · cases h
            · rename_i q hq
              exact estep_trans (loadTable_ext _ _ _ _ _ _ _ hq).1
                (mappingPhase_ext _ _ _ _ _ _ _ h)
      · exact mappingPhase_ext _ _ _ _ _ _ _ h
    · cases h
  · cases h

theorem broadcastStore_spec {T : Type} (env : ExecEnv T) (val : T) :
    ∀ (dsts : List Json) (s : EState T),
    (∀ d ∈ dsts, isObjB d = true) → EWF s →
    ∃ s', broadcastStore env val dsts s = Except.ok s' ∧
      EWF s' ∧ s.nextId ≤ s'.nextId ∧ s'.execCount = s.execCount ∧
      (∀ n, n < s.nextId → alookup s'.heap n = alookup s.heap n) ∧
      (∀ d ∈ dsts, ∀ k, storeKeyOf d = some k →
        ∃ n, alookup s'.tableMap k = some n ∧ s.nextId ≤ n ∧
          alookup s'.heap n = some val) ∧
      (∀ k₁ k₂ n, alookup s'.tableMap k₁ = some n →
        alookup s'.tableMap k₂ = some n → s.nextId ≤ n → k₁ = k₂) ∧
      (∀ k, alookup s'.tableMap k = alookup s.tableMap k ∨
        ∃ n, alookup s'.tableMap k = some n ∧ s.nextId ≤ n ∧
          alookup s'.heap n = some val) := by
  intro dsts
  induction dsts with
  | nil =>
    intro s _ hwf
    refine ⟨s, rfl, hwf, Nat.le_refl _, rfl, fun n _ => rfl,
      fun d hd => absurd hd (List.not_mem_nil d), ?_, fun k => Or.inl rfl⟩
    intro k₁ k₂ n h₁ _ hge
    exact absurd (hwf.2 k₁ n h₁) (Nat.not_lt.mpr hge)
  | cons dst rest ih =>
    intro s hobj hwf
    have hdst := hobj dst (by simp)
    obtain ⟨tkvs, rfl⟩ : ∃ tkvs, dst = Json.obj tkvs := by
      cases dst <;> first
        | exact ⟨_, rfl⟩
        | simp [isObjB] at hdst
    have hwfa : EWF (alloc val s).2 := (estep_alloc val s).2.2 hwf
    have hheapa : (alloc val s).2.heap = s.heap ++ [(s.nextId, val)] := rfl
    have hnexta : (alloc val s).2.nextId = s.nextId + 1 := rfl
    cases hko : storeKeyOf (Json.obj tkvs) with
    | some kh =>
      have heq : broadcastStore env val (Json.obj tkvs :: rest) s =
          broadcastStore env val rest
            { (alloc val s).2 with
              tableMap := aset (alloc val s).2.tableMap kh (alloc val s).1,
              lastKey := some kh } := by
        simp only [broadcastStore, storeTableForTarget, hko]
      have hwfc : EWF
          { (alloc val s).2 with
            tableMap := aset (alloc val s).2.tableMap kh (alloc val s).1,
            lastKey := some kh } := by
        refine ⟨hwfa.1, ?_⟩
        intro k n hn
        simp only at hn
        by_cases hk : k = kh
        · subst hk
          rw [alookup_aset_self] at hn
          cases hn
          simp [alloc]
        · rw [alookup_aset_ne _ _ _ _ hk] at hn
          exact hwfa.2 k n hn
      obtain ⟨s', hrun, hwf', hmono, hec, hlow, hstored, hinj, hmap⟩ :=
        ih _ (fun d hd => hobj d (by simp [hd])) hwfc
      have hlow' : ∀ n, n < s.nextId → alookup s'.heap n = alookup s.heap n := by
        intro n hn
        rw [hlow n (by simpa using Nat.lt_succ_of_lt hn), hheapa,
          alookup_append_one_ne _ _ _ _ (Nat.ne_of_lt hn)]
      have hcell : alookup s'.heap s.nextId = some val := by
        rw [hlow s.nextId (by simp [alloc]), hheapa,
          alookup_append_one_self _ _ _ hwf.1]
      have hscmap : ∀ k,
          alookup (aset (alloc val s).2.tableMap kh (alloc val s).1) k
            = alookup (aset s.tableMap kh s.nextId) k := fun _ => rfl
      refine ⟨s', heq.trans hrun, hwf', ?_, hec, hlow', ?_, ?_, ?_⟩
      · exact Nat.le_trans (Nat.le_succ _) (by simpa using hmono)
      · intro d hd k hk
        rcases List.mem_cons.mp hd with rfl | hd'
        · rw [hko] at hk
          cases hk
          rcases hmap kh with hL | ⟨n, hn, hge, hv⟩
          · refine ⟨s.nextId, ?_, Nat.le_refl _, hcell⟩
            rw [hL, hscmap, alookup_aset_self]
          · exact ⟨n, hn, Nat.le_of_succ_le (by simpa using hge), hv⟩
        · obtain ⟨n, hn, hge, hv⟩ := hstored d hd' k hk
          exact ⟨n, hn, Nat.le_of_succ_le (by simpa using hge), hv⟩
      · intro k₁ k₂ n h₁ h₂ hge
        by_cases hge' : s.nextId + 1 ≤ n
        · exact hinj k₁ k₂ n h₁ h₂ (by simpa using hge')
        · have hn : n = s.nextId := by omega
          subst hn
          have hsc₁ : alookup (aset s.tableMap kh s.nextId) k₁
              = some s.nextId := by
            rcases hmap k₁ with hL | ⟨m, hm, hgem, _⟩
            · rw [← hscmap, ← hL]
              exact h₁
            · rw [h₁] at hm
              cases hm
              exact (Nat.not_succ_le_self s.nextId hgem).elim
          have hsc₂ : alookup (aset s.tableMap kh s.nextId) k₂
              = some s.nextId := by
            rcases hmap k₂ with hL | ⟨m, hm, hgem, _⟩
            · rw [← hscmap, ← hL]
              exact h₂
            · rw [h₂] at hm
              cases hm
              exact (Nat.not_succ_le_self s.nextId hgem).elim
          by_cases e₁ : k₁ = kh
          · by_cases e₂ : k₂ = kh
            · rw [e₁, e₂]
            · rw [alookup_aset_ne _ _ _ _ e₂] at hsc₂
              exact absurd (hwf.2 k₂ _ hsc₂) (Nat.lt_irrefl _)
          · rw [alookup_aset_ne _ _ _ _ e₁] at hsc₁
            exact absurd (hwf.2 k₁ _ hsc₁) (Nat.lt_irrefl _)
      · intro k
        rcases hmap k with hL | ⟨n, hn, hge, hv⟩
        · by_cases e : k = kh
          · subst e
            refine Or.inr ⟨s.nextId, ?_, Nat.le_refl _, hcell⟩
            rw [hL, hscmap, alookup_aset_self]
          · refine Or.inl ?_
            rw [hL, hscmap, alookup_aset_ne _ _ _ _ e]
        · exact Or.inr ⟨n, hn, Nat.le_of_succ_le (by simpa using hge), hv⟩
    | none =>
      have heq : broadcastStore env val (Json.obj tkvs :: rest) s =
          broadcastStore env val rest
            { (alloc val s).2 with lastKey := none } := by
        simp only [broadcastStore, storeTableForTarget, hko]
      have hwfc : EWF { (alloc val s).2 with lastKey := none } :=
        ⟨hwfa.1, hwfa.2⟩
      obtain ⟨s', hrun, hwf', hmono, hec, hlow, hstored, hinj, hmap⟩ :=
        ih _ (fun d hd => hobj d (by simp [hd])) hwfc
      have hlow' : ∀ n, n < s.nextId → alookup s'.heap n = alookup s.heap n := by
        intro n hn
        rw [hlow n (by simpa using Nat.lt_succ_of_lt hn), hheapa,
          alookup_append_one_ne _ _ _ _ (Nat.ne_of_lt hn)]
      refine ⟨s', heq.trans hrun, hwf', ?_, hec, hlow', ?_, ?_, ?_⟩
      · exact Nat.le_trans (Nat.le_succ _) (by simpa using hmono)
      · intro d hd k hk
        rcases List.mem_cons.mp hd with rfl | hd'
        · rw [hko] at hk
          cases hk
        · obtain ⟨n, hn, hge, hv⟩ := hstored d hd' k hk
          exact ⟨n, hn, Nat.le_of_succ_le (by simpa using hge), hv⟩
      · intro k₁ k₂ n h₁ h₂ hge
        by_cases hge' : s.nextId + 1 ≤ n
        · exact hinj k₁ k₂ n h₁ h₂ (by simpa using hge')
        · have hn : n = s.nextId := by omega
          subst hn
          rcases hmap k₁ with hL | ⟨m, hm, hgem, _⟩
          · rw [hL] at h₁
            exact absurd (hwf.2 k₁ _ h₁) (Nat.lt_irrefl _)
          · rw [h₁] at hm
            cases hm
            exact (Nat.not_succ_le_self s.nextId hgem).elim
      · intro k
        rcases hmap k with hL | ⟨n, hn, hge, hv⟩
        · exact Or.inl hL
        · exact Or.inr ⟨n, hn, Nat.le_of_succ_le (by simpa using hge), hv⟩

/-- C6.  Broadcast (1:N) mode of `execute_flow` (`transform_service.py`
lines 163-182): for a node whose prepared source list is a single target and
whose destination list has more than one entry, when the built config is
obtained, the source loads, and validation passes, the node executes the
transform exactly once; every destination key receives a table equal to the
single result; and distinct destination keys are bound to distinct heap
cells, so overwriting the cell of one destination leaves the table of the
other destination unchanged (no aliasing: each store writes a fresh
`.copy()`). -/
theorem C6_broadcast_no_alias {T : Type} (env : ExecEnv T)
    (paths : List (Int × String)) (dflt : Option Int) (node : Json)
    (s : EState T) (prep : NodePrep T) (src : Json) (dsts : List Json)
    (cfg : List (String × CfgVal T)) (s₀ : EState T) (i : Nat)
    (s₁ : EState T)
    (hwf : EWF s)
    (hprep : nodePrep env node = Except.ok (some prep))
    (hsrc : prep.sources = Json.arr [src])
    (hdst : prep.dests = Json.arr dsts)
    (hlen : 2 ≤ dsts.length)
    (hobj : ∀ d ∈ dsts, isObjB d = true)
    (hcfg : buildTransformConfig env paths prep.config prep.nodeData s
      = Except.ok (cfg, s₀))
    (hload : loadTableForTarget env paths dflt src s₀ = Except.ok (i, s₁))
    (hvalid : prep.transform.validate (heapGet env s₁ i) cfg = true) :
    ∃ s', processNode env paths dflt node s = Except.ok s' ∧
      s'.execCount = s.execCount + 1 ∧
      (∀ d ∈ dsts, ∀ k, storeKeyOf d = some k →
        ∃ n, alookup s'.tableMap k = some n ∧
          alookup s'.heap n
            = some (prep.transform.run (heapGet env s₁ i) cfg)) ∧
      (∀ d₁ ∈ dsts, ∀ d₂ ∈ dsts, ∀ k₁ k₂,
        storeKeyOf d₁ = some k₁ → storeKeyOf d₂ = some k₂ → k₁ ≠ k₂ →
        ∃ n₁ n₂, alookup s'.tableMap k₁ = some n₁ ∧
          alookup s'.tableMap k₂ = some n₂ ∧ n₁ ≠ n₂ ∧
          ∀ t', alookup (aset s'.heap n₁ t') n₂
            = some (prep.transform.run (heapGet env s₁ i) cfg)) := by
  have hs₀ := buildTransformConfig_ext env paths _ _ s cfg s₀ hcfg
  have hl := loadTableForTarget_ext env paths dflt src s₀ i s₁ hload
  have hwf₀ : EWF s₀ := hs₀.2.2 hwf
  have hwf₁ : EWF s₁ := hl.1.2.2 hwf₀
  have hrv :
      heapGet env (allocRun prep.transform (heapGet env s₁ i) cfg s₁).2
        (allocRun prep.transform (heapGet env s₁ i) cfg s₁).1
      = prep.transform.run (heapGet env s₁ i) cfg := by
    show (alookup
      (s₁.heap ++ [(s₁.nextId, prep.transform.run (heapGet env s₁ i) cfg)])
      s₁.nextId).getD env.emptyTable = _
    rw [alookup_append_one_self _ _ _ hwf₁.1]
    rfl
  have hwf₂ : EWF (allocRun prep.transform (heapGet env s₁ i) cfg s₁).2 :=
    ⟨((estep_alloc (prep.transform.run (heapGet env s₁ i) cfg) s₁).2.2
        hwf₁).1,
      ((estep_alloc (prep.transform.run (heapGet env s₁ i) cfg) s₁).2.2
        hwf₁).2⟩
  obtain ⟨s', hrun, hwf', hmono, hec, hlow, hstored, hinj, hmap⟩ :=
    broadcastStore_spec env (prep.transform.run (heapGet env s₁ i) cfg)
      dsts (allocRun prep.transform (heapGet env s₁ i) cfg s₁).2 hobj hwf₂
  have hne1 : ¬(dsts.length < 1 ∧ truthy (Json.arr dsts) = true) := by
    intro hc
    exact absurd hc.1 (by omega)
  have hpos2 : (1 = 1 ∧ 1 < dsts.length) := ⟨rfl, by omega⟩
  have hpn : processNode env paths dflt node s = Except.ok s' := by
    rw [← hrun, ← hrv]
    simp only [processNode, hprep, execBranch, hcfg, hsrc, hdst, pyLen,
      pyElems, List.length_cons, List.length_nil]
    rw [if_neg (by simpa using hne1), if_pos (by simpa using hpos2)]
    simp only [pyIndex0, hload, hvalid, if_true]
  have hecs : s'.execCount = s.execCount + 1 := by
    have h₂ : (allocRun prep.transform (heapGet env s₁ i) cfg s₁).2.execCount
        = s₁.execCount + 1 := rfl
    rw [hec, h₂, hl.1.2.1, hs₀.2.1]
  refine ⟨s', hpn, hecs, ?_, ?_⟩
  · intro d hd k hk
    obtain ⟨n, hm, _, hv⟩ := hstored d hd k hk
    exact ⟨n, hm, hv⟩
  · intro d₁ h₁ d₂ h₂ k₁ k₂ hk₁ hk₂ hne
    obtain ⟨n₁, hm₁, hge₁, hv₁⟩ := hstored d₁ h₁ k₁ hk₁
    obtain ⟨n₂, hm₂, hge₂, hv₂⟩ := hstored d₂ h₂ k₂ hk₂
    have hnn : n₁ ≠ n₂ := by
      intro e
      exact hne (hinj k₁ k₂ n₁ hm₁ (by rw [e]; exact hm₂) hge₁)
    refine ⟨n₁, n₂, hm₁, hm₂, hnn, fun t' => ?_⟩
    rw [alookup_aset_ne s'.heap n₁ n₂ t' (Ne.symm hnn)]
    exact hv₂

/-- C1.  `execute_flow` returns the PAIR `(table_map, last_table_key)`
(`transform_service.py` line 209, return type annotation line 13) — not the
triple `(table_map, last_written_key, terminal_keys)` the specification
describes: no terminal-key classification exists anywhere in
`transform_service.py`.  Evaluating the embedding on a concrete one-node
flow exhibits the complete result: a Table Map binding one destination key
and the last written key, with no third component.  Every caller in
`transform.py` (lines 77, 205, 311, 424) unpacks three values
(`table_map, _, terminal_keys = TransformService.execute_flow(...)`), which
raises `ValueError: not enough values to unpack` at runtime. -/
theorem C1_execute_flow_returns_pair :
    executeFlow demoEnv [] demoFlow
      = Except.ok ([("virtual:a", 1)], some "virtual:a") := rfl

theorem C6_broadcast_no_alias_witness :
    ∃ s', processNode demoEnv [] none demoNodeB (initEState Nat)
        = Except.ok s' ∧
      s'.execCount = (initEState Nat).execCount + 1 ∧
      (∀ d ∈ [demoDstA, demoDstB], ∀ k, storeKeyOf d = some k →
        ∃ n, alookup s'.tableMap k = some n ∧
          alookup s'.heap n = some (demoPrepB.transform.run
            (heapGet demoEnv (⟨[(0, 0)], 1, [], none, 0⟩ : EState Nat) 0)
            [])) ∧
      (∀ d₁ ∈ [demoDstA, demoDstB], ∀ d₂ ∈ [demoDstA, demoDstB], ∀ k₁ k₂,
        storeKeyOf d₁ = some k₁ → storeKeyOf d₂ = some k₂ → k₁ ≠ k₂ →
        ∃ n₁ n₂, alookup s'.tableMap k₁ = some n₁ ∧
          alookup s'.tableMap k₂ = some n₂ ∧ n₁ ≠ n₂ ∧
          ∀ t', alookup (aset s'.heap n₁ t') n₂
            = some (demoPrepB.transform.run
              (heapGet demoEnv (⟨[(0, 0)], 1, [], none, 0⟩ : EState Nat) 0)
              [])) :=
  C6_broadcast_no_alias demoEnv [] none demoNodeB (initEState Nat) demoPrepB
    demoSrcT [demoDstA, demoDstB] [] (initEState Nat) 0
    ⟨[(0, 0)], 1, [], none, 0⟩
    ⟨fun p hp => absurd hp (List.not_mem_nil p),
      fun k n hn => by simp [alookup] at hn⟩
    rfl rfl rfl (by decide)
    (by
      intro d hd
      rcases List.mem_cons.mp hd with rfl | hd'
      · rfl
      rcases List.mem_cons.mp hd' with rfl | hd''
      · rfl
      · exact absurd hd'' (List.not_mem_nil d))
    rfl rfl rfl

theorem storeKeyOf_none (tkvs : List (String × Json))
    (hvirt : ∀ w, (jlookup tkvs "virtualId").getD Json.null ≠ Json.str w)
    (hfid : truthy ((jlookup tkvs "fileId").getD Json.null) = false) :
    storeKeyOf (Json.obj tkvs) = none := by
  unfold storeKeyOf
  simp only []
  cases hv : (jlookup tkvs "virtualId").getD Json.null <;>
    first
      | exact absurd hv (hvirt _)
      | simp only [hfid, Bool.false_eq_true, if_false]

theorem loadTarget_default_eq {T : Type} (env : ExecEnv T)
    (paths : List (Int × String)) (d : Int) (tkvs : List (String × Json))
    (s : EState T)
    (hvirt : ∀ w, (jlookup tkvs "virtualId").getD Json.null ≠ Json.str w)
    (hfid : truthy ((jlookup tkvs "fileId").getD Json.null) = false)
    (hd : d ≠ 0) :
    loadTableForTarget env paths (some d) (Json.obj tkvs) s
      = loadTable env paths (Json.num d)
          ((jlookup tkvs "sheetName").getD Json.null) s := by
  unfold loadTableForTarget
  simp only []
  cases hv : (jlookup tkvs "virtualId").getD Json.null <;>
    first
      | exact absurd hv (hvirt _)
      | (simp only [hfid, Bool.false_eq_true, if_false]
         rw [if_pos (show truthy (Json.num d) = true by simp [truthy, hd])])

theorem loadTable_parse {T : Type} (env : ExecEnv T) (d : Int)
    (path : String) (paths : List (Int × String)) (sheet : Json)
    (s : EState T)
    (hmiss : alookup s.tableMap (tableKeyJ (Json.num d) sheet) = none)
    (hfind : lookupPathFor paths (some d) = some path)
    (hb : ∀ p ∈ s.heap, p.1 < s.nextId) :
    ∃ s', loadTable env paths (Json.num d) sheet s
        = Except.ok (s.nextId, s') ∧
      alookup s'.heap s.nextId = some (env.parseFile path sheet) := by
  unfold loadTable
  simp only [hmiss, pyIdKey, hfind]
  exact ⟨_, rfl, alookup_append_one_self _ _ _ hb⟩

/-- C9.  A target with neither a `virtualId` string nor a truthy `fileId`:
as a source, `load_table_for_target` substitutes the default file id (the
first supplied file) via `fileId or default_file_id`
(`transform_service.py` line 43) and loads that file's table — parsing the
default file's path on a Table Map miss — instead of failing or returning
an empty table; as a destination, `store_table_for_target` (lines 55-57)
writes nothing and returns `None`, so in 1:1 mode line 204 sets
`last_table_key` to `None` rather than keeping the previously written
key. -/
theorem C9_default_file_fallback {T : Type} (env : ExecEnv T) (d : Int)
    (path : String) (rest : List (Int × String))
    (tkvs : List (String × Json))
    (hvirt : ∀ w, (jlookup tkvs "virtualId").getD Json.null ≠ Json.str w)
    (hfid : truthy ((jlookup tkvs "fileId").getD Json.null) = false)
    (hd : d ≠ 0) :
    (∀ s : EState T,
      loadTableForTarget env ((d, path) :: rest) (some d) (Json.obj tkvs) s
        = loadTable env ((d, path) :: rest) (Json.num d)
            ((jlookup tkvs "sheetName").getD Json.null) s) ∧
    (∀ s : EState T,
      alookup s.tableMap (tableKeyJ (Json.num d)
        ((jlookup tkvs "sheetName").getD Json.null)) = none →
      (∀ p ∈ s.heap, p.1 < s.nextId) →
      ∃ s', loadTableForTarget env ((d, path) :: rest) (some d)
          (Json.obj tkvs) s = Except.ok (s.nextId, s') ∧
        alookup s'.heap s.nextId
          = some (env.parseFile path
              ((jlookup tkvs "sheetName").getD Json.null))) ∧
    (∀ (objId : Nat) (s : EState T),
      storeTableForTarget (Json.obj tkvs) objId s = Except.ok (none, s)) ∧
    (∀ (paths' : List (Int × String)) (dflt : Option Int) (node : Json)
      (s : EState T) (prep : NodePrep T) (src : Json)
      (cfg : List (String × CfgVal T)) (s₀ : EState T) (i : Nat)
      (s₁ : EState T),
      nodePrep env node = Except.ok (some prep) →
      prep.sources = Json.arr [src] →
      prep.dests = Json.arr [Json.obj tkvs] →
      buildTransformConfig env paths' prep.config prep.nodeData s
        = Except.ok (cfg, s₀) →
      loadTableForTarget env paths' dflt src s₀ = Except.ok (i, s₁) →
      prep.transform.validate (heapGet env s₁ i) cfg = true →
      ∃ s', processNode env paths' dflt node s = Except.ok s' ∧
        s'.lastKey = none) := by
  have hfind : lookupPathFor ((d, path) :: rest) (some d) = some path := by
    have hf : List.find? (fun p => p.1 == d) ((d, path) :: rest)
        = some (d, path) := List.find?_cons_of_pos _ (by simp)
    simp [lookupPathFor, hf]
  refine ⟨?_, ?_, ?_, ?_⟩
  · intro s
    exact loadTarget_default_eq env _ d tkvs s hvirt hfid hd
  · intro s hmiss hb
    rw [loadTarget_default_eq env _ d tkvs s hvirt hfid hd]
    exact loadTable_parse env d path _ _ s hmiss hfind hb
  · intro objId s
    unfold storeTableForTarget
    simp only [storeKeyOf_none tkvs hvirt hfid]
  · intro paths' dflt node s prep src cfg s₀ i s₁ hprep hsrc hdst hcfg
      hload hvalid
    refine ⟨{ (allocRun prep.transform (heapGet env s₁ i) cfg s₁).2 with
      lastKey := none }, ?_, rfl⟩
    simp only [processNode, hprep, execBranch, hcfg, hsrc, hdst, pyLen,
      pyElems, List.length_cons, List.length_nil]
    rw [if_neg (fun hc => absurd hc.1 (by omega)),
      if_neg (fun hc => absurd hc.2 (by omega)),
      if_neg (fun hc => hc rfl)]
    simp only [List.zip_cons_cons, List.zip_nil_left, pairLoop, hload,
      hvalid, if_true, storeTableForTarget, storeKeyOf_none tkvs hvirt hfid]

theorem C9_default_file_fallback_witness :
    (loadTableForTarget demoEnv [(1, "f")] (some 1) (Json.obj [])
        (initEState Nat)
      = loadTable demoEnv [(1, "f")] (Json.num 1) Json.null
          (initEState Nat)) ∧
    (∃ s', loadTableForTarget demoEnv [(1, "f")] (some 1) (Json.obj [])
        (initEState Nat) = Except.ok (0, s') ∧
      alookup s'.heap 0 = some 5) ∧
    (storeTableForTarget (Json.obj []) 7
        (⟨[], 0, [], some "x", 0⟩ : EState Nat)
      = Except.ok (none, (⟨[], 0, [], some "x", 0⟩ : EState Nat))) ∧
    (∃ s', processNode demoEnv [(1, "f")] (some 1) demoNode9
        (⟨[], 0, [], some "x", 0⟩ : EState Nat) = Except.ok s' ∧
      s'.lastKey = none) := by
  have h := C9_default_file_fallback demoEnv 1 "f"
    ([] : List (Int × String)) ([] : List (String × Json))
    (fun w hw => Json.noConfusion hw) rfl (by decide)
  exact ⟨h.1 (initEState Nat),
    h.2.1 (initEState Nat) rfl (fun p hp => absurd hp (List.not_mem_nil p)),
    h.2.2.1 7 ⟨[], 0, [], some "x", 0⟩,
    h.2.2.2 [(1, "f")] (some 1) demoNode9 ⟨[], 0, [], some "x", 0⟩ demoPrep9
      demoSrcT [] ⟨[], 0, [], some "x", 0⟩ 0 ⟨[(0, 0)], 1, [], some "x", 0⟩
      rfl rfl rfl rfl rfl rfl⟩

theorem alookup_map_guard {β : Type} (l : List (Nat × β)) (aa b : Nat)
    (g : β → β) (hne : b ≠ aa) :
    alookup (l.map (fun c => if c.1 == aa then (c.1, g c.2) else c)) b
      = alookup l b := by
  induction l with
  | nil => rfl
  | cons p rest ih =>
    obtain ⟨k₀, v₀⟩ := p
    simp only [List.map_cons]
    by_cases hk : (k₀ == aa) = true
    · rw [if_pos hk]
      have hkb : (k₀ == b) = false := by
        have h1 : k₀ = aa := by simpa using hk
        subst h1
        simpa using fun e => hne e.symm
      simp only [alookup, hkb, Bool.false_eq_true, if_false]
      exact ih
    · rw [if_neg hk]
      simp only [alookup]
      by_cases hb : (k₀ == b) = true
      · simp only [hb, if_true]
      · simp only [hb, Bool.false_eq_true, if_false]
        exact ih

theorem alookup_dsetAt_ne {T : Type} (h : DHeap T) (aa b : Nat) (k : String)
    (v : CfgVal T) (hne : b ≠ aa) :
    alookup (dsetAt h aa k v).cells b = alookup h.cells b :=
  alookup_map_guard h.cells aa b (fun d => aset d k v) hne

theorem alookup_mem {κ β : Type} [BEq κ] [LawfulBEq κ]
    (l : List (κ × β)) (k : κ) (v : β) (h : alookup l k = some v) :
    (k, v) ∈ l := by
  induction l with
  | nil => cases h
  | cons p rest ih =>
    obtain ⟨k₀, v₀⟩ := p
    by_cases hk : k₀ == k
    · simp only [alookup, hk, if_true] at h
      cases h
      have : k₀ = k := by simpa using hk
      subst this
      simp
    · simp only [alookup, hk, Bool.false_eq_true, if_false] at h
      simp [ih h]

theorem mappingPhaseH_addr {T : Type} (paths : List (Int × String))
    (loadVal : Json → Json → T) (dkvs : List (String × Json)) (hh : DHeap T)
    (aa : Nat) (h' : DHeap T) (a' : Nat)
    (h : mappingPhaseH paths loadVal dkvs hh aa = Except.ok (h', a')) :
    a' = aa ∧ ∀ b, b ≠ aa → alookup h'.cells b = alookup hh.cells b := by
  unfold mappingPhaseH at h
  simp only [] at h
  split at h
  · split at h
    · cases h
    · split at h
      · cases h
        exact ⟨rfl, fun b _ => rfl⟩
      · split at h
        · cases h
          exact ⟨rfl, fun b hb => alookup_dsetAt_ne _ _ _ _ _ hb⟩
        · cases h
          refine ⟨rfl, fun b hb => ?_⟩
          rw [alookup_dsetAt_ne _ _ _ _ _ hb, alookup_dsetAt_ne _ _ _ _ _ hb]
  · cases h
    exact ⟨rfl, fun b _ => rfl⟩

/-- C10.  `build_transform_config` clones the stored config before
injecting resolved tables (`next_config = dict(config)`, line 68): over the
addressed-dict embedding, the returned config is a fresh address (not one
of the flow document's dicts) and every pre-existing dict — every dict of
the stored flow document, including the node's own `config` — holds exactly
the contents it held before, so the stored flow data is structurally equal
before and after the call, and hence before and after `execute_flow`, whose
only other effects are reads of the document and `table_map` writes. -/
theorem C10_config_cloned_document_unchanged {T : Type}
    (paths : List (Int × String)) (loadVal : Json → Json → T) (h : DHeap T)
    (cfgAddr : Nat) (nodeData : Json) (h' : DHeap T) (a : Nat)
    (hwf : ∀ c ∈ h.cells, c.1 < h.next)
    (hok : buildTransformConfigH paths loadVal h cfgAddr nodeData
      = Except.ok (h', a)) :
    h.next ≤ a ∧ alookup h.cells a = none ∧
    (∀ b, b < h.next → alookup h'.cells b = alookup h.cells b) := by
  unfold buildTransformConfigH at hok
  simp only [] at hok
  have hbase : ∀ (hp : DHeap T), hp.cells = h.cells ++ [(h.next,
      (alookup h.cells cfgAddr).getD [])] → hp.next = h.next + 1 →
      ∀ b, b < h.next → alookup hp.cells b = alookup h.cells b := by
    intro hp hc _ b hb
    rw [hc, alookup_append_one_ne _ _ _ _ (Nat.ne_of_lt hb)]
  have hnone : alookup h.cells h.next = none := by
    cases hcell : alookup h.cells h.next with
    | none => rfl
    | some v =>
      have := hwf _ (alookup_mem _ _ _ hcell)
      exact absurd this (Nat.lt_irrefl _)
  split at hok
  · split at hok
    · split at hok
      · cases hok
      · split at hok
        · obtain ⟨ha, hrest⟩ := mappingPhaseH_addr _ _ _ _ _ _ _ hok
          subst ha
          refine ⟨Nat.le_refl _, hnone, fun b hb => ?_⟩
          rw [hrest b (Nat.ne_of_lt hb)]
          exact hbase _ rfl rfl b hb
        · obtain ⟨ha, hrest⟩ := mappingPhaseH_addr _ _ _ _ _ _ _ hok
          subst ha
          refine ⟨Nat.le_refl _, hnone, fun b hb => ?_⟩
          rw [hrest b (Nat.ne_of_lt hb)]
          rw [alookup_dsetAt_ne
            (dalloc h ((alookup h.cells cfgAddr).getD [])).2
            (dalloc h ((alookup h.cells cfgAddr).getD [])).1 b "lookup_df" _
            (Nat.ne_of_lt hb)]
          exact hbase _ rfl rfl b hb
    · obtain ⟨ha, hrest⟩ := mappingPhaseH_addr _ _ _ _ _ _ _ hok
      subst ha
      refine ⟨Nat.le_refl _, hnone, fun b hb => ?_⟩
      rw [hrest b (Nat.ne_of_lt hb)]
      exact hbase _ rfl rfl b hb
  · cases hok

theorem C10_config_cloned_document_unchanged_witness :
    1 ≤ 1 ∧
    alookup ([(0, [("x", CfgVal.js Json.null)])]
        : List (Nat × List (String × CfgVal Nat))) 1 = none ∧
    alookup ([(0, [("x", CfgVal.js Json.null)]),
        (1, [("x", CfgVal.js Json.null)])]
        : List (Nat × List (String × CfgVal Nat))) 0
      = alookup ([(0, [("x", CfgVal.js Json.null)])]
        : List (Nat × List (String × CfgVal Nat))) 0 := by
  have h := C10_config_cloned_document_unchanged ([] : List (Int × String))
    (fun _ _ => (0 : Nat)) ⟨[(0, [("x", CfgVal.js Json.null)])], 1⟩ 0
    (Json.obj [])
    ⟨[(0, [("x", CfgVal.js Json.null)]), (1, [("x", CfgVal.js Json.null)])],
      2⟩ 1
    (fun c hc => by
      rw [List.mem_singleton] at hc
      subst hc
      decide)
    rfl
  exact ⟨h.1, h.2.1, h.2.2 0 (by decide)⟩

theorem objSet_ne_nil (kvs : List (String × Json)) (k : String) (v : Json) :
    objSet kvs k v ≠ [] := by
  cases kvs with
  | nil => simp [objSet]
  | cons p rest =>
    obtain ⟨k', v'⟩ := p
    simp only [objSet]
    split <;> simp

theorem truthy_removeFileId (d : Json) (fid : Int) :
    truthy (removeFileId d fid).1 = truthy d := by
  cases d with
  | obj kvs =>
    cases kvs with
    | nil => rfl
    | cons p rest =>
      cases hn : jgetD (Json.obj (p :: rest)) "nodes" (Json.arr []) with
      | arr ns =>
        by_cases hany :
            (ns.map (fun n => removeFromNode n fid)).any Prod.snd = true
        · simp only [removeFileId, hn, hany, if_true, truthy]
          rw [List.isEmpty_eq_false.mpr (objSet_ne_nil _ _ _)]
          simp [List.isEmpty]
        · simp only [removeFileId, hn]
          rw [if_neg (by simpa using hany)]
      | null => simp [removeFileId, hn]
      | bool b => simp [removeFileId, hn]
      | num n => simp [removeFileId, hn]
      | str s => simp [removeFileId, hn]
      | obj kvs' => simp [removeFileId, hn]
  | null => rfl
  | bool b => rfl
  | num n => rfl
  | str s => rfl
  | arr xs => rfl

theorem truthy_scrubDoc (fids : List Int) (doc : Json) :
    truthy (scrubDoc doc fids) = truthy doc := by
  induction fids generalizing doc with
  | nil => rfl
  | cons f rest ih =>
    show truthy (scrubDoc ((removeFileId doc f).1) rest) = truthy doc
    rw [ih, truthy_removeFileId]

theorem scrubDoc_extract_subset (fids : List Int) (doc : Json) :
    extractFileIds (scrubDoc doc fids) ⊆ extractFileIds doc := by
  induction fids generalizing doc with
  | nil => exact fun a ha => ha
  | cons f rest ih =>
    intro a ha
    have h₁ := ih ((removeFileId doc f).1) ha
    rw [removeFileId_extract] at h₁
    exact (Finset.mem_sdiff.mp h₁).1

theorem scrubDoc_extract_keep (fids : List Int) (doc : Json) (a : Int)
    (hnot : a ∉ fids) (hmem : a ∈ extractFileIds doc) :
    a ∈ extractFileIds (scrubDoc doc fids) := by
  induction fids generalizing doc with
  | nil => exact hmem
  | cons f rest ih =>
    have hne : a ≠ f := fun e => hnot (by simp [e])
    have hnot' : a ∉ rest := fun e => hnot (by simp [e])
    show a ∈ extractFileIds (scrubDoc ((removeFileId doc f).1) rest)
    refine ih ((removeFileId doc f).1) hnot' ?_
    rw [removeFileId_extract]
    exact Finset.mem_sdiff.mpr ⟨hmem, by simp [hne]⟩

theorem invA_referenced {db₀ : DB} {bId : Int} {x : FileRec} {db : DB}
    (h : InvA db₀ bId x db) : isFileReferenced db x.id = true := by
  obtain ⟨_, _, _, _, ⟨fl, hmem, _, htr, hx⟩, _⟩ := h
  unfold isFileReferenced
  rw [List.any_eq_true]
  refine ⟨fl, hmem, ?_⟩
  rw [Bool.and_eq_true, htr]
  exact ⟨rfl, List.elem_iff.mpr (List.mem_toFinset.mp hx)⟩

theorem deleteBatch_invA {db₀ : DB} {aId bId : Int} {x : FileRec} {db : DB}
    {bid : Int} {db' : DB}
    (hg : XGood db₀ aId x) (hinv : InvA db₀ bId x db)
    (hne : x.batchId ≠ some bid)
    (h' : deleteBatch db bid = some db') :
    InvA db₀ bId x db' := by
  obtain ⟨hxmem, hfsub, hbsub, hdisk, ⟨fl, hflmem, hflid, hfltr, hflx⟩,
    hcorr⟩ := hinv
  unfold deleteBatch at h'
  split at h'
  · cases h'
  · cases h'
    have hxid : ∀ f ∈ db.files, f.batchId = some bid → f.id ≠ x.id := by
      intro f hf hfb he
      have := hg.1 f (hfsub f hf) he
      rw [this] at hfb
      exact hne hfb
    have hxnotin : x.id ∉ (db.files.filter
        (fun f => f.batchId == some bid)).map FileRec.id := by
      intro hmem
      obtain ⟨f, hf, hfid⟩ := List.mem_map.mp hmem
      obtain ⟨hf₁, hf₂⟩ := List.mem_filter.mp hf
      exact hxid f hf₁ (by simpa using hf₂) hfid
    refine ⟨?_, ?_, ?_, ?_, ?_, ?_⟩
    · refine List.mem_filter.mpr ⟨hxmem, ?_⟩
      simpa using hne
    · intro f hf
      exact hfsub f (List.mem_filter.mp hf).1
    · intro K hK
      exact hbsub K (List.mem_filter.mp hK).1
    · refine List.mem_filter.mpr ⟨hdisk, ?_⟩
      rw [Bool.not_eq_eq_eq_not, Bool.not_true, List.any_eq_false]
      intro f hf
      obtain ⟨hf₁, hf₂⟩ := List.mem_filter.mp hf
      intro hcontra
      have hfn : f.filename = x.filename := by simpa using hcontra
      have hfx := hg.2.1 f (hfsub f hf₁) hfn
      rw [hfx] at hf₂
      exact hne (by simpa using hf₂)
    · refine ⟨⟨fl.id, scrubDoc fl.doc
        ((db.files.filter (fun f => f.batchId == some bid)).map
          FileRec.id)⟩, ?_, hflid, ?_, ?_⟩
      · exact List.mem_map.mpr ⟨fl, hflmem, rfl⟩
      · rw [truthy_scrubDoc]
        exact hfltr
      · exact scrubDoc_extract_keep _ _ _ hxnotin hflx
    · intro fl' hfl'
      obtain ⟨fl₁, hfl₁, hfl₁eq⟩ := List.mem_map.mp hfl'
      obtain ⟨fl₀, hfl₀, hid, htr, hsub⟩ := hcorr fl₁ hfl₁
      refine ⟨fl₀, hfl₀, ?_, ?_, ?_⟩
      · rw [← hfl₁eq]
        exact hid
      · rw [← hfl₁eq]
        show truthy (scrubDoc fl₁.doc _) = truthy fl₀.doc
        rw [truthy_scrubDoc]
        exact htr
      · rw [← hfl₁eq]
        show extractFileIds (scrubDoc fl₁.doc _) ⊆ extractFileIds fl₀.doc
        exact fun a ha => hsub (scrubDoc_extract_subset _ _ ha)

theorem step15_invA {db₀ : DB} {aId bId : Int} {x : FileRec}
    (hg : XGood db₀ aId x) :
    ∀ (bids : List Int) (acc : DB × List Int),
    (∀ bid ∈ bids, x.batchId ≠ some bid) → InvA db₀ bId x acc.1 →
    InvA db₀ bId x (bids.foldl step15body acc).1 := by
  intro bids
  induction bids with
  | nil => exact fun acc _ h => h
  | cons bid rest ih =>
    intro acc hb hinv
    show InvA db₀ bId x ((rest.foldl step15body (step15body acc bid)).1)
    refine ih (step15body acc bid) (fun b hbm => hb b (by simp [hbm])) ?_
    unfold step15body
    split
    · exact hinv
    · split
      · exact hinv
      · rename_i db' hdb'
        exact deleteBatch_invA hg hinv (hb bid (by simp)) hdb'

theorem step3_invA {db₀ : DB} {aId bId : Int} {x : FileRec}
    (hg : XGood db₀ aId x) :
    ∀ (bids : List Int) (acc : DB × List Int),
    InvA db₀ bId x acc.1 →
    InvA db₀ bId x (bids.foldl step3body acc).1 := by
  intro bids
  induction bids with
  | nil => exact fun acc h => h
  | cons bid rest ih =>
    intro acc hinv
    show InvA db₀ bId x ((rest.foldl step3body (step3body acc bid)).1)
    refine ih (step3body acc bid) ?_
    unfold step3body
    split
    · exact hinv
    · split
      · exact hinv
      · split
        · simp only []
          split <;> exact hinv
        · rename_i db' hdb'
          simp only []
          split
          · exact hinv
          · rename_i hnotany
            refine deleteBatch_invA hg hinv ?_ hdb'
            intro he
            apply hnotany
            rw [List.any_eq_true]
            refine ⟨x, List.mem_filter.mpr ⟨hinv.1, by simpa using he⟩, ?_⟩
            exact invA_referenced hinv

theorem step4_invA {db₀ : DB} {aId bId : Int} {x : FileRec}
    (hg : XGood db₀ aId x) :
    ∀ (fids : List Int) (acc : DB × List Int),
    InvA db₀ bId x acc.1 →
    InvA db₀ bId x (fids.foldl step4body acc).1 := by
  intro fids
  induction fids with
  | nil => exact fun acc h => h
  | cons fid rest ih =>
    intro acc hinv
    show InvA db₀ bId x ((rest.foldl step4body (step4body acc fid)).1)
    refine ih (step4body acc fid) ?_
    unfold step4body
    split
    · exact hinv
    · rename_i hnotref
      split
      · exact hinv
      · rename_i f hf
        have hfp := List.find?_some hf
        have hfmem : f ∈ acc.1.files := List.mem_of_find?_eq_some hf
        have hfid : f.id = fid := by simpa using hfp
        have hne : fid ≠ x.id := by
          intro he
          exact hnotref (by rw [he]; exact invA_referenced hinv)
        obtain ⟨hxmem, hfsub, hbsub, hdisk, hB, hcorr⟩ := hinv
        refine ⟨?_, ?_, hbsub, ?_, hB, hcorr⟩
        · refine List.mem_filter.mpr ⟨hxmem, ?_⟩
          simpa using fun e => hne e.symm
        · intro g hg'
          exact hfsub g (List.mem_filter.mp hg').1
        · refine List.mem_filter.mpr ⟨hdisk, ?_⟩
          have hfx : f ≠ x := by
            intro he
            rw [he] at hfid
            exact hne hfid.symm
          have : f.filename ≠ x.filename := by
            intro he
            exact hfx (hg.2.1 f (hfsub f hfmem) he)
          simpa using fun e => this e.symm

theorem deleteFlow_keeps_referenced {db₀ : DB} {aId bId : Int}
    {aF : FlowRec} {x : FileRec}
    (hfindA : db₀.flows.find? (fun fl => fl.id == aId) = some aF)
    (hAB : aId ≠ bId)
    (hg : XGood db₀ aId x)
    (hinv : InvA db₀ bId x db₀) :
    ∃ r, deleteFlow db₀ aId = some r ∧ InvA db₀ bId x r.1 := by
  unfold deleteFlow
  rw [hfindA]
  simp only []
  refine ⟨_, rfl, ?_⟩
  apply step4_invA hg
  apply step3_invA hg
  have hside : ∀ bid ∈ (db₀.batches.filter
      (fun b => b.flowId == some aId)).map BatchRec.id,
      x.batchId ≠ some bid := by
    intro bid hbid
    obtain ⟨K, hK, hKid⟩ := List.mem_map.mp hbid
    obtain ⟨hK₁, hK₂⟩ := List.mem_filter.mp hK
    rw [← hKid]
    exact hg.2.2 K hK₁ (by simpa using hK₂)
  have i15 := step15_invA hg
    ((db₀.batches.filter (fun b => b.flowId == some aId)).map BatchRec.id)
    (db₀, []) hside hinv
  obtain ⟨hxm, hfs, hbs, hdk, ⟨fl, hflm, hfli, hflt, hflx⟩, hc⟩ := i15
  refine ⟨hxm, hfs, hbs, hdk, ⟨fl, ?_, hfli, hflt, hflx⟩, ?_⟩
  · refine List.mem_filter.mpr ⟨hflm, ?_⟩
    simp only [hfli]
    simpa using fun e => hAB e.symm
  · intro fl' h'
    exact hc fl' (List.mem_filter.mp h').1

theorem deleteBatch_corr {db₀ db : DB} {bid : Int} {db' : DB}
    (hc : FlowsCorr db₀ db) (h : deleteBatch db bid = some db') :
    FlowsCorr db₀ db' := by
  unfold deleteBatch at h
  split at h
  · cases h
  · cases h
    intro fl' hfl'
    obtain ⟨fl₁, hfl₁, hfl₁eq⟩ := List.mem_map.mp hfl'
    obtain ⟨fl₀, hfl₀, hid, htr, hsub⟩ := hc fl₁ hfl₁
    refine ⟨fl₀, hfl₀, ?_, ?_, ?_⟩
    · rw [← hfl₁eq]
      exact hid
    · rw [← hfl₁eq]
      show truthy (scrubDoc fl₁.doc _) = truthy fl₀.doc
      rw [truthy_scrubDoc]
      exact htr
    · rw [← hfl₁eq]
      show extractFileIds (scrubDoc fl₁.doc _) ⊆ extractFileIds fl₀.doc
      exact fun a ha => hsub (scrubDoc_extract_subset _ _ ha)

theorem step15_corr {db₀ : DB} :
    ∀ (bids : List Int) (acc : DB × List Int),
    FlowsCorr db₀ acc.1 → FlowsCorr db₀ (bids.foldl step15body acc).1 := by
  intro bids
  induction bids with
  | nil => exact fun acc h => h
  | cons bid rest ih =>
    intro acc hc
    show FlowsCorr db₀ ((rest.foldl step15body (step15body acc bid)).1)
    refine ih (step15body acc bid) ?_
    unfold step15body
    split
    · exact hc
    · split
      · exact hc
      · rename_i db' hdb'
        exact deleteBatch_corr hc hdb'

theorem deleteBatch_nref {x : FileRec} {db : DB} {bid : Int} {db' : DB}
    (hn : NRef x db) (h : deleteBatch db bid = some db') : NRef x db' := by
  unfold deleteBatch at h
  split at h
  · cases h
  · cases h
    unfold NRef isFileReferenced at hn ⊢
    rw [List.any_eq_false] at hn ⊢
    intro fl' hfl'
    obtain ⟨fl₁, hfl₁, hfl₁eq⟩ := List.mem_map.mp hfl'
    have h₁ := hn fl₁ hfl₁
    intro hcontra
    apply h₁
    rw [Bool.and_eq_true] at hcontra ⊢
    obtain ⟨ht, hm⟩ := hcontra
    rw [← hfl₁eq] at ht hm
    constructor
    · rw [show truthy fl₁.doc = truthy (scrubDoc fl₁.doc _) from
        (truthy_scrubDoc _ _).symm]
      exact ht
    · rw [List.elem_iff] at hm ⊢
      have := scrubDoc_extract_subset _ fl₁.doc (List.mem_toFinset.mpr hm)
      exact List.mem_toFinset.mp this

theorem step3_nref {x : FileRec} :
    ∀ (bids : List Int) (acc : DB × List Int),
    NRef x acc.1 → NRef x (bids.foldl step3body acc).1 := by
  intro bids
  induction bids with
  | nil => exact fun acc h => h
  | cons bid rest ih =>
    intro acc hn
    show NRef x ((rest.foldl step3body (step3body acc bid)).1)
    refine ih (step3body acc bid) ?_
    unfold step3body
    split
    · exact hn
    · split
      · exact hn
      · split
        · simp only []
          split <;> exact hn
        · rename_i db' hdb'
          simp only []
          split
          · exact hn
          · exact deleteBatch_nref hn hdb'

theorem step4body_flows (acc : DB × List Int) (fid : Int) :
    (step4body acc fid).1.flows = acc.1.flows := by
  unfold step4body
  split
  · rfl
  · split
    · rfl
    · rfl

theorem isFileReferenced_congr {db db' : DB} (h : db.flows = db'.flows)
    (fid : Int) : isFileReferenced db fid = isFileReferenced db' fid := by
  unfold isFileReferenced
  rw [h]

theorem step4_files_subset :
    ∀ (fids : List Int) (acc : DB × List Int),
    ∀ f ∈ (fids.foldl step4body acc).1.files, f ∈ acc.1.files := by
  intro fids
  induction fids with
  | nil => exact fun acc f hf => hf
  | cons fid rest ih =>
    intro acc f hf
    have h₁ := ih (step4body acc fid) f hf
    revert h₁
    unfold step4body
    split
    · exact fun h => h
    · split
      · exact fun h => h
      · intro h
        exact (List.mem_filter.mp h).1

theorem step4_removes {x : FileRec} :
    ∀ (fids : List Int) (acc : DB × List Int),
    NRef x acc.1 → x.id ∈ fids →
    ∀ f ∈ (fids.foldl step4body acc).1.files, f.id ≠ x.id := by
  intro fids
  induction fids with
  | nil => exact fun acc _ hmem => absurd hmem (List.not_mem_nil _)
  | cons fid rest ih =>
    intro acc hn hmem
    have hn' : NRef x (step4body acc fid).1 := by
      unfold NRef
      rw [isFileReferenced_congr (step4body_flows acc fid) x.id]
      exact hn
    by_cases hrest : x.id ∈ rest
    · exact ih (step4body acc fid) hn' hrest
    · have hfid : fid = x.id := by
        rcases List.mem_cons.mp hmem with h | h
        · exact h.symm
        · exact absurd h hrest
      subst hfid
      intro f hf
      have hf' := step4_files_subset rest (step4body acc x.id) f hf
      revert hf'
      unfold step4body
      rw [if_neg (by
        rw [show isFileReferenced acc.1 x.id = false from hn]
        exact Bool.false_ne_true)]
      split
      · rename_i hnone
        intro hmemf
        have := List.find?_eq_none.mp hnone f hmemf
        simpa using this
      · intro hmemf
        have := (List.mem_filter.mp hmemf).2
        simpa using this

theorem deleteFlow_removes_unreferenced (db : DB) (bId : Int)
    (bF : FlowRec) (x : FileRec)
    (hfindB : db.flows.find? (fun fl => fl.id == bId) = some bF)
    (hBtr : truthy bF.doc = true)
    (hxB : x.id ∈ extractFileIds bF.doc)
    (honly : ∀ fl ∈ db.flows, fl.id ≠ bId → truthy fl.doc = true →
      x.id ∉ extractFileIds fl.doc) :
    ∃ r, deleteFlow db bId = some r ∧ ∀ f ∈ r.1.files, f.id ≠ x.id := by
  unfold deleteFlow
  rw [hfindB]
  simp only [hBtr, if_true]
  refine ⟨_, rfl, ?_⟩
  apply step4_removes _ _ ?_ (List.mem_toFinset.mp hxB)
  apply step3_nref
  show NRef x _
  unfold NRef isFileReferenced
  rw [List.any_eq_false]
  intro fl' hfl'
  obtain ⟨hm₁, hm₂⟩ := List.mem_filter.mp hfl'
  have hc := step15_corr
    ((db.batches.filter (fun b => b.flowId == some bId)).map BatchRec.id)
    (db, []) (fun fl hfl => ⟨fl, hfl, rfl, rfl, fun a ha => ha⟩) fl' hm₁
  obtain ⟨fl₀, hfl₀, hid, htr, hsub⟩ := hc
  intro hcontra
  rw [Bool.and_eq_true] at hcontra
  obtain ⟨ht, hm⟩ := hcontra
  have hne : fl₀.id ≠ bId := by
    rw [← hid]
    simpa using hm₂
  refine honly fl₀ hfl₀ hne ?_ ?_
  · rw [← htr]
    exact ht
  · exact hsub (List.mem_toFinset.mpr (List.elem_iff.mp hm))

/-- C2 (amended).  GC safety of flow deletion.  With `x` a file of the user
uniquely identified by its id and filename, truthily referenced by a flow
document whose id is B's, and — the proviso the original claim lacks — `x`
not a member of any batch owned by flow A (step 1.5 of `delete_flow`
deletes flow-owned batches unconditionally, `flows.py` lines 188-203):
deleting flow A keeps `x`'s database record and its disk bytes.  And in any
database state where the flow found under B's id truthily references `x`
and no other flow does, deleting flow B removes every file record with
`x`'s id. -/
theorem C2_gc_flow_delete (db₀ : DB) (aId bId : Int) (aF bF : FlowRec)
    (x : FileRec)
    (hfindA : db₀.flows.find? (fun fl => fl.id == aId) = some aF)
    (hBmem : bF ∈ db₀.flows) (hBid : bF.id = bId)
    (hBtr : truthy bF.doc = true)
    (hxB : x.id ∈ extractFileIds bF.doc)
    (hxmem : x ∈ db₀.files) (hxdisk : x.filename ∈ db₀.disk)
    (hAB : aId ≠ bId)
    (hidinj : ∀ f ∈ db₀.files, f.id = x.id → f = x)
    (hfninj : ∀ f ∈ db₀.files, f.filename = x.filename → f = x)
    (hxbatch : ∀ K ∈ db₀.batches, K.flowId = some aId →
      x.batchId ≠ some K.id) :
    (∃ r, deleteFlow db₀ aId = some r ∧ x ∈ r.1.files ∧
      x.filename ∈ r.1.disk) ∧
    (∀ (db' : DB) (bF' : FlowRec),
      db'.flows.find? (fun fl => fl.id == bId) = some bF' →
      truthy bF'.doc = true → x.id ∈ extractFileIds bF'.doc →
      (∀ fl ∈ db'.flows, fl.id ≠ bId → truthy fl.doc = true →
        x.id ∉ extractFileIds fl.doc) →
      ∃ r, deleteFlow db' bId = some r ∧ ∀ f ∈ r.1.files, f.id ≠ x.id) := by
  constructor
  · obtain ⟨r, hr, hinv⟩ := deleteFlow_keeps_referenced hfindA hAB
      ⟨hidinj, hfninj, hxbatch⟩
      ⟨hxmem, fun f hf => hf, fun K hK => hK, hxdisk,
        ⟨bF, hBmem, hBid, hBtr, hxB⟩,
        fun fl hfl => ⟨fl, hfl, rfl, rfl, fun a ha => ha⟩⟩
    exact ⟨r, hr, hinv.1, hinv.2.2.2.1⟩
  · intro db' bF' h1 h2 h3 h4
    exact deleteFlow_removes_unreferenced db' bId bF' x h1 h2 h3 h4

theorem C2_counterexample :
    ((10 : Int) ∈ extractFileIds c2bdoc) ∧
    deleteFlow c2dbX 1
      = some (⟨[⟨2, c2bdocScrubbed⟩], [], [], []⟩, [], [5]) :=
  ⟨by decide, rfl⟩

theorem C2_gc_flow_delete_witness :
    (∃ r, deleteFlow c2dbW 1 = some r ∧
      (⟨10, "x.xlsx", none⟩ : FileRec) ∈ r.1.files ∧
      "x.xlsx" ∈ r.1.disk) ∧
    (∀ (db' : DB) (bF' : FlowRec),
      db'.flows.find? (fun fl => fl.id == 2) = some bF' →
      truthy bF'.doc = true → (10 : Int) ∈ extractFileIds bF'.doc →
      (∀ fl ∈ db'.flows, fl.id ≠ 2 → truthy fl.doc = true →
        (10 : Int) ∉ extractFileIds fl.doc) →
      ∃ r, deleteFlow db' 2 = some r ∧
        ∀ f ∈ r.1.files, f.id ≠ (10 : Int)) := by
  have h := C2_gc_flow_delete c2dbW 1 2 ⟨1, c2adoc⟩ ⟨2, c2bdoc⟩
    ⟨10, "x.xlsx", none⟩ rfl (by simp [c2dbW]) rfl rfl (by decide)
    (by simp [c2dbW]) (by simp [c2dbW]) (by decide)
    (fun f hf e => by
      rw [show c2dbW.files = [⟨10, "x.xlsx", none⟩] from rfl,
        List.mem_singleton] at hf
      exact hf)
    (fun f hf e => by
      rw [show c2dbW.files = [⟨10, "x.xlsx", none⟩] from rfl,
        List.mem_singleton] at hf
      exact hf)
    (fun K hK => by
      rw [show c2dbW.batches = [] from rfl] at hK
      exact absurd hK (List.not_mem_nil K))
  exact h
